import Mathlib

/-!
# VulnExplain dashboard: aggregation and presentation-state engine

Shallow embedding of the pure helpers of `frontend/src/Dashboard.js`
(`groupVulnerabilities`, `getSeverityDistribution`, `getGroupSeverity`,
`toggleGroup`, `toggleVuln`, `getRiskGrade`, `chartData`, the count-up effect
and the scan handlers) together with the part of the
JavaScript object model they rely on: object literals used as dictionaries,
property lookup through `Object.prototype`, and the key order of
`Object.entries`.
-/

namespace VulnExplain

/-! ## Object literals used as dictionaries -/

/-- Property names that every object literal inherits from `Object.prototype`
in a browser.  Reading `obj[name]` for one of these names on an object without
such an own property yields the inherited member (a function, or the prototype
object itself for `__proto__`), which is truthy. -/
def objectPrototypeKeys : List String :=
  ["constructor", "__defineGetter__", "__defineSetter__", "hasOwnProperty",
   "__lookupGetter__", "__lookupSetter__", "isPrototypeOf", "propertyIsEnumerable",
   "toString", "valueOf", "__proto__", "toLocaleString"]

/-- Own enumerable string-keyed properties of an object literal, in creation
order. -/
abbrev Obj (α : Type) := List (String × α)

/-- Own property `key` of `o`, if there is one. -/
def getOwn {α : Type} : Obj α → String → Option α
  | [], _ => none
  | (k, v) :: rest, key => if k = key then some v else getOwn rest key

/-- Names of the own properties, in creation order. -/
def ownKeys {α : Type} (o : Obj α) : List String := o.map Prod.fst

/-- Assignment `o[key] = v` to a data property: an existing own property keeps
its position, a new one is created after all existing ones. -/
def setOwn {α : Type} : Obj α → String → α → Obj α
  | [], key, v => [(key, v)]
  | (k, x) :: rest, key, v =>
    if k = key then (k, v) :: rest else (k, x) :: setOwn rest key v

/-- The assignment `o[key] = value` of a primitive value (a number, a string
or a boolean).  Without an own property `__proto__`, assigning to that name
runs the inherited setter, which ignores a primitive; every other name gets an
own data property. -/
def assignPrimitive {α : Type} (o : Obj α) (key : String) (value : α) : Obj α :=
  if key = "__proto__" ∧ (getOwn o key).isNone = true then o else setOwn o key value

/-- Value of a string of decimal digits, `none` when some character is not a
digit. -/
def parseDigits : List Char → Nat → Option Nat
  | [], acc => some acc
  | c :: cs, acc =>
    if c.isDigit then parseDigits cs (10 * acc + (c.toNat - 48)) else none

/-- The array index denoted by a property name: the name must be the canonical
decimal form (no leading zero) of an integer below `2^32 - 1`. -/
def arrayIndex? (s : String) : Option Nat :=
  match s.data with
  | [] => none
  | c :: cs =>
    if c = '0' ∧ cs ≠ [] then none
    else
      match parseDigits (c :: cs) 0 with
      | some n => if n < 4294967295 then some n else none
      | none => none

/-- Whether a property name is an array index. -/
def isArrayIndex (s : String) : Bool := (arrayIndex? s).isSome

/-- Numeric order on array-index property names. -/
def keyIndexLE (a b : String) : Prop :=
  (arrayIndex? a).getD 0 ≤ (arrayIndex? b).getD 0

instance : DecidableRel keyIndexLE :=
  fun a b => inferInstanceAs (Decidable ((arrayIndex? a).getD 0 ≤ (arrayIndex? b).getD 0))

/-- Numeric order on properties whose name is an array index. -/
def indexLE {α : Type} (a b : String × α) : Prop := keyIndexLE a.1 b.1

instance {α : Type} : DecidableRel (indexLE (α := α)) :=
  fun a b => inferInstanceAs (Decidable (keyIndexLE a.1 b.1))

/-- The list `Object.entries(o)`: own properties whose name is an array index
come first, in ascending numeric order; all other properties follow in creation
order. -/
def entries {α : Type} (o : Obj α) : Obj α :=
  (o.filter (fun p => isArrayIndex p.1)).insertionSort indexLE
    ++ o.filter (fun p => !isArrayIndex p.1)

/-- Errors raised by the embedded code. -/
inductive JSError where
  | typeError (msg : String)
  deriving DecidableEq, Repr

/-- The loop `xs.forEach(x => ...)` over a state, stopping at the first
exception. -/
def forEachM {σ α : Type} (step : σ → α → Except JSError σ) : σ → List α → Except JSError σ
  | s, [] => .ok s
  | s, a :: rest =>
    match step s a with
    | .ok s1 => forEachM step s1 rest
    | .error e => .error e

/-! ## Data model -/

/-- A vulnerability as supplied by the audit service.  Only the fields read by
the embedded helpers are kept: `severity` and `category` drive every
derivation, `title` stands for the display fields; `category = none` is an
absent (undefined or null) category. -/
structure Vulnerability where
  title : String
  severity : String
  category : Option String
  deriving DecidableEq, Repr

/-! ## groupVulnerabilities -/

/-- The expression `vuln.category || 'Other Security Issues'`: an absent or
empty category is falsy. -/
def effectiveCategory (vuln : Vulnerability) : String :=
  match vuln.category with
  | some c => if c = "" then "Other Security Issues" else c
  | none => "Other Security Issues"

/-- Truthiness of `groups[category]`: an own property holds an array (truthy,
also when empty), an inherited `Object.prototype` member is truthy, anything
else is `undefined`. -/
def groupSlotTruthy (groups : Obj (List Vulnerability)) (category : String) : Bool :=
  (getOwn groups category).isSome || decide (category ∈ objectPrototypeKeys)

/-- The call `groups[category].push(vuln)`: only an own property holds an array;
an inherited member has no `push` method, so the call raises. -/
def pushGroup (groups : Obj (List Vulnerability)) (category : String) (vuln : Vulnerability) :
    Except JSError (Obj (List Vulnerability)) :=
  match getOwn groups category with
  | some arr => .ok (setOwn groups category (arr ++ [vuln]))
  | none => .error (.typeError "groups[category].push is not a function")

/-- Body of the `forEach` callback of `groupVulnerabilities`. -/
def groupStep (groups : Obj (List Vulnerability)) (vuln : Vulnerability) :
    Except JSError (Obj (List Vulnerability)) :=
  let category := effectiveCategory vuln
  let groups1 := if !groupSlotTruthy groups category then setOwn groups category [] else groups
  pushGroup groups1 category vuln

/-- Group vulnerabilities by category (`Dashboard.js`, `groupVulnerabilities`). -/
def groupVulnerabilities (vulnerabilities : List Vulnerability) :
    Except JSError (Obj (List Vulnerability)) :=
  forEachM groupStep [] vulnerabilities

/-- Distinct elements of a list in order of first occurrence. -/
def firstOccurrences : List String → List String
  | [] => []
  | c :: cs => c :: (firstOccurrences cs).filter (fun d => d ≠ c)

/-! ## getSeverityDistribution -/

/-- Primitive values stored in the distribution object. -/
inductive JSValue where
  | number (n : Nat)
  | string (s : String)
  deriving DecidableEq, Repr

/-- Result of converting an inherited `Object.prototype` member to a string
(the text of a built-in function is implementation-defined; this is the form
printed by V8). -/
def inheritedText (name : String) : String :=
  if name = "__proto__" then "[object Object]"
  else "function " ++ (if name = "constructor" then "Object" else name)
    ++ "() \x7b [native code] \x7d"

/-- The expression `(dist[key] || 0) + 1`.  A number is incremented; a
non-empty string, or an inherited member (which `+` converts to a string), is
concatenated with `"1"`; `undefined`, `0` and `""` are falsy and give `1`. -/
def nextCount (dist : Obj JSValue) (key : String) : JSValue :=
  match getOwn dist key with
  | some (.number n) => .number (n + 1)
  | some (.string s) => if s = "" then .number 1 else .string (s ++ "1")
  | none =>
    if key ∈ objectPrototypeKeys then .string (inheritedText key ++ "1") else .number 1

/-- Body of the `forEach` callback of `getSeverityDistribution`. -/
def distStep (dist : Obj JSValue) (v : Vulnerability) : Obj JSValue :=
  assignPrimitive dist v.severity (nextCount dist v.severity)

/-- Calculate severity distribution (`Dashboard.js`, `getSeverityDistribution`). -/
def getSeverityDistribution (vulnerabilities : List Vulnerability) : Obj JSValue :=
  vulnerabilities.foldl distStep []

/-- Sum of the values of a distribution, defined when every value is a
number. -/
def sumValues : Obj JSValue → Option Nat
  | [] => some 0
  | (_, .number n) :: rest => (sumValues rest).map (fun m => n + m)
  | (_, .string _) :: _ => none

/-- Number of vulnerabilities of a list that carry the severity label `s`. -/
def severityCount (s : String) (vs : List Vulnerability) : Nat :=
  vs.countP (fun v => v.severity = s)

/-! ## getGroupSeverity -/

/-- Own properties of the constant `SEVERITY_RANK`. -/
def SEVERITY_RANK : Obj Nat :=
  [("Critical", 5), ("High", 4), ("Medium", 3), ("Low", 2), ("Info", 1)]

/-- Numbers as compared by `>`: a natural number, or `NaN`. -/
inductive JSNumber where
  | nat (n : Nat)
  | nan
  deriving DecidableEq, Repr

/-- The value `SEVERITY_RANK[severity] || 0` as the operand of `>`: an own
rank, `0` for an unknown label, and `NaN` for an inherited `Object.prototype`
member (a function or object, which converts to `NaN`). -/
def lookupRank (severity : String) : JSNumber :=
  match getOwn SEVERITY_RANK severity with
  | some n => .nat n
  | none => if severity ∈ objectPrototypeKeys then .nan else .nat 0

/-- The comparison `a > b`; any comparison with `NaN` is false. -/
def jsGreater : JSNumber → JSNumber → Bool
  | .nat a, .nat b => decide (a > b)
  | _, _ => false

/-- The record `highest` of `getGroupSeverity`. -/
structure Highest where
  severity : String
  rank : JSNumber
  deriving DecidableEq, Repr

/-- Body of the `forEach` callback of `getGroupSeverity`. -/
def severityStep (highest : Highest) (v : Vulnerability) : Highest :=
  let rank := lookupRank v.severity
  if jsGreater rank highest.rank then { severity := v.severity, rank := rank } else highest

/-- Get highest severity in a group (`Dashboard.js`, `getGroupSeverity`). -/
def getGroupSeverity (vulns : List Vulnerability) : String :=
  (vulns.foldl severityStep { severity := "Info", rank := .nat 0 }).severity

/-- The severity ranking of the specification: Critical=5, High=4, Medium=3,
Low=2, Info=1 and 0 for any other label. -/
def specRank (s : String) : Nat :=
  if s = "Critical" then 5
  else if s = "High" then 4
  else if s = "Medium" then 3
  else if s = "Low" then 2
  else if s = "Info" then 1
  else 0

/-! ## Disclosure state -/

/-- Truthiness of `obj[key]` for an object of boolean flags: the own property
when there is one, otherwise an inherited `Object.prototype` member (truthy),
otherwise `undefined`. -/
def flagTruthy (obj : Obj Bool) (key : String) : Bool :=
  match getOwn obj key with
  | some b => b
  | none => decide (key ∈ objectPrototypeKeys)

/-- A key is open (expanded) in a state when the state holds a true entry for
it. -/
def isOpen (state : Obj Bool) (key : String) : Bool :=
  (getOwn state key).getD false

/-- Toggle group expansion: the updater passed to `setExpandedGroups`
(`Dashboard.js`, `toggleGroup`). -/
def toggleGroup (category : String) (prev : Obj Bool) : Obj Bool :=
  let newState : Obj Bool := []
  if !flagTruthy prev category then assignPrimitive newState category true else newState

/-- States reachable from the initial `expandedGroups` (the empty object) by
`toggleGroup` operations. -/
inductive Reachable : Obj Bool → Prop where
  | init : Reachable []
  | toggle (category : String) {state : Obj Bool} :
      Reachable state → Reachable (toggleGroup category state)

/-- Toggle vulnerability description: the updater passed to `setExpandedVulns`
(`Dashboard.js`, `toggleVuln`).  The spread copies the own properties in
`Object.entries` order, then the computed key is defined. -/
def toggleVuln (vulnId : String) (prev : Obj Bool) : Obj Bool :=
  setOwn (entries prev) vulnId (!flagTruthy prev vulnId)

/-- Finding key of the grouped view, the template `${category}-${idx}`; the
flat view uses the same template with the literal prefix `all`. -/
def vulnIdOf (pre : String) (idx : Nat) : String :=
  pre ++ "-" ++ toString idx

/-! ## getRiskGrade -/

/-- Result record of `getRiskGrade`. -/
structure RiskGrade where
  grade : String
  color : String
  status : String
  deriving DecidableEq, Repr

/-- Calculate risk grade from security score (`Dashboard.js`, `getRiskGrade`). -/
def getRiskGrade (score : Int) : RiskGrade :=
  if score ≥ 90 then
    { grade := "A", color := "bg-green-100 text-green-800 border-green-300 dark:bg-green-900/30 dark:text-green-300 dark:border-green-700", status := "Secure" }
  else if score ≥ 75 then
    { grade := "B", color := "bg-lime-100 text-lime-800 border-lime-300 dark:bg-lime-900/30 dark:text-lime-300 dark:border-lime-700", status := "Good" }
  else if score ≥ 60 then
    { grade := "C", color := "bg-yellow-100 text-yellow-800 border-yellow-300 dark:bg-yellow-900/30 dark:text-yellow-300 dark:border-yellow-700", status := "Fix Required" }
  else if score ≥ 40 then
    { grade := "D", color := "bg-orange-100 text-orange-800 border-orange-300 dark:bg-orange-900/30 dark:text-orange-300 dark:border-orange-700", status := "Fix Required" }
  else
    { grade := "F", color := "bg-red-100 text-red-800 border-red-300 dark:bg-red-900/30 dark:text-red-300 dark:border-red-700", status := "Fix Required" }

/-! ## Security-score badge -/

/-- Label of the badge on the security-score card (`Dashboard.js`, the
conditional on `auditResult.security_score` in the markup). -/
def securityScoreBadge (security_score : Int) : String :=
  if security_score ≥ 80 then "Good"
  else if security_score ≥ 60 then "Fair"
  else "At Risk"

/-! ## Audit result and chart data -/

/-- The four fields of `detailedImpact.breakdown`. -/
structure Breakdown where
  fixCost : Int
  downtime : Int
  regulatoryFines : Int
  reputation : Int
  deriving DecidableEq, Repr

/-- The record `detailedImpact` of an audit result. -/
structure DetailedImpact where
  totalINR : Nat
  breakdown : Breakdown
  deriving DecidableEq, Repr

/-- An audit result as returned by the audit service (data model: score,
vulnerabilities, and the financial impact with its four-way breakdown). -/
structure AuditResult where
  security_score : Int
  vulnerabilities : List Vulnerability
  detailedImpact : DetailedImpact
  deriving DecidableEq, Repr

/-- One slice of the pie chart. -/
structure ChartEntry where
  name : String
  value : Int
  fill : String
  deriving DecidableEq, Repr

/-- Dynamic chart data based on the chart view mode (`Dashboard.js`,
`chartData`): four fixed financial slices, or the five severity slices with the
empty ones filtered out; no data without an audit result. -/
def chartData (auditResult : Option AuditResult) (chartView : String) : List ChartEntry :=
  match auditResult with
  | some r =>
    if chartView = "financial" then
      [{ name := "Fix Costs", value := r.detailedImpact.breakdown.fixCost, fill := "#3b82f6" },
       { name := "Downtime", value := r.detailedImpact.breakdown.downtime, fill := "#ef4444" },
       { name := "Legal/Fines", value := r.detailedImpact.breakdown.regulatoryFines,
         fill := "#f59e0b" },
       { name := "Reputation", value := r.detailedImpact.breakdown.reputation,
         fill := "#8b5cf6" }]
    else
      ([{ name := "Critical",
          value := ((r.vulnerabilities.filter (fun v => v.severity = "Critical")).length : Int),
          fill := "#ef4444" },
        { name := "High",
          value := ((r.vulnerabilities.filter (fun v => v.severity = "High")).length : Int),
          fill := "#f97316" },
        { name := "Medium",
          value := ((r.vulnerabilities.filter (fun v => v.severity = "Medium")).length : Int),
          fill := "#eab308" },
        { name := "Low",
          value := ((r.vulnerabilities.filter (fun v => v.severity = "Low")).length : Int),
          fill := "#3b82f6" },
        { name := "Info",
          value := ((r.vulnerabilities.filter (fun v => v.severity = "Info")).length : Int),
          fill := "#6b7280" }] : List ChartEntry).filter (fun item => item.value > 0)
  | none => []

/-- The fixed sequence of severity labels of the chart. -/
def chartSeverities : List String := ["Critical", "High", "Medium", "Low", "Info"]

/-! ## Double-precision arithmetic of the animated counter

JavaScript numbers are IEEE 754 binary64 values.  The counter divides and
multiplies, so both operations are modelled exactly: the real result rounded
to the nearest number with a 53-bit significand, ties to the even significand.
The exponent range is not bounded, which is exact for all magnitudes between
`2^-1022` and `2^1024`, in particular for every computation on targets below
`2^53`. -/

/-- Round to the nearest integer, ties to the even integer. -/
def roundHalfEven (x : ℚ) : ℤ :=
  if x - ⌊x⌋ < 1 / 2 then ⌊x⌋
  else if 1 / 2 < x - ⌊x⌋ then ⌊x⌋ + 1
  else if ⌊x⌋ % 2 = 0 then ⌊x⌋ else ⌊x⌋ + 1

/-- Spacing of the binary64 numbers in the binade of `q`: `2^(e-52)` when
`2^e ≤ |q| < 2^(e+1)`. -/
def ulp (q : ℚ) : ℚ := (2 : ℚ) ^ (Int.log 2 |q| - 52)

/-- The binary64 number nearest to `q` (round to nearest, ties to even). -/
def roundDouble (q : ℚ) : ℚ := (roundHalfEven (q / ulp q) : ℚ) * ulp q

/-- The operator `a / b` on numbers. -/
def jsDiv (a b : ℚ) : ℚ := roundDouble (a / b)

/-- The operator `a * b` on numbers. -/
def jsMul (a b : ℚ) : ℚ := roundDouble (a * b)

/-! ## Animated counter -/

/-- State of one count-up animation: the closure variable `currentStep`, the
displayed `animatedRisk`, and whether the interval timer is still running. -/
structure CounterState where
  currentStep : Nat
  animatedRisk : Int
  timerActive : Bool
  deriving DecidableEq, Repr

/-- The value `Math.floor(increment * currentStep)` with
`increment = targetValue / steps` and `steps = 60`. -/
def counterFrame (targetValue currentStep : Nat) : Int :=
  ⌊jsMul (jsDiv targetValue 60) currentStep⌋

/-- One firing of the interval callback of the count-up effect; a cleared
timer does not fire. -/
def counterTick (targetValue : Nat) (s : CounterState) : CounterState :=
  if s.timerActive then
    if s.currentStep + 1 ≤ 60 then
      { currentStep := s.currentStep + 1,
        animatedRisk := counterFrame targetValue (s.currentStep + 1),
        timerActive := true }
    else
      { currentStep := s.currentStep + 1, animatedRisk := targetValue, timerActive := false }
  else s

/-- State of the animation after `n` timer periods, started with
`currentStep = 0` and the displayed value 0. -/
def counterRun (targetValue : Nat) : Nat → CounterState
  | 0 => { currentStep := 0, animatedRisk := 0, timerActive := true }
  | n + 1 => counterTick targetValue (counterRun targetValue n)

/-! ## Scan handlers -/

/-- The ordered phase labels of the scan animation. -/
def scanSteps : List String :=
  ["Initializing secure scan environment",
   "Parsing repository structure",
   "Running static analysis engine",
   "Detecting vulnerability patterns",
   "Evaluating dependency risks",
   "Mapping compliance impact",
   "Calculating risk score"]

/-- The updater passed to `setScanStep` by the step timer. -/
def stepTick (prev : Int) : Int :=
  if prev < (scanSteps.length : Int) - 1 then prev + 1 else prev

/-- The error caught by a handler: `detail` is the value of
`error.response?.data?.detail` (absent when any link of the chain is missing),
`message` is `error.message`. -/
structure AxiosError where
  detail : Option String
  message : String
  deriving DecidableEq, Repr

/-- A file chosen in the upload tab. -/
structure UploadedFile where
  name : String
  deriving DecidableEq, Repr

/-- Requests sent to the audit service. -/
inductive Request where
  | audit (code_snippet : String) (language : String)
  | auditRepoUrl (github_url : String)
  | auditRepoFile (file : UploadedFile)
  deriving DecidableEq, Repr

/-- Observable actions of the handlers and of their timer callbacks, in
program order. -/
inductive Effect where
  | setLoading (b : Bool)
  | setIsScanning (b : Bool)
  | setScanStep (n : Int)
  | setAuditResult (r : AuditResult)
  | setIntervalStep (timer : Nat) (ms : Nat)
  | clearIntervalStep (timer : Nat)
  | setTimeoutPublish (response : AuditResult) (ms : Nat)
  | post (request : Request) (timeout : Nat)
  | toastError (msg : String)
  | toastSuccess (msg : String)
  | consoleError (msg : String)
  deriving DecidableEq, Repr

/-- The dashboard state written by the scan handlers, with the running step
timers, the pending grace callbacks, and the messages shown so far. -/
structure ScanState where
  loading : Bool
  isScanning : Bool
  scanStep : Int
  auditResult : Option AuditResult
  intervals : List Nat
  timeouts : List AuditResult
  requests : List Request
  toasts : List String
  deriving DecidableEq, Repr

/-- Effect of one action on the state. -/
def applyEffect (s : ScanState) : Effect → ScanState
  | .setLoading b => { s with loading := b }
  | .setIsScanning b => { s with isScanning := b }
  | .setScanStep n => { s with scanStep := n }
  | .setAuditResult r => { s with auditResult := some r }
  | .setIntervalStep timer _ => { s with intervals := s.intervals ++ [timer] }
  | .clearIntervalStep timer => { s with intervals := s.intervals.filter (fun t => t ≠ timer) }
  | .setTimeoutPublish response _ => { s with timeouts := s.timeouts ++ [response] }
  | .post request _ => { s with requests := s.requests ++ [request] }
  | .toastError msg => { s with toasts := s.toasts ++ [msg] }
  | .toastSuccess msg => { s with toasts := s.toasts ++ [msg] }
  | .consoleError _ => s

/-- Run a sequence of actions. -/
def runEffects (s : ScanState) (effects : List Effect) : ScanState :=
  effects.foldl applyEffect s

/-- Code points removed by `String.prototype.trim`: white space and line
terminators. -/
def isTrimmed (c : Char) : Bool :=
  decide (c.toNat ∈ [0x9, 0xA, 0xB, 0xC, 0xD, 0x20, 0xA0, 0x1680, 0x2028, 0x2029, 0x202F,
    0x205F, 0x3000, 0xFEFF]) || (decide (0x2000 ≤ c.toNat) && decide (c.toNat ≤ 0x200A))

/-- The condition `!codeSnippet.trim()`: the trimmed text is empty. -/
def trimIsEmpty (text : String) : Bool := text.data.all isTrimmed

/-- Actions of `handleCodeAudit` up to the `await`: the validation, the state
writes, the step timer (`timer` is the id returned by `setInterval`) and the
request. -/
def handleCodeAuditStart (codeSnippet : String) (timer : Nat) : List Effect :=
  if trimIsEmpty codeSnippet then
    [.toastError "Please enter code to audit"]
  else
    [.setLoading true, .setIsScanning true, .setScanStep 0, .setIntervalStep timer 600,
     .post (.audit codeSnippet "auto-detect") 120000]

/-- Actions of `handleCodeAudit` when the request succeeds, the `finally`
block included. -/
def handleCodeAuditResolved (response : AuditResult) (timer : Nat) : List Effect :=
  [.clearIntervalStep timer, .setScanStep ((scanSteps.length : Int) - 1),
   .setTimeoutPublish response 800, .setLoading false]

/-- Actions of `handleCodeAudit` when the request fails: the `catch` block and
the `finally` block. -/
def handleCodeAuditRejected (error : AxiosError) (timer : Nat) : List Effect :=
  [.clearIntervalStep timer, .setIsScanning false, .setScanStep 0,
   .consoleError "Audit error:",
   .toastError ("Audit failed: " ++
     (match error.detail with
      | some d => if d = "" then error.message else d
      | none => error.message)),
   .setLoading false]

/-- Actions of `handleRepoAudit` up to the `await`; without a usable input the
handler undoes the scan state and returns, and the `finally` block still
runs. -/
def handleRepoAuditStart (activeTab githubUrl : String) (file : Option UploadedFile)
    (timer : Nat) : List Effect :=
  [.setLoading true, .setIsScanning true, .setScanStep 0, .setIntervalStep timer 600] ++
    (if activeTab = "github" ∧ githubUrl ≠ "" then
      [.post (.auditRepoUrl githubUrl) 120000]
    else
      match file with
      | some f =>
        if activeTab = "upload" then [.post (.auditRepoFile f) 120000]
        else
          [.setIsScanning false, .setScanStep 0, .clearIntervalStep timer,
           .toastError "Please provide a GitHub URL or upload a file", .setLoading false,
           .setLoading false]
      | none =>
        [.setIsScanning false, .setScanStep 0, .clearIntervalStep timer,
         .toastError "Please provide a GitHub URL or upload a file", .setLoading false,
         .setLoading false])

/-- Actions of `handleRepoAudit` when the request succeeds, the `finally`
block included. -/
def handleRepoAuditResolved (response : AuditResult) (timer : Nat) : List Effect :=
  [.clearIntervalStep timer, .setScanStep ((scanSteps.length : Int) - 1),
   .setTimeoutPublish response 800, .setLoading false]

/-- Actions of `handleRepoAudit` when the request fails: the `catch` block and
the `finally` block. -/
def handleRepoAuditRejected (error : AxiosError) (timer : Nat) : List Effect :=
  [.clearIntervalStep timer, .setIsScanning false, .setScanStep 0,
   .consoleError "Audit error:",
   .toastError ("Audit failed: " ++
     (match error.detail with
      | some d => if d = "" then error.message else d
      | none => error.message)),
   .setLoading false]

/-- Actions of the callback passed to `setTimeout` on success (the same text
in both handlers). -/
def publishCallback (response : AuditResult) : List Effect :=
  [.setAuditResult response, .setIsScanning false, .setScanStep 0,
   .toastSuccess "Security audit completed"]

/-- The step timer `timer` fires: a running timer applies the updater, a
cleared one does nothing. -/
def intervalFires (timer : Nat) (s : ScanState) : ScanState :=
  if timer ∈ s.intervals then { s with scanStep := stepTick s.scanStep } else s

/-- The grace timeout holding `response` fires: a pending callback runs once. -/
def timeoutFires (response : AuditResult) (s : ScanState) : ScanState :=
  if response ∈ s.timeouts then
    runEffects { s with timeouts := s.timeouts.erase response } (publishCallback response)
  else s

/-! ## Team panel and plan -/

/-- The two overlay flags written by the team button; both start as `false`. -/
structure PlanState where
  showTeamPanel : Bool
  showUpgradeModal : Bool
  deriving DecidableEq, Repr

/-- Team collaboration handler (`Dashboard.js`, `handleTeamClick`). -/
def handleTeamClick (selectedPlan : String) (s : PlanState) : PlanState :=
  if selectedPlan = "enterprise" then { s with showTeamPanel := true }
  else { s with showUpgradeModal := true }

/-- Render guard of the team panel,
`showTeamPanel && selectedPlan === 'enterprise'`. -/
def teamPanelShown (selectedPlan : String) (s : PlanState) : Bool :=
  s.showTeamPanel && decide (selectedPlan = "enterprise")

/-- Render guard of the upgrade prompt, `showUpgradeModal`. -/
def upgradeModalShown (s : PlanState) : Bool := s.showUpgradeModal

/-! ## Severity-count display -/

/-- The comparator
`(a, b) => (SEVERITY_RANK[b[0]] || 0) - (SEVERITY_RANK[a[0]] || 0)` as `sort`
reads it: a difference of two ranks, and `0` when the difference is `NaN`
(one of the two labels names an inherited `Object.prototype` member). -/
def rankComparator (a b : String × JSValue) : Int :=
  match lookupRank b.1, lookupRank a.1 with
  | .nat rb, .nat ra => (rb : Int) - (ra : Int)
  | _, _ => 0

/-- The loop of `CountAndMakeRun` that extends the initial run: starting after
`previous`, elements are taken while they continue the run (strictly
descending, or not descending); the result is the rest of the run and the
elements left over. -/
def extendRun {α : Type} (compare : α → α → Int) (descending : Bool) :
    α → List α → List α × List α
  | _, [] => ([], [])
  | previous, current :: rest =>
    if (if descending then decide (0 ≤ compare current previous)
        else decide (compare current previous < 0)) = true then
      ([], current :: rest)
    else
      let r := extendRun compare descending current rest
      (current :: r.1, r.2)

/-- `CountAndMakeRun` of the sort of V8: the longest initial run, reversed
when it is strictly descending, and the elements after it. -/
def countAndMakeRun {α : Type} (compare : α → α → Int) : List α → List α × List α
  | [] => ([], [])
  | [a] => ([a], [])
  | low :: high :: rest =>
    let descending := decide (compare high low < 0)
    let r := extendRun compare descending high rest
    (if descending then (low :: high :: r.1).reverse else low :: high :: r.1, r.2)

/-- The binary search of `BinaryInsertionSort`: between `left` and `right` the
middle element is compared with the pivot; `right` moves to the middle when
the comparator is negative, `left` moves past the middle otherwise. -/
def insertionPoint {α : Type} (compare : α → α → Int) (pivot : α) (sorted : List α) :
    Nat → Nat → Nat → Nat
  | 0, left, _ => left
  | fuel + 1, left, right =>
    if left < right then
      match sorted[left + (right - left) / 2]? with
      | some x =>
        if compare pivot x < 0 then
          insertionPoint compare pivot sorted fuel left (left + (right - left) / 2)
        else insertionPoint compare pivot sorted fuel (left + (right - left) / 2 + 1) right
      | none => left
    else left

/-- One round of `BinaryInsertionSort`: the pivot is inserted at the position
found by the binary search in the sorted part. -/
def binaryInsert {α : Type} (compare : α → α → Int) (sorted : List α) (pivot : α) : List α :=
  sorted.take (insertionPoint compare pivot sorted sorted.length 0 sorted.length)
    ++ pivot
      :: sorted.drop (insertionPoint compare pivot sorted sorted.length 0 sorted.length)

/-- The method `sort` with a comparator, as V8 runs it on an array of fewer
than 64 elements: the whole array is one run, made of the initial run found by
`CountAndMakeRun` and extended by `BinaryInsertionSort`.  The comparator's
result is read as `compare a b` (a `NaN` already replaced by 0).  An array of
64 or more elements is cut into several runs that are merged; that phase is
not embedded, and the result is `none`. -/
def sortBy {α : Type} (compare : α → α → Int) (l : List α) : Option (List α) :=
  if l.length < 64 then
    some ((countAndMakeRun compare l).2.foldl (binaryInsert compare)
      (countAndMakeRun compare l).1)
  else none

/-- The rows of the severity-count display:
`Object.entries(getSeverityDistribution(vulnerabilities)).sort(...)`. -/
def severityDisplay (vulnerabilities : List Vulnerability) :
    Option (List (String × JSValue)) :=
  sortBy rankComparator (entries (getSeverityDistribution vulnerabilities))

/-! ## Count-up effect -/

/-- One running interval timer of the count-up effect with the variables of
its closure. -/
structure CounterTimer where
  id : Nat
  targetValue : Nat
  currentStep : Nat
  deriving DecidableEq, Repr

/-- The state read and written by the count-up effect: its dependency
`auditResult`, the displayed `animatedRisk`, the running counter timers, and
the timer id held by the cleanup function that the last run of the effect
returned (none when that run returned nothing). -/
structure CountUpState where
  auditResult : Option AuditResult
  animatedRisk : Int
  timers : List CounterTimer
  cleanup : Option Nat
  deriving DecidableEq, Repr

/-- Body of the count-up effect; `timer` is the id returned by `setInterval`. -/
def countUpEffect (timer : Nat) (s : CountUpState) : CountUpState :=
  match s.auditResult with
  | some r =>
    { s with
      timers := s.timers ++
        [{ id := timer, targetValue := r.detailedImpact.totalINR, currentStep := 0 }],
      cleanup := some timer }
  | none => { s with animatedRisk := 0, cleanup := none }

/-- The cleanup function of the count-up effect, `() => clearInterval(timer)`. -/
def countUpCleanup (s : CountUpState) : CountUpState :=
  match s.cleanup with
  | some timer => { s with timers := s.timers.filter (fun c => c.id ≠ timer), cleanup := none }
  | none => s

/-- The counter timer `timer` fires: a running timer runs the interval
callback, a cleared one does nothing. -/
def countUpTick (timer : Nat) (s : CountUpState) : CountUpState :=
  match s.timers.find? (fun c => c.id = timer) with
  | some c =>
    if c.currentStep + 1 ≤ 60 then
      { s with
        animatedRisk := counterFrame c.targetValue (c.currentStep + 1),
        timers := s.timers.map
          (fun d => if d.id = timer then { d with currentStep := d.currentStep + 1 } else d) }
    else
      { s with
        animatedRisk := c.targetValue,
        timers := s.timers.filter (fun d => d.id ≠ timer) }
  | none => s

/-- Events seen by the count-up effect. -/
inductive CountUpEvent where
  | timerFires (timer : Nat)
  | auditResultChanged (auditResult : Option AuditResult) (timer : Nat)
  | unmounted
  deriving DecidableEq, Repr

/-- Reaction to one event.  When the dependency `auditResult` changes, the
cleanup of the previous run of the effect is called and the effect runs again;
when the dashboard unmounts, the cleanup is called. -/
def countUpStep (s : CountUpState) : CountUpEvent → CountUpState
  | .timerFires timer => countUpTick timer s
  | .auditResultChanged auditResult timer =>
    countUpEffect timer (countUpCleanup { s with auditResult := auditResult })
  | .unmounted => countUpCleanup s

/-- The state after the first render: no result, `animatedRisk` 0, and the
effect has run its `else` branch. -/
def countUpMounted : CountUpState :=
  countUpEffect 0 { auditResult := none, animatedRisk := 0, timers := [], cleanup := none }

/-- Every running counter timer is the one held by the cleanup function and
counts towards the total of the current result. -/
def CountUpInv (s : CountUpState) : Prop :=
  ∀ c ∈ s.timers, s.cleanup = some c.id
    ∧ ∃ r, s.auditResult = some r ∧ c.targetValue = r.detailedImpact.totalINR

/-! ## Scan sessions -/

/-- A request awaiting its response, with the step timer of its handler run
and the handler that sent it. -/
structure PendingRequest where
  timer : Nat
  repo : Bool
  deriving DecidableEq, Repr

/-- The scan state of the dashboard together with the requests in flight. -/
structure ScanRun where
  scan : ScanState
  inFlight : List PendingRequest
  deriving DecidableEq, Repr

/-- The render condition of the audit buttons: the input form is rendered when
neither the scan screen (`isScanning`) nor a result view (`auditResult`) is,
and its buttons are disabled while `loading`. -/
def canAnalyze (s : ScanState) : Bool :=
  !s.isScanning && s.auditResult.isNone && !s.loading

/-- The two conditions under which `handleRepoAudit` sends a request. -/
def hasRepoInput (activeTab githubUrl : String) (file : Option UploadedFile) : Bool :=
  (decide (activeTab = "github") && decide (githubUrl ≠ "")) ||
    (decide (activeTab = "upload") && file.isSome)

/-- Events of a dashboard session that touch the scan state. -/
inductive ScanEvent where
  | analyzeCode (codeSnippet : String) (timer : Nat)
  | analyzeRepo (activeTab githubUrl : String) (file : Option UploadedFile) (timer : Nat)
  | stepTimerFires (timer : Nat)
  | resolved (response : AuditResult) (timer : Nat)
  | rejected (error : AxiosError) (timer : Nat)
  | graceFires (response : AuditResult)
  deriving DecidableEq, Repr

/-- Reaction to one event: a click on an audit button that is not rendered or
is disabled does nothing, a response is handled by the handler run that sent
the request. -/
def scanEvent (d : ScanRun) : ScanEvent → ScanRun
  | .analyzeCode codeSnippet timer =>
    if canAnalyze d.scan then
      { scan := runEffects d.scan (handleCodeAuditStart codeSnippet timer),
        inFlight :=
          if trimIsEmpty codeSnippet then d.inFlight
          else d.inFlight ++ [{ timer := timer, repo := false }] }
    else d
  | .analyzeRepo activeTab githubUrl file timer =>
    if canAnalyze d.scan then
      { scan := runEffects d.scan (handleRepoAuditStart activeTab githubUrl file timer),
        inFlight :=
          if hasRepoInput activeTab githubUrl file then
            d.inFlight ++ [{ timer := timer, repo := true }]
          else d.inFlight }
    else d
  | .stepTimerFires timer => { d with scan := intervalFires timer d.scan }
  | .resolved response timer =>
    match d.inFlight.find? (fun p => p.timer = timer) with
    | some p =>
      { scan := runEffects d.scan
          (if p.repo then handleRepoAuditResolved response timer
           else handleCodeAuditResolved response timer),
        inFlight := d.inFlight.filter (fun q => q.timer ≠ timer) }
    | none => d
  | .rejected error timer =>
    match d.inFlight.find? (fun p => p.timer = timer) with
    | some p =>
      { scan := runEffects d.scan
          (if p.repo then handleRepoAuditRejected error timer
           else handleCodeAuditRejected error timer),
        inFlight := d.inFlight.filter (fun q => q.timer ≠ timer) }
    | none => d
  | .graceFires response => { d with scan := timeoutFires response d.scan }

/-- The scan state after the first render. -/
def scanMounted : ScanRun :=
  { scan :=
      { loading := false, isScanning := false, scanStep := 0, auditResult := none,
        intervals := [], timeouts := [], requests := [], toasts := [] },
    inFlight := [] }

/-- The state of a dashboard session after a sequence of events. -/
def scanSession (events : List ScanEvent) : ScanRun :=
  events.foldl scanEvent scanMounted

/-- The three phases of the scan state: idle (no scan screen, nothing
pending), requesting (scan screen, one request in flight with its step timer
running), and grace (scan screen, the request answered, the timer cleared and
one publishing callback pending). -/
def ScanInv (d : ScanRun) : Prop :=
  (d.scan.isScanning = false ∧ d.scan.intervals = [] ∧ d.scan.timeouts = [] ∧ d.inFlight = [])
    ∨ (d.scan.isScanning = true
        ∧ ∃ p, d.inFlight = [p] ∧ d.scan.intervals = [p.timer] ∧ d.scan.timeouts = [])
    ∨ (d.scan.isScanning = true
        ∧ ∃ r, d.inFlight = [] ∧ d.scan.intervals = [] ∧ d.scan.timeouts = [r])

/-! ## Lifetime of the dashboard -/

/-- The dashboard component over its lifetime: whether it is mounted, its scan
state together with the timers started by its handlers, and its count-up
state. -/
structure Dashboard where
  mounted : Bool
  scan : ScanState
  countUp : CountUpState
  deriving DecidableEq, Repr

/-- Effect of one action performed after the dashboard was unmounted: the
state updates of an unmounted component are discarded; timers, requests and
messages do not belong to the component and behave as before. -/
def applyEffectUnmounted (s : ScanState) : Effect → ScanState
  | .setLoading _ => s
  | .setIsScanning _ => s
  | .setScanStep _ => s
  | .setAuditResult _ => s
  | e => applyEffect s e

/-- Run a sequence of actions of a handler or callback of the dashboard. -/
def runEffectsOn (d : Dashboard) (effects : List Effect) : Dashboard :=
  { d with
    scan :=
      if d.mounted then runEffects d.scan effects
      else effects.foldl applyEffectUnmounted d.scan }

/-- Unmounting the dashboard calls the cleanup functions of its effects.  The
component registers one effect, the count-up animation, whose cleanup clears
the counter timer; no cleanup refers to the step timer or to the grace timeout
of a scan, which stay as they are. -/
def dashboardUnmounted (d : Dashboard) : Dashboard :=
  { d with mounted := false, countUp := countUpCleanup d.countUp }

/-- Whether the callback of the step timer `timer` is called when its period
elapses: the timer has not been cleared. -/
def stepCallbackRuns (timer : Nat) (d : Dashboard) : Bool :=
  decide (timer ∈ d.scan.intervals)

/-- The period of the step timer `timer` elapses: on a mounted dashboard a
running timer applies the cursor update; after unmount the update it requests
is discarded. -/
def stepTimerFiresOn (timer : Nat) (d : Dashboard) : Dashboard :=
  if d.mounted then { d with scan := intervalFires timer d.scan } else d

/-- The grace timeout holding `response` fires: a pending callback runs
once. -/
def graceFiresOn (response : AuditResult) (d : Dashboard) : Dashboard :=
  if response ∈ d.scan.timeouts then
    runEffectsOn
      { d with scan := { d.scan with timeouts := d.scan.timeouts.erase response } }
      (publishCallback response)
  else d

/-! ## Lemmas on object literals -/

theorem getOwn_eq_none_iff {α : Type} (o : Obj α) (key : String) :
    getOwn o key = none ↔ key ∉ ownKeys o := by
  induction o with
  | nil => simp [getOwn, ownKeys]
  | cons p rest ih =>
    obtain ⟨k, v⟩ := p
    by_cases h : k = key
    · simp [getOwn, ownKeys, h]
    · have h2 : ¬ key = k := fun e => h e.symm
      simpa [getOwn, ownKeys, h, h2] using ih

theorem getOwn_isSome_iff {α : Type} (o : Obj α) (key : String) :
    (getOwn o key).isSome = true ↔ key ∈ ownKeys o := by
  rw [← not_iff_not, ← getOwn_eq_none_iff]
  cases getOwn o key <;> simp

theorem getOwn_setOwn_self {α : Type} (o : Obj α) (key : String) (v : α) :
    getOwn (setOwn o key v) key = some v := by
  induction o with
  | nil => simp [getOwn, setOwn]
  | cons p rest ih =>
    obtain ⟨k, x⟩ := p
    by_cases h : k = key <;> simp [getOwn, setOwn, h, ih]

theorem getOwn_setOwn_ne {α : Type} (o : Obj α) (key other : String) (v : α)
    (hne : other ≠ key) : getOwn (setOwn o key v) other = getOwn o other := by
  induction o with
  | nil =>
    have h2 : ¬ key = other := fun e => hne e.symm
    simp [getOwn, setOwn, h2]
  | cons p rest ih =>
    obtain ⟨k, x⟩ := p
    have hne2 : ¬ key = other := fun e => hne e.symm
    by_cases h : k = key
    · subst h
      simp [getOwn, setOwn, hne2]
    · by_cases h3 : k = other
      · subst h3
        simp [getOwn, setOwn, h]
      · simp [getOwn, setOwn, h, h3, ih]

theorem ownKeys_setOwn_of_mem {α : Type} (o : Obj α) (key : String) (v : α)
    (hmem : key ∈ ownKeys o) : ownKeys (setOwn o key v) = ownKeys o := by
  induction o with
  | nil => simp [ownKeys] at hmem
  | cons p rest ih =>
    obtain ⟨k, x⟩ := p
    by_cases h : k = key
    · simp [setOwn, ownKeys, h]
    · have hr : key ∈ ownKeys rest := by
        simp only [ownKeys, List.map_cons, List.mem_cons] at hmem
        rcases hmem with e | e
        · exact absurd e.symm h
        · exact e
      have := ih hr
      simp only [ownKeys] at this
      simp [setOwn, ownKeys, h, this]

theorem ownKeys_setOwn_of_not_mem {α : Type} (o : Obj α) (key : String) (v : α)
    (hmem : key ∉ ownKeys o) : ownKeys (setOwn o key v) = ownKeys o ++ [key] := by
  induction o with
  | nil => simp [setOwn, ownKeys]
  | cons p rest ih =>
    obtain ⟨k, x⟩ := p
    simp only [ownKeys, List.map_cons, List.mem_cons, not_or] at hmem
    have h : ¬ k = key := fun e => hmem.1 e.symm
    have := ih hmem.2
    simp only [ownKeys] at this
    simp [setOwn, ownKeys, h, this]

/-! ## Lemmas on first occurrences -/

theorem mem_firstOccurrences (cs : List String) (c : String) :
    c ∈ firstOccurrences cs ↔ c ∈ cs := by
  induction cs with
  | nil => simp [firstOccurrences]
  | cons d rest ih =>
    simp only [firstOccurrences, List.mem_cons, List.mem_filter, ih, decide_eq_true_eq]
    by_cases h : c = d <;> simp [h]

theorem nodup_firstOccurrences (cs : List String) : (firstOccurrences cs).Nodup := by
  induction cs with
  | nil => simp [firstOccurrences]
  | cons d rest ih =>
    simp only [firstOccurrences, List.nodup_cons, List.mem_filter, decide_eq_true_eq]
    exact ⟨fun h => h.2 rfl, ih.filter _⟩

theorem setOwn_setOwn {α : Type} (o : Obj α) (key : String) (a b : α) :
    setOwn (setOwn o key a) key b = setOwn o key b := by
  induction o with
  | nil => simp [setOwn]
  | cons p rest ih =>
    obtain ⟨k, x⟩ := p
    by_cases h : k = key <;> simp [setOwn, h, ih]

/-! ## Lemmas on groupVulnerabilities -/

/-- One step of the grouping loop: it raises exactly on a category that is an
inherited name without an own property, and otherwise appends the
vulnerability to the (possibly new) group of its category. -/
theorem groupStep_eq (groups : Obj (List Vulnerability)) (vuln : Vulnerability) :
    groupStep groups vuln =
      if getOwn groups (effectiveCategory vuln) = none
          ∧ effectiveCategory vuln ∈ objectPrototypeKeys then
        .error (.typeError "groups[category].push is not a function")
      else
        .ok (setOwn groups (effectiveCategory vuln)
          ((getOwn groups (effectiveCategory vuln)).getD [] ++ [vuln])) := by
  unfold groupStep groupSlotTruthy pushGroup
  cases hg : getOwn groups (effectiveCategory vuln) with
  | some arr => simp [hg]
  | none =>
    by_cases hp : effectiveCategory vuln ∈ objectPrototypeKeys
    · simp [hg, hp]
    · simp [hg, hp, getOwn_setOwn_self, setOwn_setOwn]

theorem ownKeys_groupStep (groups r : Obj (List Vulnerability)) (vuln : Vulnerability)
    (h : groupStep groups vuln = .ok r) :
    ownKeys r = if effectiveCategory vuln ∈ ownKeys groups then ownKeys groups
      else ownKeys groups ++ [effectiveCategory vuln] := by
  rw [groupStep_eq] at h
  split at h
  · cases h
  · injection h with h
    subst h
    by_cases hm : effectiveCategory vuln ∈ ownKeys groups
    · simp [hm, ownKeys_setOwn_of_mem]
    · simp [hm, ownKeys_setOwn_of_not_mem]

theorem getOwn_groupStep (groups r : Obj (List Vulnerability)) (vuln : Vulnerability)
    (h : groupStep groups vuln = .ok r) (c : String) :
    (getOwn r c).getD [] =
      (getOwn groups c).getD [] ++ (if effectiveCategory vuln = c then [vuln] else []) := by
  rw [groupStep_eq] at h
  split at h
  · cases h
  · injection h with h
    subst h
    by_cases hc : effectiveCategory vuln = c
    · subst hc
      simp [getOwn_setOwn_self]
    · have hc2 : c ≠ effectiveCategory vuln := fun e => hc e.symm
      simp [hc, getOwn_setOwn_ne _ _ _ _ hc2]

theorem filter_ne_filter_not_mem (l ks : List String) (c : String) :
    (l.filter (fun d => d ≠ c)).filter (fun d => d ∉ ks)
      = l.filter (fun d => d ∉ ks ++ [c]) := by
  rw [List.filter_filter]
  congr 1
  funext d
  by_cases h1 : d = c <;> by_cases h2 : d ∈ ks <;> simp [h1, h2]

/-- Keys after running the grouping loop from an intermediate object: the old
keys, then the new categories in order of first occurrence. -/
theorem ownKeys_forEachM_groupStep (vs : List Vulnerability) :
    ∀ (groups r : Obj (List Vulnerability)), forEachM groupStep groups vs = .ok r →
      ownKeys r = ownKeys groups ++
        (firstOccurrences (vs.map effectiveCategory)).filter (fun d => d ∉ ownKeys groups) := by
  induction vs with
  | nil =>
    intro groups r h
    simp only [forEachM] at h
    injection h with h
    simp [h, firstOccurrences]
  | cons v rest ih =>
    intro groups r h
    simp only [forEachM] at h
    cases hs : groupStep groups v with
    | error e => simp [hs] at h
    | ok g1 =>
      simp only [hs] at h
      have hk := ownKeys_groupStep groups g1 v hs
      rw [ih g1 r h, hk]
      simp only [List.map_cons, firstOccurrences]
      by_cases hm : effectiveCategory v ∈ ownKeys groups
      · simp only [hm, if_true, List.filter_cons, not_true_eq_false, decide_False,
          Bool.false_eq_true, if_false]
        congr 1
        rw [List.filter_filter]
        apply List.filter_congr
        intro d _
        by_cases h2 : d ∈ ownKeys groups
        · simp [h2]
        · have : d ≠ effectiveCategory v := fun e => h2 (e ▸ hm)
          simp [h2, this]
      · simp only [hm, if_false, List.filter_cons, not_false_eq_true, decide_True, if_true]
        rw [filter_ne_filter_not_mem]
        simp

/-- Contents of every group after running the grouping loop from an
intermediate object. -/
theorem getOwn_forEachM_groupStep (vs : List Vulnerability) :
    ∀ (groups r : Obj (List Vulnerability)), forEachM groupStep groups vs = .ok r →
      ∀ c, (getOwn r c).getD [] =
        (getOwn groups c).getD [] ++ vs.filter (fun v => effectiveCategory v = c) := by
  induction vs with
  | nil =>
    intro groups r h c
    simp only [forEachM] at h
    injection h with h
    simp [h]
  | cons v rest ih =>
    intro groups r h c
    simp only [forEachM] at h
    cases hs : groupStep groups v with
    | error e => simp [hs] at h
    | ok g1 =>
      simp only [hs] at h
      rw [ih g1 r h c, getOwn_groupStep groups g1 v hs c]
      by_cases hc : effectiveCategory v = c <;> simp [hc, List.filter_cons]

/-- The grouping loop started from an object without inherited names among
its keys returns exactly when no effective category is an inherited name. -/
theorem forEachM_groupStep_ok_iff (vs : List Vulnerability) :
    ∀ (groups : Obj (List Vulnerability)), (∀ k ∈ ownKeys groups, k ∉ objectPrototypeKeys) →
      ((∃ r, forEachM groupStep groups vs = .ok r)
        ↔ ∀ v ∈ vs, effectiveCategory v ∉ objectPrototypeKeys) := by
  induction vs with
  | nil => intro groups _; simp [forEachM]
  | cons v rest ih =>
    intro groups hk
    simp only [forEachM, List.mem_cons, forall_eq_or_imp]
    by_cases hp : effectiveCategory v ∈ objectPrototypeKeys
    · have hnone : getOwn groups (effectiveCategory v) = none := by
        rw [getOwn_eq_none_iff]
        exact fun hm => hk _ hm hp
      have hs : groupStep groups v
          = .error (.typeError "groups[category].push is not a function") := by
        rw [groupStep_eq]; simp [hnone, hp]
      simp [hs, hp]
    · cases hs : groupStep groups v with
      | error e =>
        rw [groupStep_eq] at hs
        simp [hp] at hs
      | ok g1 =>
        have hk1 : ∀ k ∈ ownKeys g1, k ∉ objectPrototypeKeys := by
          intro k hmem
          rw [ownKeys_groupStep groups g1 v hs] at hmem
          split at hmem
          · exact hk k hmem
          · rcases List.mem_append.1 hmem with h1 | h1
            · exact hk k h1
            · simp only [List.mem_singleton] at h1
              exact h1 ▸ hp
        simp only [hp, not_false_eq_true, true_and]
        exact ih g1 hk1

/-- The function `groupVulnerabilities` returns a grouping exactly when no
effective category of the list is a name inherited from `Object.prototype`. -/
theorem groupVulnerabilities_ok_iff (vs : List Vulnerability) :
    (∃ g, groupVulnerabilities vs = .ok g)
      ↔ ∀ v ∈ vs, effectiveCategory v ∉ objectPrototypeKeys :=
  forEachM_groupStep_ok_iff vs [] (by simp [ownKeys])

/-- The groups of a returned grouping, in creation order, are the distinct
effective categories in order of first occurrence. -/
theorem ownKeys_groupVulnerabilities (vs : List Vulnerability) (g : Obj (List Vulnerability))
    (h : groupVulnerabilities vs = .ok g) :
    ownKeys g = firstOccurrences (vs.map effectiveCategory) := by
  have := ownKeys_forEachM_groupStep vs [] g h
  simpa [ownKeys] using this

/-- A category is a key of a returned grouping exactly when it is the effective
category of some vulnerability of the list. -/
theorem mem_ownKeys_groupVulnerabilities (vs : List Vulnerability)
    (g : Obj (List Vulnerability)) (h : groupVulnerabilities vs = .ok g) (c : String) :
    c ∈ ownKeys g ↔ ∃ v ∈ vs, effectiveCategory v = c := by
  rw [ownKeys_groupVulnerabilities vs g h, mem_firstOccurrences]
  simp

/-- The group stored at a key of a returned grouping. -/
theorem getOwn_groupVulnerabilities (vs : List Vulnerability) (g : Obj (List Vulnerability))
    (h : groupVulnerabilities vs = .ok g) (c : String) (hc : c ∈ ownKeys g) :
    getOwn g c = some (vs.filter (fun v => effectiveCategory v = c)) := by
  have hv := getOwn_forEachM_groupStep vs [] g h c
  have hs := (getOwn_isSome_iff g c).2 hc
  cases hg : getOwn g c with
  | none => simp [hg] at hs
  | some x =>
    rw [hg] at hv
    simpa [getOwn] using hv

theorem flatten_setOwn_perm (groups : Obj (List Vulnerability)) (key : String)
    (vuln : Vulnerability) :
    ((setOwn groups key ((getOwn groups key).getD [] ++ [vuln])).map Prod.snd).flatten.Perm
      ((groups.map Prod.snd).flatten ++ [vuln]) := by
  induction groups with
  | nil => simp [setOwn, getOwn]
  | cons p rest ih =>
    obtain ⟨k, x⟩ := p
    by_cases hk : k = key
    · subst hk
      simp only [getOwn, setOwn, if_true, Option.getD_some, List.map_cons, List.flatten_cons,
        List.append_assoc]
      exact List.Perm.append_left x List.perm_append_comm
    · simp only [getOwn, setOwn, hk, if_false, List.map_cons, List.flatten_cons,
        List.append_assoc]
      exact List.Perm.append_left x ih

theorem flatten_forEachM_groupStep_perm (vs : List Vulnerability) :
    ∀ (groups r : Obj (List Vulnerability)), forEachM groupStep groups vs = .ok r →
      (r.map Prod.snd).flatten.Perm ((groups.map Prod.snd).flatten ++ vs) := by
  induction vs with
  | nil =>
    intro groups r h
    simp only [forEachM] at h
    injection h with h
    simp [h]
  | cons v rest ih =>
    intro groups r h
    simp only [forEachM] at h
    cases hs : groupStep groups v with
    | error e => simp [hs] at h
    | ok g1 =>
      simp only [hs] at h
      have h1 := ih g1 r h
      rw [groupStep_eq] at hs
      split at hs
      · cases hs
      · injection hs with hs
        subst hs
        refine h1.trans ?_
        have h2 := (flatten_setOwn_perm groups (effectiveCategory v) v).append_right rest
        simpa using h2

/-- Whenever `groupVulnerabilities` returns, the result partitions the list:
the groups have distinct keys, each group is the sublist of the vulnerabilities
of its category, the groups together are a rearrangement of the list, and
their lengths add up to its length. -/
theorem groupVulnerabilities_partition_of_ok (vs : List Vulnerability)
    (g : Obj (List Vulnerability)) (h : groupVulnerabilities vs = .ok g) :
    (ownKeys g).Nodup
      ∧ (∀ c ∈ ownKeys g, getOwn g c = some (vs.filter (fun v => effectiveCategory v = c)))
      ∧ (∀ v ∈ vs, effectiveCategory v ∈ ownKeys g)
      ∧ (g.map Prod.snd).flatten.Perm vs
      ∧ (g.map (fun p => p.2.length)).sum = vs.length := by
  refine ⟨?_, ?_, ?_, ?_, ?_⟩
  · rw [ownKeys_groupVulnerabilities vs g h]
    exact nodup_firstOccurrences _
  · exact fun c hc => getOwn_groupVulnerabilities vs g h c hc
  · intro v hv
    exact (mem_ownKeys_groupVulnerabilities vs g h _).2 ⟨v, hv, rfl⟩
  · simpa using flatten_forEachM_groupStep_perm vs [] g h
  · have hp := (flatten_forEachM_groupStep_perm vs [] g h).length_eq
    simp only [List.map_nil, List.flatten_nil, List.nil_append, List.length_flatten,
      List.map_map] at hp
    exact hp

/-! ## Claims on groupVulnerabilities -/

/-- Claim C1, evaluated at a failing input: for the one-element list whose
vulnerability has the free-text category `constructor`, which is also the name
of a member every object literal inherits, `groupVulnerabilities` raises a
`TypeError` instead of returning groups, so the list is not partitioned. -/
theorem groupVulnerabilities_raises_on_constructor :
    groupVulnerabilities
        [{ title := "Unsafe merge", severity := "High", category := some "constructor" }]
      = .error (.typeError "groups[category].push is not a function") := rfl

/-- Claim C2: for every vulnerability list and every category key `c` of the
grouping returned by `groupVulnerabilities`, the group stored at `c` is the
sublist, in the original relative order, of the vulnerabilities whose effective
category is `c`. -/
theorem groupVulnerabilities_group_is_filter (vs : List Vulnerability)
    (g : Obj (List Vulnerability)) (c : String)
    (h : groupVulnerabilities vs = .ok g) (hc : c ∈ ownKeys g) :
    getOwn g c = some (vs.filter (fun v => effectiveCategory v = c)) :=
  getOwn_groupVulnerabilities vs g h c hc

/-- Witness for claim C2: three findings, two of them in the category `XSS`
and one without a category. -/
theorem groupVulnerabilities_group_is_filter_witness :
    groupVulnerabilities
        [{ title := "a", severity := "High", category := some "XSS" },
         { title := "b", severity := "Low", category := none },
         { title := "c", severity := "Info", category := some "XSS" }]
      = .ok [("XSS", [{ title := "a", severity := "High", category := some "XSS" },
                      { title := "c", severity := "Info", category := some "XSS" }]),
             ("Other Security Issues", [{ title := "b", severity := "Low", category := none }])]
    ∧ getOwn
        [("XSS", [{ title := "a", severity := "High", category := some "XSS" },
                  { title := "c", severity := "Info", category := some "XSS" }]),
         ("Other Security Issues", [{ title := "b", severity := "Low", category := none }])]
        "XSS"
      = some (([{ title := "a", severity := "High", category := some "XSS" },
                { title := "b", severity := "Low", category := none },
                { title := "c", severity := "Info", category := some "XSS" }] :
                  List Vulnerability).filter (fun v => effectiveCategory v = "XSS")) :=
  ⟨rfl, groupVulnerabilities_group_is_filter _ _ "XSS" rfl (by decide)⟩

/-- Claim C3 fails as stated: with the categories `10` and `9`, in this order,
the grouping is returned, `Object.entries` enumerates the group `9` before the
group `10`, while the order of first occurrence is `10`, `9`. -/
theorem entries_order_counterexample :
    ∃ g, groupVulnerabilities
          [{ title := "a", severity := "High", category := some "10" },
           { title := "b", severity := "Low", category := some "9" }] = .ok g
      ∧ ownKeys (entries g) = ["9", "10"]
      ∧ firstOccurrences
          (([{ title := "a", severity := "High", category := some "10" },
             { title := "b", severity := "Low", category := some "9" }] :
              List Vulnerability).map effectiveCategory) = ["10", "9"] :=
  ⟨_, rfl, by decide, by decide⟩

/-- Claim C3, amended: whenever `groupVulnerabilities` returns a grouping, the
groups in the order of `Object.entries` are the distinct effective categories
that are array indices, in ascending numeric order, followed by the other
distinct effective categories in order of first occurrence; hence, when no
effective category is an array index, the groups are enumerated exactly in
order of first occurrence. -/
theorem groupVulnerabilities_entries_order (vs : List Vulnerability)
    (g : Obj (List Vulnerability)) (h : groupVulnerabilities vs = .ok g) :
    ownKeys (entries g)
        = ((firstOccurrences (vs.map effectiveCategory)).filter isArrayIndex).insertionSort
              keyIndexLE
            ++ (firstOccurrences (vs.map effectiveCategory)).filter (fun c => !isArrayIndex c)
      ∧ ((∀ v ∈ vs, isArrayIndex (effectiveCategory v) = false) →
          ownKeys (entries g) = firstOccurrences (vs.map effectiveCategory)) := by
  have hk := ownKeys_groupVulnerabilities vs g h
  have hgen : ownKeys (entries g)
      = ((ownKeys g).filter isArrayIndex).insertionSort keyIndexLE
          ++ (ownKeys g).filter (fun c => !isArrayIndex c) := by
    unfold entries ownKeys
    rw [List.map_append, List.filter_map, List.filter_map]
    congr 1
    exact List.map_insertionSort indexLE keyIndexLE Prod.fst _ (fun a _ b _ => Iff.rfl)
  rw [hk] at hgen
  refine ⟨hgen, fun hno => ?_⟩
  rw [hgen]
  have hall : ∀ c ∈ firstOccurrences (vs.map effectiveCategory), isArrayIndex c = false := by
    intro c hc
    rw [mem_firstOccurrences] at hc
    obtain ⟨v, hv, rfl⟩ := List.mem_map.1 hc
    exact hno v hv
  have h1 : (firstOccurrences (vs.map effectiveCategory)).filter isArrayIndex = [] := by
    rw [List.filter_eq_nil_iff]
    intro c hc
    simp [hall c hc]
  have h2 : (firstOccurrences (vs.map effectiveCategory)).filter (fun c => !isArrayIndex c)
      = firstOccurrences (vs.map effectiveCategory) := by
    rw [List.filter_eq_self]
    intro c hc
    simp [hall c hc]
  rw [h1, h2]
  simp

/-- Witness for the amended claim C3: the categories `XSS`, `7`, `Auth`, `3`
are returned as groups and enumerated as `3`, `7`, `XSS`, `Auth`; without
array-index categories, the groups `XSS`, `Auth` are enumerated in order of
first occurrence. -/
theorem groupVulnerabilities_entries_order_witness :
    groupVulnerabilities
        [{ title := "a", severity := "High", category := some "XSS" },
         { title := "b", severity := "Low", category := some "7" },
         { title := "c", severity := "Low", category := some "Auth" },
         { title := "d", severity := "Low", category := some "3" }]
      = .ok [("XSS", [{ title := "a", severity := "High", category := some "XSS" }]),
             ("7", [{ title := "b", severity := "Low", category := some "7" }]),
             ("Auth", [{ title := "c", severity := "Low", category := some "Auth" }]),
             ("3", [{ title := "d", severity := "Low", category := some "3" }])]
    ∧ ownKeys (entries
        [("XSS", [({ title := "a", severity := "High", category := some "XSS" } : Vulnerability)]),
         ("7", [{ title := "b", severity := "Low", category := some "7" }]),
         ("Auth", [{ title := "c", severity := "Low", category := some "Auth" }]),
         ("3", [{ title := "d", severity := "Low", category := some "3" }])])
      = ["3", "7", "XSS", "Auth"]
    ∧ (∀ v ∈ ([{ title := "a", severity := "High", category := some "XSS" },
               { title := "b", severity := "Low", category := some "Auth" },
               { title := "c", severity := "Low", category := some "XSS" }] : List Vulnerability),
        isArrayIndex (effectiveCategory v) = false)
    ∧ ownKeys (entries
        [("XSS", [({ title := "a", severity := "High", category := some "XSS" } : Vulnerability),
                  { title := "c", severity := "Low", category := some "XSS" }]),
         ("Auth", [{ title := "b", severity := "Low", category := some "Auth" }])])
      = ["XSS", "Auth"] :=
  ⟨rfl,
    ((groupVulnerabilities_entries_order
      [{ title := "a", severity := "High", category := some "XSS" },
       { title := "b", severity := "Low", category := some "7" },
       { title := "c", severity := "Low", category := some "Auth" },
       { title := "d", severity := "Low", category := some "3" }]
      [("XSS", [{ title := "a", severity := "High", category := some "XSS" }]),
       ("7", [{ title := "b", severity := "Low", category := some "7" }]),
       ("Auth", [{ title := "c", severity := "Low", category := some "Auth" }]),
       ("3", [{ title := "d", severity := "Low", category := some "3" }])] rfl).1).trans
      (by decide),
    by decide,
    ((groupVulnerabilities_entries_order
      [{ title := "a", severity := "High", category := some "XSS" },
       { title := "b", severity := "Low", category := some "Auth" },
       { title := "c", severity := "Low", category := some "XSS" }]
      [("XSS", [{ title := "a", severity := "High", category := some "XSS" },
                { title := "c", severity := "Low", category := some "XSS" }]),
       ("Auth", [{ title := "b", severity := "Low", category := some "Auth" }])] rfl).2
      (by decide)).trans (by decide)⟩

/-! ## Lemmas on getSeverityDistribution -/

theorem firstOccurrences_append_singleton (cs : List String) (s : String) :
    firstOccurrences (cs ++ [s])
      = if s ∈ cs then firstOccurrences cs else firstOccurrences cs ++ [s] := by
  induction cs with
  | nil => simp [firstOccurrences]
  | cons c rest ih =>
    have e : firstOccurrences (c :: rest ++ [s])
        = c :: (firstOccurrences (rest ++ [s])).filter (fun d => d ≠ c) := rfl
    rw [e, ih]
    simp only [firstOccurrences, List.mem_cons]
    by_cases hs : s = c
    · subst hs
      by_cases hm : s ∈ rest <;> simp [hm, List.filter_append]
    · by_cases hm : s ∈ rest <;> simp [hm, hs, List.filter_append]

theorem mem_setOwn {α : Type} (o : Obj α) (key : String) (v : α) (p : String × α)
    (hp : p ∈ setOwn o key v) : p ∈ o ∨ p = (key, v) := by
  induction o with
  | nil => simpa [setOwn] using hp
  | cons q rest ih =>
    obtain ⟨k, x⟩ := q
    by_cases h : k = key
    · subst h
      simp only [setOwn, if_true, List.mem_cons] at hp
      rcases hp with e | e
      · exact Or.inr e
      · exact Or.inl (List.mem_cons_of_mem _ e)
    · simp only [setOwn, h, if_false, List.mem_cons] at hp
      rcases hp with e | e
      · exact Or.inl (e ▸ List.mem_cons_self _ _)
      · rcases ih e with e2 | e2
        · exact Or.inl (List.mem_cons_of_mem _ e2)
        · exact Or.inr e2

theorem mem_of_getOwn {α : Type} (o : Obj α) (key : String) (v : α)
    (h : getOwn o key = some v) : (key, v) ∈ o := by
  induction o with
  | nil => simp [getOwn] at h
  | cons q rest ih =>
    obtain ⟨k, x⟩ := q
    by_cases hk : k = key
    · subst hk
      simp only [getOwn, if_true, Option.some.injEq] at h
      simp [h]
    · simp only [getOwn, hk, if_false] at h
      exact List.mem_cons_of_mem _ (ih h)

/-- On a label that is not an inherited name the loop body stores the
incremented count as an ordinary own property. -/
theorem distStep_of_plain (dist : Obj JSValue) (v : Vulnerability)
    (hv : v.severity ∉ objectPrototypeKeys) :
    distStep dist v = setOwn dist v.severity (nextCount dist v.severity) := by
  unfold distStep assignPrimitive
  have : v.severity ≠ "__proto__" := by
    intro e
    apply hv
    rw [e]
    decide
  simp [this]

/-- With numeric values only, the next count at a label that is not an
inherited name is the stored count plus one, and one for a new label. -/
theorem nextCount_of_numeric (dist : Obj JSValue) (key : String)
    (hnum : ∀ p ∈ dist, ∃ n, p.2 = JSValue.number n) (hk : key ∉ objectPrototypeKeys) :
    ∃ n, nextCount dist key = .number (n + 1)
      ∧ (getOwn dist key = none ∧ n = 0 ∨ getOwn dist key = some (.number n)) := by
  unfold nextCount
  cases hg : getOwn dist key with
  | none => exact ⟨0, by simp [hk], Or.inl ⟨rfl, rfl⟩⟩
  | some x =>
    obtain ⟨n, hn⟩ := hnum _ (mem_of_getOwn dist key x hg)
    simp only at hn
    subst hn
    exact ⟨n, rfl, Or.inr rfl⟩

theorem sumValues_setOwn_nextCount (key : String) (hk : key ∉ objectPrototypeKeys) :
    ∀ (dist : Obj JSValue), (∀ p ∈ dist, ∃ n, p.2 = JSValue.number n) →
      sumValues (setOwn dist key (nextCount dist key)) = (sumValues dist).map (fun m => m + 1) := by
  intro dist
  induction dist with
  | nil =>
    intro _
    simp [nextCount, getOwn, hk, setOwn, sumValues]
  | cons q rest ih =>
    intro hnum
    obtain ⟨k, x⟩ := q
    obtain ⟨n, hn⟩ := hnum (k, x) (List.mem_cons_self _ _)
    simp only at hn
    subst hn
    have hrest : ∀ p ∈ rest, ∃ n, p.2 = JSValue.number n :=
      fun p hp => hnum p (List.mem_cons_of_mem _ hp)
    by_cases h : k = key
    · subst h
      simp only [nextCount, getOwn, if_true, setOwn, sumValues]
      cases sumValues rest with
      | none => rfl
      | some m =>
        simp only [Option.map_some', Option.some.injEq]
        omega
    · have hnc : nextCount ((k, JSValue.number n) :: rest) key = nextCount rest key := by
        simp [nextCount, getOwn, h]
      rw [hnc]
      simp only [setOwn, h, if_false, sumValues, ih hrest]
      cases sumValues rest with
      | none => rfl
      | some m =>
        simp only [Option.map_some', Option.some.injEq]
        omega

theorem severityCount_append_singleton (s : String) (vs : List Vulnerability)
    (v : Vulnerability) :
    severityCount s (vs ++ [v]) = severityCount s vs + (if v.severity = s then 1 else 0) := by
  unfold severityCount
  rw [List.countP_append]
  by_cases h : v.severity = s <;> simp [List.countP_cons, h]

theorem severityCount_eq_zero_iff (s : String) (vs : List Vulnerability) :
    severityCount s vs = 0 ↔ ¬ ∃ v ∈ vs, v.severity = s := by
  unfold severityCount
  rw [List.countP_eq_zero]
  simp

/-- The distribution of a list without inherited names among its severity
labels: every value is a number, the keys are the distinct labels in order of
first occurrence, every present label is mapped to its number of occurrences,
and the values add up to the length of the list. -/
theorem getSeverityDistribution_of_plain (vs : List Vulnerability)
    (hplain : ∀ v ∈ vs, v.severity ∉ objectPrototypeKeys) :
    (∀ p ∈ getSeverityDistribution vs, ∃ n, p.2 = JSValue.number n)
      ∧ ownKeys (getSeverityDistribution vs) = firstOccurrences (vs.map (fun v => v.severity))
      ∧ (∀ s, getOwn (getSeverityDistribution vs) s
            = if severityCount s vs = 0 then none
              else some (JSValue.number (severityCount s vs)))
      ∧ sumValues (getSeverityDistribution vs) = some vs.length := by
  induction vs using List.reverseRecOn with
  | nil =>
    simp [getSeverityDistribution, ownKeys, firstOccurrences, getOwn, severityCount, sumValues]
  | append_singleton vs v ih =>
    have hv : v.severity ∉ objectPrototypeKeys := hplain v (by simp)
    obtain ⟨hnum, hkeys, hget, hsum⟩ := ih (fun u hu => hplain u (by simp [hu]))
    have hstep : getSeverityDistribution (vs ++ [v])
        = setOwn (getSeverityDistribution vs) v.severity
            (nextCount (getSeverityDistribution vs) v.severity) := by
      unfold getSeverityDistribution
      rw [List.foldl_append]
      simp only [List.foldl_cons, List.foldl_nil]
      exact distStep_of_plain _ v hv
    obtain ⟨n, hn, hcase⟩ := nextCount_of_numeric _ v.severity hnum hv
    have hcount : n = severityCount v.severity vs := by
      rcases hcase with ⟨h0, hn0⟩ | h1
      · rw [hget] at h0
        split at h0
        · omega
        · cases h0
      · rw [hget] at h1
        split at h1
        · cases h1
        · injection h1 with h1
          injection h1 with h1
          exact h1.symm
    subst hcount
    rw [hstep, hn]
    refine ⟨?_, ?_, ?_, ?_⟩
    · intro p hp
      rcases mem_setOwn _ _ _ p hp with h1 | h1
      · exact hnum p h1
      · exact ⟨_, by rw [h1]⟩
    · rw [List.map_append, List.map_cons, List.map_nil, firstOccurrences_append_singleton,
        ← hkeys]
      by_cases hm : v.severity ∈ ownKeys (getSeverityDistribution vs)
      · have hm2 : v.severity ∈ List.map (fun v => v.severity) vs := by
          rw [hkeys, mem_firstOccurrences] at hm
          exact hm
        rw [ownKeys_setOwn_of_mem _ _ _ hm, if_pos hm2]
      · have hm2 : v.severity ∉ List.map (fun v => v.severity) vs := by
          rw [hkeys, mem_firstOccurrences] at hm
          exact hm
        rw [ownKeys_setOwn_of_not_mem _ _ _ hm, if_neg hm2]
    · intro s
      rw [severityCount_append_singleton]
      by_cases hs : v.severity = s
      · subst hs
        simp [getOwn_setOwn_self]
      · have hs2 : s ≠ v.severity := fun e => hs e.symm
        rw [getOwn_setOwn_ne _ _ _ _ hs2, hget s]
        simp [hs]
    · rw [← hn, sumValues_setOwn_nextCount _ hv _ hnum, hsum]
      simp

/-! ## Claims on getSeverityDistribution -/

/-- Claim C4, evaluated at a failing input: for the one-element list whose
severity label is `constructor`, the distribution holds the text of the
inherited member followed by `1` instead of the count 1, so its values do not
add up to the length 1. -/
theorem severity_sum_on_constructor :
    getSeverityDistribution [{ title := "a", severity := "constructor", category := none }]
        = [("constructor", .string (inheritedText "constructor" ++ "1"))]
      ∧ sumValues
          (getSeverityDistribution [{ title := "a", severity := "constructor", category := none }])
        ≠ some 1 := by
  decide

/-- For every vulnerability list none of whose severity labels is the name of
a member inherited from `Object.prototype` (so for every list over the labels
Critical, High, Medium, Low, Info), the values of `getSeverityDistribution`
are numbers whose sum is the length of the list. -/
theorem getSeverityDistribution_sum (vs : List Vulnerability)
    (hplain : ∀ v ∈ vs, v.severity ∉ objectPrototypeKeys) :
    sumValues (getSeverityDistribution vs) = some vs.length :=
  (getSeverityDistribution_of_plain vs hplain).2.2.2

/-- An evaluated list: the severities High, High, Critical. -/
theorem getSeverityDistribution_sum_example :
    (∀ v ∈ ([{ title := "a", severity := "High", category := none },
              { title := "b", severity := "High", category := none },
              { title := "c", severity := "Critical", category := none }] : List Vulnerability),
        v.severity ∉ objectPrototypeKeys)
      ∧ sumValues (getSeverityDistribution
          [{ title := "a", severity := "High", category := none },
           { title := "b", severity := "High", category := none },
           { title := "c", severity := "Critical", category := none }]) = some 3 :=
  ⟨by decide, getSeverityDistribution_sum _ (by decide)⟩

/-- Claim C5, evaluated at a failing input: for the one-element list whose
severity label is `toString`, the label is a key of the distribution but its
value is a text, not the number 1 of vulnerabilities carrying that label. -/
theorem severity_count_on_toString :
    "toString" ∈ ownKeys
        (getSeverityDistribution [{ title := "a", severity := "toString", category := none }])
      ∧ getOwn
          (getSeverityDistribution [{ title := "a", severity := "toString", category := none }])
          "toString" = some (.string (inheritedText "toString" ++ "1"))
      ∧ severityCount "toString"
          [{ title := "a", severity := "toString", category := none }] = 1 := by
  decide

/-- For every vulnerability list none of whose severity labels is the name of
a member inherited from `Object.prototype`, and every label `s`: `s` is a key of `getSeverityDistribution` exactly when some
vulnerability of the list has severity `s`, its value is then the number of
vulnerabilities with severity `s`, and no key is mapped to 0. -/
theorem getSeverityDistribution_keys_counts (vs : List Vulnerability)
    (hplain : ∀ v ∈ vs, v.severity ∉ objectPrototypeKeys) (s : String) :
    (s ∈ ownKeys (getSeverityDistribution vs) ↔ ∃ v ∈ vs, v.severity = s)
      ∧ (s ∈ ownKeys (getSeverityDistribution vs) →
          getOwn (getSeverityDistribution vs) s = some (.number (severityCount s vs)))
      ∧ getOwn (getSeverityDistribution vs) s ≠ some (.number 0) := by
  obtain ⟨_, hkeys, hget, _⟩ := getSeverityDistribution_of_plain vs hplain
  refine ⟨?_, ?_, ?_⟩
  · rw [hkeys, mem_firstOccurrences]
    simp
  · intro hs
    rw [hkeys, mem_firstOccurrences] at hs
    have hne : severityCount s vs ≠ 0 := by
      rw [Ne, severityCount_eq_zero_iff, not_not]
      simpa using hs
    rw [hget s, if_neg hne]
  · rw [hget s]
    split
    · simp
    · rename_i hne
      intro h
      injection h with h
      injection h with h
      exact hne h

/-- An evaluated list: the severities High, High, Critical give the
distribution High: 2, Critical: 1. -/
theorem getSeverityDistribution_keys_counts_example :
    (∀ v ∈ ([{ title := "a", severity := "High", category := none },
              { title := "b", severity := "High", category := none },
              { title := "c", severity := "Critical", category := none }] : List Vulnerability),
        v.severity ∉ objectPrototypeKeys)
      ∧ getSeverityDistribution
          [{ title := "a", severity := "High", category := none },
           { title := "b", severity := "High", category := none },
           { title := "c", severity := "Critical", category := none }]
        = [("High", .number 2), ("Critical", .number 1)]
      ∧ getOwn (getSeverityDistribution
          [{ title := "a", severity := "High", category := none },
           { title := "b", severity := "High", category := none },
           { title := "c", severity := "Critical", category := none }]) "High"
        = some (.number 2) :=
  ⟨by decide, by decide,
    ((getSeverityDistribution_keys_counts
      [{ title := "a", severity := "High", category := none },
       { title := "b", severity := "High", category := none },
       { title := "c", severity := "Critical", category := none }] (by decide) "High").2.1
      (by decide)).trans (by decide)⟩

/-! ## Lemmas on getGroupSeverity -/

/-- The looked-up rank is the rank of the specification, except that an
inherited name (of rank 0) yields `NaN`. -/
theorem lookupRank_cases (s : String) :
    lookupRank s = .nat (specRank s) ∨ (lookupRank s = .nan ∧ specRank s = 0) := by
  unfold lookupRank specRank SEVERITY_RANK
  by_cases h1 : s = "Critical"
  · subst h1; left; decide
  by_cases h2 : s = "High"
  · subst h2; left; decide
  by_cases h3 : s = "Medium"
  · subst h3; left; decide
  by_cases h4 : s = "Low"
  · subst h4; left; decide
  by_cases h5 : s = "Info"
  · subst h5; left; decide
  have e1 : ¬ "Critical" = s := fun e => h1 e.symm
  have e2 : ¬ "High" = s := fun e => h2 e.symm
  have e3 : ¬ "Medium" = s := fun e => h3 e.symm
  have e4 : ¬ "Low" = s := fun e => h4 e.symm
  have e5 : ¬ "Info" = s := fun e => h5 e.symm
  simp only [getOwn, e1, e2, e3, e4, e5, h1, h2, h3, h4, h5, if_false]
  by_cases hp : s ∈ objectPrototypeKeys
  · right; simp [hp]
  · left; simp [hp]

/-- One step of the loop of `getGroupSeverity` on a record with a numeric
rank: the record is replaced exactly when the member outranks it. -/
theorem severityStep_eq (sev : String) (h : Nat) (v : Vulnerability) :
    severityStep { severity := sev, rank := .nat h } v
      = if h < specRank v.severity then
          { severity := v.severity, rank := .nat (specRank v.severity) }
        else { severity := sev, rank := .nat h } := by
  unfold severityStep
  rcases lookupRank_cases v.severity with e | ⟨e, e0⟩
  · rw [e]
    by_cases hlt : h < specRank v.severity <;> simp [jsGreater, hlt]
  · rw [e, e0]
    simp [jsGreater]

/-- Result of the loop of `getGroupSeverity` started from a record of rank
`h`: the record is kept when no member outranks it, and otherwise replaced by
the first member of maximal rank. -/
theorem foldl_severityStep (g : List Vulnerability) :
    ∀ (sev : String) (h : Nat),
      ((∀ u ∈ g, specRank u.severity ≤ h) →
          g.foldl severityStep { severity := sev, rank := .nat h }
            = { severity := sev, rank := .nat h })
      ∧ ((∃ u ∈ g, h < specRank u.severity) →
          ∃ pre v post, g = pre ++ v :: post
            ∧ (∀ u ∈ pre, specRank u.severity < specRank v.severity)
            ∧ (∀ u ∈ post, specRank u.severity ≤ specRank v.severity)
            ∧ h < specRank v.severity
            ∧ g.foldl severityStep { severity := sev, rank := .nat h }
                = { severity := v.severity, rank := .nat (specRank v.severity) }) := by
  induction g with
  | nil =>
    intro sev h
    simp
  | cons v rest ih =>
    intro sev h
    simp only [List.foldl_cons, severityStep_eq]
    by_cases hlt : h < specRank v.severity
    · simp only [hlt, if_true]
      constructor
      · intro hall
        have := hall v (List.mem_cons_self _ _)
        omega
      · intro _
        by_cases hex : ∃ u ∈ rest, specRank v.severity < specRank u.severity
        · obtain ⟨pre, w, post, hsplit, hpre, hpost, hw, hres⟩ :=
            (ih v.severity (specRank v.severity)).2 hex
          refine ⟨v :: pre, w, post, by simp [hsplit], ?_, hpost, by omega, hres⟩
          intro u hu
          rcases List.mem_cons.1 hu with e | e
          · rw [e]; exact hw
          · exact hpre u e
        · have hall : ∀ u ∈ rest, specRank u.severity ≤ specRank v.severity := by
            intro u hu
            by_contra hc
            exact hex ⟨u, hu, by omega⟩
          exact ⟨[], v, rest, rfl, by simp, hall, hlt,
            (ih v.severity (specRank v.severity)).1 hall⟩
    · simp only [hlt, if_false]
      constructor
      · intro hall
        exact (ih sev h).1 (fun u hu => hall u (List.mem_cons_of_mem _ hu))
      · rintro ⟨u, hu, hur⟩
        have hu2 : u ∈ rest := by
          rcases List.mem_cons.1 hu with e | e
          · rw [e] at hur; exact absurd hur hlt
          · exact e
        obtain ⟨pre, w, post, hsplit, hpre, hpost, hw, hres⟩ := (ih sev h).2 ⟨u, hu2, hur⟩
        refine ⟨v :: pre, w, post, by simp [hsplit], ?_, hpost, hw, hres⟩
        intro x hx
        rcases List.mem_cons.1 hx with e | e
        · rw [e]; omega
        · exact hpre x e

/-! ## Claims on getGroupSeverity -/

/-- Claim C6: with rank Critical=5, High=4, Medium=3, Low=2, Info=1 and 0 for
any other label, if some member of the group has positive rank then
`getGroupSeverity` is the severity of the first member of maximal rank (every
earlier member ranks strictly lower, every later member ranks at most as
high); if no member has positive rank, in particular for the empty group, it
is `Info`.  The group Critical, Low gives Critical and the group Info gives
Info. -/
theorem getGroupSeverity_spec (g : List Vulnerability) :
    ((∃ u ∈ g, 0 < specRank u.severity) →
        ∃ pre v post, g = pre ++ v :: post
          ∧ (∀ u ∈ pre, specRank u.severity < specRank v.severity)
          ∧ (∀ u ∈ post, specRank u.severity ≤ specRank v.severity)
          ∧ getGroupSeverity g = v.severity)
      ∧ ((∀ u ∈ g, specRank u.severity = 0) → getGroupSeverity g = "Info")
      ∧ getGroupSeverity [] = "Info"
      ∧ getGroupSeverity [{ title := "a", severity := "Critical", category := none },
                          { title := "b", severity := "Low", category := none }] = "Critical"
      ∧ getGroupSeverity [{ title := "a", severity := "Info", category := none }] = "Info" := by
  refine ⟨?_, ?_, by decide, by decide, by decide⟩
  · intro hex
    obtain ⟨pre, v, post, hsplit, hpre, hpost, _, hres⟩ := (foldl_severityStep g "Info" 0).2 hex
    exact ⟨pre, v, post, hsplit, hpre, hpost, by simp [getGroupSeverity, hres]⟩
  · intro hall
    have := (foldl_severityStep g "Info" 0).1 (fun u hu => by rw [hall u hu])
    simp [getGroupSeverity, this]

/-- Witness for claim C6: in the group Low, High, unknown, High the first
High member is the result. -/
theorem getGroupSeverity_spec_witness :
    getGroupSeverity [{ title := "a", severity := "Low", category := none },
                      { title := "b", severity := "High", category := none },
                      { title := "c", severity := "valueOf", category := none },
                      { title := "d", severity := "High", category := none }] = "High"
      ∧ ∃ pre v post,
          ([{ title := "a", severity := "Low", category := none },
            { title := "b", severity := "High", category := none },
            { title := "c", severity := "valueOf", category := none },
            { title := "d", severity := "High", category := none }] : List Vulnerability)
            = pre ++ v :: post
          ∧ (∀ u ∈ pre, specRank u.severity < specRank v.severity)
          ∧ (∀ u ∈ post, specRank u.severity ≤ specRank v.severity)
          ∧ getGroupSeverity [{ title := "a", severity := "Low", category := none },
                      { title := "b", severity := "High", category := none },
                      { title := "c", severity := "valueOf", category := none },
                      { title := "d", severity := "High", category := none }] = v.severity :=
  ⟨by decide, (getGroupSeverity_spec _).1 ⟨{ title := "b", severity := "High", category := none },
    by simp, by decide⟩⟩

/-! ## Lemmas on the disclosure state -/

/-- For a name that is not inherited, the flag read by the code is the entry
of the state. -/
theorem flagTruthy_eq_isOpen (state : Obj Bool) (key : String)
    (hk : key ∉ objectPrototypeKeys) : flagTruthy state key = isOpen state key := by
  unfold flagTruthy isOpen
  cases getOwn state key <;> simp [hk]

/-- No group of a returned grouping carries an inherited name, so
`toggleGroup` is never called with one. -/
theorem groupVulnerabilities_keys_plain (vs : List Vulnerability)
    (g : Obj (List Vulnerability)) (h : groupVulnerabilities vs = .ok g) :
    ∀ c ∈ ownKeys g, c ∉ objectPrototypeKeys := by
  intro c hc
  obtain ⟨v, hv, hvc⟩ := (mem_ownKeys_groupVulnerabilities vs g h c).1 hc
  exact hvc ▸ (groupVulnerabilities_ok_iff vs).1 ⟨g, h⟩ v hv

/-- The new state is empty or holds the clicked category alone.  (A state with
an own false entry named `__proto__` toggled at that name stays empty: the
assignment on the fresh object runs the inherited setter.) -/
theorem toggleGroup_eq (category : String) (prev : Obj Bool) :
    toggleGroup category prev
      = if flagTruthy prev category = true ∨ category = "__proto__" then []
        else [(category, true)] := by
  unfold toggleGroup assignPrimitive
  by_cases hp : category = "__proto__"
  · cases flagTruthy prev category <;> simp [hp, getOwn]
  · cases flagTruthy prev category <;> simp [hp, setOwn]

/-- For a category that is not an inherited name the new state is empty when
the category was open and holds the category alone otherwise. -/
theorem toggleGroup_of_plain (category : String) (prev : Obj Bool)
    (hc : category ∉ objectPrototypeKeys) :
    toggleGroup category prev = if isOpen prev category = true then [] else [(category, true)] := by
  have hp : category ≠ "__proto__" := by
    intro e
    apply hc
    rw [e]
    decide
  rw [toggleGroup_eq, flagTruthy_eq_isOpen prev category hc]
  simp [hp]

theorem isOpen_nil (key : String) : isOpen [] key = false := rfl

theorem isOpen_singleton (category key : String) :
    isOpen [(category, true)] key = decide (category = key) := by
  unfold isOpen
  by_cases h : category = key <;> simp [getOwn, h]

/-! ## Claims on toggleGroup -/

/-- Outside the categories that the grouped view passes to `toggleGroup`:
from the empty state, where no entry is true, toggling the name `constructor`
again yields the empty state, in which `constructor` is not open; the code
reads the inherited member as a truthy flag, before and after the toggle. -/
theorem toggleGroup_on_inherited_name :
    isOpen [] "constructor" = false
      ∧ toggleGroup "constructor" [] = []
      ∧ isOpen (toggleGroup "constructor" []) "constructor" = false
      ∧ flagTruthy [] "constructor" = true
      ∧ flagTruthy (toggleGroup "constructor" []) "constructor" = true := by
  decide

/-- Claim C7: for every `expandedGroups` state and every category passed to
`toggleGroup`: if the category is open, `toggleGroup` yields a state in which
no category is open; otherwise it yields a state in which the category is open
and every other category is closed, however many categories were open before.
The categories passed to `toggleGroup` are the keys of a grouping returned by
`groupVulnerabilities`, none of which is the name of a member inherited from
`Object.prototype` (`groupVulnerabilities_keys_plain`); the statement is proved
for every category that is not such a name. -/
theorem toggleGroup_spec (prev : Obj Bool) (c : String) (hc : c ∉ objectPrototypeKeys) :
    (isOpen prev c = true → ∀ other, isOpen (toggleGroup c prev) other = false)
      ∧ (isOpen prev c = false →
          isOpen (toggleGroup c prev) c = true
            ∧ ∀ other, other ≠ c → isOpen (toggleGroup c prev) other = false) := by
  rw [toggleGroup_of_plain c prev hc]
  constructor
  · intro h other
    simp [h, isOpen_nil]
  · intro h
    simp only [h, Bool.false_eq_true, if_false, isOpen_singleton, decide_eq_true_eq,
      decide_eq_false_iff_not, true_and]
    intro other hne e
    exact hne e.symm

/-- Witness for claim C7: `Injection` is a key of the grouping of a list with
one finding of that category; with `Auth` and `XSS` both open, toggling the
closed category `Injection` leaves only `Injection` open. -/
theorem toggleGroup_spec_witness :
    groupVulnerabilities [{ title := "SQL", severity := "High", category := some "Injection" }]
        = .ok [("Injection",
            [{ title := "SQL", severity := "High", category := some "Injection" }])]
      ∧ isOpen [("Auth", true), ("XSS", true)] "Injection" = false
      ∧ isOpen (toggleGroup "Injection" [("Auth", true), ("XSS", true)]) "Injection" = true
      ∧ isOpen (toggleGroup "Injection" [("Auth", true), ("XSS", true)]) "Auth" = false :=
  ⟨rfl, by decide,
    ((toggleGroup_spec [("Auth", true), ("XSS", true)] "Injection"
      (groupVulnerabilities_keys_plain
        [{ title := "SQL", severity := "High", category := some "Injection" }]
        [("Injection", [{ title := "SQL", severity := "High", category := some "Injection" }])]
        rfl "Injection" (by decide))).2
      (by decide)).1,
    by decide⟩

/-- Claim C8: in every state reachable from the initial empty `expandedGroups`
by `toggleGroup` operations at most one category is open, and one `toggleGroup`
applied to an arbitrary state, also one with several categories open, yields a
state with at most one category open. -/
theorem toggleGroup_single_open :
    (∀ state, Reachable state →
        ∀ c1 c2, isOpen state c1 = true → isOpen state c2 = true → c1 = c2)
      ∧ (∀ (prev : Obj Bool) (c c1 c2 : String),
          isOpen (toggleGroup c prev) c1 = true → isOpen (toggleGroup c prev) c2 = true →
            c1 = c2) := by
  have hstep : ∀ (prev : Obj Bool) (c c1 c2 : String),
      isOpen (toggleGroup c prev) c1 = true → isOpen (toggleGroup c prev) c2 = true →
        c1 = c2 := by
    intro prev c c1 c2
    rw [toggleGroup_eq]
    split
    · simp [isOpen_nil]
    · simp only [isOpen_singleton, decide_eq_true_eq]
      intro h1 h2
      exact h1.symm.trans h2
  refine ⟨?_, hstep⟩
  intro state hr
  cases hr with
  | init => simp [isOpen_nil]
  | toggle c _ => exact hstep _ c

/-- Witness for claim C8: the state reached by toggling `Auth` and then `XSS`
has only `XSS` open. -/
theorem toggleGroup_single_open_witness :
    Reachable (toggleGroup "XSS" (toggleGroup "Auth" []))
      ∧ isOpen (toggleGroup "XSS" (toggleGroup "Auth" [])) "XSS" = true
      ∧ isOpen (toggleGroup "XSS" (toggleGroup "Auth" [])) "Auth" = false
      ∧ "XSS" = "XSS" :=
  ⟨Reachable.toggle "XSS" (Reachable.toggle "Auth" Reachable.init), by decide, by decide,
    toggleGroup_single_open.1 _
      (Reachable.toggle "XSS" (Reachable.toggle "Auth" Reachable.init)) "XSS" "XSS"
      (by decide) (by decide)⟩

/-! ## Lemmas on toggleVuln -/

theorem getOwn_append {α : Type} (a b : Obj α) (key : String) :
    getOwn (a ++ b) key = (getOwn a key).orElse (fun _ => getOwn b key) := by
  induction a with
  | nil => simp [getOwn]
  | cons p rest ih =>
    obtain ⟨k, x⟩ := p
    by_cases h : k = key <;> simp [getOwn, h, ih]

theorem getOwn_filter {α : Type} (f : String → Bool) (o : Obj α) (key : String) :
    getOwn (o.filter (fun p => f p.1)) key = if f key then getOwn o key else none := by
  induction o with
  | nil => simp [getOwn]
  | cons p rest ih =>
    obtain ⟨k, x⟩ := p
    by_cases hf : f k = true
    · by_cases h : k = key
      · subst h
        simp [List.filter_cons, getOwn, hf]
      · simp [List.filter_cons, getOwn, hf, h, ih]
    · by_cases h : k = key
      · subst h
        simp [List.filter_cons, getOwn, hf, ih]
      · simp [List.filter_cons, getOwn, hf, h, ih]

theorem getOwn_orderedInsert {α : Type} (a : String × α) (l : Obj α) (key : String) :
    getOwn (l.orderedInsert indexLE a) key = getOwn (a :: l) key := by
  induction l with
  | nil => simp
  | cons b rest ih =>
    obtain ⟨ka, xa⟩ := a
    obtain ⟨kb, xb⟩ := b
    by_cases hle : indexLE (ka, xa) (kb, xb)
    · simp [List.orderedInsert, hle]
    · simp only [List.orderedInsert, hle, if_false]
      have hne : ka ≠ kb := by
        intro e
        apply hle
        simp [indexLE, keyIndexLE, e]
      by_cases h1 : kb = key
      · subst h1
        simp [getOwn, hne]
      · have := ih
        simp only [getOwn] at this
        simp only [getOwn, h1, if_false, this]

theorem getOwn_insertionSort {α : Type} (l : Obj α) (key : String) :
    getOwn (l.insertionSort indexLE) key = getOwn l key := by
  induction l with
  | nil => simp
  | cons a rest ih =>
    obtain ⟨ka, xa⟩ := a
    rw [List.insertionSort, getOwn_orderedInsert]
    simp only [getOwn, ih]

/-- Reordering the properties as `Object.entries` does leaves every own
property value unchanged. -/
theorem getOwn_entries {α : Type} (o : Obj α) (key : String) :
    getOwn (entries o) key = getOwn o key := by
  unfold entries
  rw [getOwn_append, getOwn_insertionSort, getOwn_filter isArrayIndex,
    getOwn_filter (fun k => !isArrayIndex k)]
  cases isArrayIndex key <;> cases getOwn o key <;> simp

/-- A finding key contains a hyphen, so it is never an inherited name. -/
theorem vulnIdOf_plain (pre : String) (idx : Nat) : vulnIdOf pre idx ∉ objectPrototypeKeys := by
  intro hmem
  have hdash : '-' ∈ (vulnIdOf pre idx).data := by
    simp [vulnIdOf]
  have hnone : ∀ name ∈ objectPrototypeKeys, '-' ∉ name.data := by decide
  exact hnone _ hmem hdash

/-! ## Claims on toggleVuln and getRiskGrade -/

/-- Claim C9: for every `expandedVulns` state and every finding key `k`
(built as `${category}-${idx}` or `all-${idx}`), `toggleVuln` negates the
expanded flag at `k`, an absent key counting as not expanded, and leaves the
value at every other key as it was. -/
theorem toggleVuln_spec (prev : Obj Bool) (pre : String) (idx : Nat) :
    getOwn (toggleVuln (vulnIdOf pre idx) prev) (vulnIdOf pre idx)
        = some (!isOpen prev (vulnIdOf pre idx))
      ∧ isOpen (toggleVuln (vulnIdOf pre idx) prev) (vulnIdOf pre idx)
        = !isOpen prev (vulnIdOf pre idx)
      ∧ ∀ other, other ≠ vulnIdOf pre idx →
          getOwn (toggleVuln (vulnIdOf pre idx) prev) other = getOwn prev other := by
  have hget : getOwn (toggleVuln (vulnIdOf pre idx) prev) (vulnIdOf pre idx)
      = some (!isOpen prev (vulnIdOf pre idx)) := by
    unfold toggleVuln
    rw [getOwn_setOwn_self, flagTruthy_eq_isOpen prev _ (vulnIdOf_plain pre idx)]
  refine ⟨hget, ?_, ?_⟩
  · simp [isOpen, hget]
  · intro other hne
    unfold toggleVuln
    rw [getOwn_setOwn_ne _ _ _ _ hne, getOwn_entries]

/-- Witness for claim C9: expanding the second finding of the group `XSS`
keeps the flag of the first finding of the flat view. -/
theorem toggleVuln_spec_witness :
    "all-0" ≠ vulnIdOf "XSS" 1
      ∧ getOwn (toggleVuln (vulnIdOf "XSS" 1) [("all-0", true)]) "all-0" = some true
      ∧ getOwn (toggleVuln (vulnIdOf "XSS" 1) [("all-0", true)]) (vulnIdOf "XSS" 1)
          = some true :=
  ⟨by decide,
    ((toggleVuln_spec [("all-0", true)] "XSS" 1).2.2 "all-0" (by decide)).trans (by decide),
    by decide⟩

/-- Claim C10: for every integer score, `getRiskGrade` gives A/Secure from 90,
B/Good from 75 to 89, C/Fix Required from 60 to 74, D/Fix Required from 40 to
59 and F/Fix Required below 40; 90 gives A, 89 gives B, 59 gives D and 0 gives
F. -/
theorem getRiskGrade_spec (score : Int) :
    (90 ≤ score →
        (getRiskGrade score).grade = "A" ∧ (getRiskGrade score).status = "Secure")
      ∧ (75 ≤ score → score < 90 →
        (getRiskGrade score).grade = "B" ∧ (getRiskGrade score).status = "Good")
      ∧ (60 ≤ score → score < 75 →
        (getRiskGrade score).grade = "C" ∧ (getRiskGrade score).status = "Fix Required")
      ∧ (40 ≤ score → score < 60 →
        (getRiskGrade score).grade = "D" ∧ (getRiskGrade score).status = "Fix Required")
      ∧ (score < 40 →
        (getRiskGrade score).grade = "F" ∧ (getRiskGrade score).status = "Fix Required")
      ∧ (getRiskGrade 90).grade = "A" ∧ (getRiskGrade 89).grade = "B"
      ∧ (getRiskGrade 59).grade = "D" ∧ (getRiskGrade 0).grade = "F" := by
  refine ⟨?_, ?_, ?_, ?_, ?_, by decide, by decide, by decide, by decide⟩
  · intro h
    simp [getRiskGrade, h]
  · intro h1 h2
    have e1 : ¬ score ≥ 90 := by omega
    simp [getRiskGrade, e1, h1]
  · intro h1 h2
    have e1 : ¬ score ≥ 90 := by omega
    have e2 : ¬ score ≥ 75 := by omega
    simp [getRiskGrade, e1, e2, h1]
  · intro h1 h2
    have e1 : ¬ score ≥ 90 := by omega
    have e2 : ¬ score ≥ 75 := by omega
    have e3 : ¬ score ≥ 60 := by omega
    simp [getRiskGrade, e1, e2, e3, h1]
  · intro h1
    have e1 : ¬ score ≥ 90 := by omega
    have e2 : ¬ score ≥ 75 := by omega
    have e3 : ¬ score ≥ 60 := by omega
    have e4 : ¬ score ≥ 40 := by omega
    simp [getRiskGrade, e1, e2, e3, e4]

/-- Witness for claim C10: the score 72 lies in the band of grade C. -/
theorem getRiskGrade_spec_witness :
    (60 : Int) ≤ 72 ∧ (72 : Int) < 75
      ∧ (getRiskGrade 72).grade = "C" ∧ (getRiskGrade 72).status = "Fix Required" :=
  ⟨by decide, by decide, (getRiskGrade_spec 72).2.2.1 (by decide) (by decide)⟩

/-! ## Lemmas on double-precision rounding -/

theorem roundHalfEven_le (x : ℚ) : (roundHalfEven x : ℚ) ≤ x + 1 / 2 := by
  have h1 := Int.floor_le x
  have h2 := Int.lt_floor_add_one x
  unfold roundHalfEven
  split_ifs with a b c
  · linarith
  · push_cast; linarith
  · linarith
  · push_cast; linarith

theorem le_roundHalfEven (x : ℚ) : x - 1 / 2 ≤ (roundHalfEven x : ℚ) := by
  have h1 := Int.floor_le x
  have h2 := Int.lt_floor_add_one x
  unfold roundHalfEven
  split_ifs with a b c
  · linarith
  · push_cast; linarith
  · linarith
  · push_cast; linarith

theorem roundHalfEven_intCast (n : ℤ) : roundHalfEven (n : ℚ) = n := by
  unfold roundHalfEven
  simp

theorem roundHalfEven_mono {x y : ℚ} (h : x ≤ y) : roundHalfEven x ≤ roundHalfEven y := by
  have hf : ⌊x⌋ ≤ ⌊y⌋ := Int.floor_mono h
  have hx1 : roundHalfEven x ≤ ⌊x⌋ + 1 := by
    unfold roundHalfEven; split_ifs <;> omega
  have hy0 : ⌊y⌋ ≤ roundHalfEven y := by
    unfold roundHalfEven; split_ifs <;> omega
  rcases lt_or_eq_of_le hf with hlt | heq
  · omega
  · unfold roundHalfEven
    rw [heq]
    have hxy : x - ⌊y⌋ ≤ y - ⌊y⌋ := by linarith
    split_ifs <;> first | omega | (exfalso; linarith)

theorem ulp_pos (q : ℚ) : 0 < ulp q := by
  unfold ulp; positivity

theorem ulp_mul_le {q : ℚ} (hq : 0 < q) : ulp q * 2 ^ 52 ≤ q := by
  have h := Int.zpow_log_le_self (b := 2) (r := q) (by norm_num) hq
  unfold ulp
  rw [abs_of_pos hq, zpow_sub₀ (by norm_num)]
  have : ((2:ℚ) ^ (52:ℤ)) = 2 ^ 52 := by norm_cast
  rw [this]
  rw [div_mul_cancel₀ _ (by positivity)]
  exact_mod_cast h

theorem lt_ulp_mul {q : ℚ} (hq : 0 < q) : q < ulp q * 2 ^ 53 := by
  have h := Int.lt_zpow_succ_log_self (b := 2) (by norm_num) q
  unfold ulp
  rw [abs_of_pos hq]
  have e : (2:ℚ) ^ (Int.log 2 q - 52) * 2 ^ 53 = 2 ^ (Int.log 2 q + 1) := by
    have : ((2:ℚ) ^ (53:ℕ)) = 2 ^ (53:ℤ) := by norm_cast
    rw [this, ← zpow_add₀ (by norm_num)]
    congr 1
    ring
  rw [e]
  exact_mod_cast h


theorem roundDouble_zero : roundDouble 0 = 0 := by
  unfold roundDouble
  simp [roundHalfEven]

theorem roundDouble_le {q : ℚ} (hq : 0 < q) : roundDouble q ≤ q + q / 2 ^ 53 := by
  have hu := ulp_pos q
  have h1 := roundHalfEven_le (q / ulp q)
  have h2 := ulp_mul_le hq
  have h3 : roundDouble q ≤ (q / ulp q + 1 / 2) * ulp q := by
    unfold roundDouble
    exact mul_le_mul_of_nonneg_right h1 hu.le
  have h4 : (q / ulp q + 1 / 2) * ulp q = q + ulp q / 2 := by
    field_simp
    ring
  have h5 : ulp q / 2 ≤ q / 2 ^ 53 := by
    rw [div_le_div_iff₀ (by norm_num) (by positivity)]
    nlinarith
  linarith

theorem le_roundDouble {q : ℚ} (hq : 0 < q) : q - q / 2 ^ 53 ≤ roundDouble q := by
  have hu := ulp_pos q
  have h1 := le_roundHalfEven (q / ulp q)
  have h2 := ulp_mul_le hq
  have h3 : (q / ulp q - 1 / 2) * ulp q ≤ roundDouble q := by
    unfold roundDouble
    exact mul_le_mul_of_nonneg_right h1 hu.le
  have h4 : (q / ulp q - 1 / 2) * ulp q = q - ulp q / 2 := by
    field_simp
    ring
  have h5 : ulp q / 2 ≤ q / 2 ^ 53 := by
    rw [div_le_div_iff₀ (by norm_num) (by positivity)]
    nlinarith
  linarith

theorem roundDouble_nonneg {q : ℚ} (hq : 0 ≤ q) : 0 ≤ roundDouble q := by
  rcases hq.lt_or_eq with h | h
  · have h1 := le_roundDouble h
    have h2 : q / 2 ^ 53 ≤ q := div_le_self h.le (by norm_num)
    linarith
  · rw [← h, roundDouble_zero]

theorem roundDouble_mono {p q : ℚ} (hp : 0 ≤ p) (hpq : p ≤ q) :
    roundDouble p ≤ roundDouble q := by
  rcases hp.lt_or_eq with hp0 | hp0
  · have hq0 : 0 < q := lt_of_lt_of_le hp0 hpq
    have hlog : Int.log 2 p ≤ Int.log 2 q := Int.log_mono_right hp0 hpq
    rcases hlog.lt_or_eq with hlt | heq
    · have hup := ulp_pos p
      have huq := ulp_pos q
      have h1 : (roundHalfEven (p / ulp p) : ℚ) ≤ 2 ^ 53 := by
        have hlt2 : p / ulp p ≤ ((2 ^ 53 : ℤ) : ℚ) := by
          rw [div_le_iff₀ hup]
          have := lt_ulp_mul hp0
          push_cast
          linarith
        have := roundHalfEven_mono hlt2
        rw [roundHalfEven_intCast] at this
        exact_mod_cast this
      have h2 : (2 ^ 52 : ℚ) ≤ (roundHalfEven (q / ulp q) : ℚ) := by
        have hle2 : ((2 ^ 52 : ℤ) : ℚ) ≤ q / ulp q := by
          rw [le_div_iff₀ huq]
          have := ulp_mul_le hq0
          push_cast
          linarith
        have := roundHalfEven_mono hle2
        rw [roundHalfEven_intCast] at this
        exact_mod_cast this
      have h3 : 2 ^ 53 * ulp p ≤ 2 ^ 52 * ulp q := by
        unfold ulp
        rw [abs_of_pos hp0, abs_of_pos hq0]
        have e1 : (2:ℚ) ^ 53 * 2 ^ (Int.log 2 p - 52) = 2 ^ (Int.log 2 p + 1) := by
          have : ((2:ℚ) ^ (53:ℕ)) = 2 ^ (53:ℤ) := by norm_cast
          rw [this, ← zpow_add₀ (by norm_num)]
          congr 1
          ring
        have e2 : (2:ℚ) ^ 52 * 2 ^ (Int.log 2 q - 52) = 2 ^ (Int.log 2 q) := by
          have : ((2:ℚ) ^ (52:ℕ)) = 2 ^ (52:ℤ) := by norm_cast
          rw [this, ← zpow_add₀ (by norm_num)]
          congr 1
          ring
        rw [e1, e2]
        exact zpow_le_zpow_right₀ (by norm_num) (by omega)
      unfold roundDouble
      calc (roundHalfEven (p / ulp p) : ℚ) * ulp p ≤ 2 ^ 53 * ulp p :=
            mul_le_mul_of_nonneg_right h1 hup.le
        _ ≤ 2 ^ 52 * ulp q := h3
        _ ≤ (roundHalfEven (q / ulp q) : ℚ) * ulp q :=
            mul_le_mul_of_nonneg_right h2 huq.le
    · have hu : ulp p = ulp q := by
        unfold ulp
        rw [abs_of_pos hp0, abs_of_pos hq0, heq]
      have huq := ulp_pos q
      unfold roundDouble
      rw [hu]
      apply mul_le_mul_of_nonneg_right _ huq.le
      have : p / ulp q ≤ q / ulp q := div_le_div_of_nonneg_right hpq huq.le
      exact_mod_cast roundHalfEven_mono this
  · rw [← hp0, roundDouble_zero]
    exact roundDouble_nonneg (hp0 ▸ hpq)


theorem jsDiv_nonneg (T : Nat) : 0 ≤ jsDiv T 60 :=
  roundDouble_nonneg (by positivity)

theorem counterFrame_mono (T : Nat) {j k : Nat} (hjk : j ≤ k) :
    counterFrame T j ≤ counterFrame T k := by
  unfold counterFrame jsMul
  apply Int.floor_mono
  have hx := jsDiv_nonneg T
  apply roundDouble_mono (by positivity)
  exact mul_le_mul_of_nonneg_left (by exact_mod_cast hjk) hx

theorem counterFrame_nonneg (T k : Nat) : 0 ≤ counterFrame T k := by
  unfold counterFrame jsMul
  apply Int.floor_nonneg.2
  exact roundDouble_nonneg (mul_nonneg (jsDiv_nonneg T) (by positivity))

/-- Two roundings keep the product within the relative error `(1 + 2^-53)^2`. -/
theorem jsMul_jsDiv_le (T k : Nat) :
    jsMul (jsDiv T 60) k ≤ (T * k : ℚ) / 60 * (1 + 1 / 2 ^ 53) ^ 2 := by
  unfold jsMul jsDiv
  rcases Nat.eq_zero_or_pos T with hT | hT
  · subst hT
    simp [roundDouble_zero]
  rcases Nat.eq_zero_or_pos k with hk | hk
  · subst hk
    simp [roundDouble_zero]
  have hx : (0:ℚ) < (T:ℚ) / 60 := by positivity
  have h1 := roundDouble_le hx
  have hx1 : 0 < roundDouble ((T:ℚ) / 60) := by
    have := le_roundDouble hx
    have h2 : (T:ℚ) / 60 / 2 ^ 53 < (T:ℚ) / 60 := div_lt_self hx (by norm_num)
    linarith
  have hk0 : (0:ℚ) < k := by exact_mod_cast hk
  have hy : 0 < roundDouble ((T:ℚ) / 60) * k := mul_pos hx1 hk0
  have h3 := roundDouble_le hy
  have h4 : roundDouble ((T:ℚ) / 60) * k ≤ (T:ℚ) / 60 * (1 + 1 / 2 ^ 53) * k := by
    apply mul_le_mul_of_nonneg_right _ hk0.le
    linarith
  have h5 : roundDouble (roundDouble ((T:ℚ) / 60) * k)
      ≤ roundDouble ((T:ℚ) / 60) * k * (1 + 1 / 2 ^ 53) := by linarith
  have h6 : roundDouble ((T:ℚ) / 60) * k * (1 + 1 / 2 ^ 53)
      ≤ (T:ℚ) / 60 * (1 + 1 / 2 ^ 53) * k * (1 + 1 / 2 ^ 53) :=
    mul_le_mul_of_nonneg_right h4 (by positivity)
  calc roundDouble (roundDouble ((T:ℚ) / 60) * k)
      ≤ (T:ℚ) / 60 * (1 + 1 / 2 ^ 53) * k * (1 + 1 / 2 ^ 53) := h5.trans h6
    _ = (T * k : ℚ) / 60 * (1 + 1 / 2 ^ 53) ^ 2 := by ring

theorem le_jsMul_jsDiv (T k : Nat) :
    (T * k : ℚ) / 60 * (1 - 1 / 2 ^ 53) ^ 2 ≤ jsMul (jsDiv T 60) k := by
  unfold jsMul jsDiv
  rcases Nat.eq_zero_or_pos T with hT | hT
  · subst hT
    simp [roundDouble_zero]
  rcases Nat.eq_zero_or_pos k with hk | hk
  · subst hk
    simp [roundDouble_zero]
  have hx : (0:ℚ) < (T:ℚ) / 60 := by positivity
  have h1 := le_roundDouble hx
  have hx1 : 0 < roundDouble ((T:ℚ) / 60) := by
    have h2 : (T:ℚ) / 60 / 2 ^ 53 < (T:ℚ) / 60 := div_lt_self hx (by norm_num)
    linarith
  have hk0 : (0:ℚ) < k := by exact_mod_cast hk
  have hy : 0 < roundDouble ((T:ℚ) / 60) * k := mul_pos hx1 hk0
  have h3 := le_roundDouble hy
  have h4 : (T:ℚ) / 60 * (1 - 1 / 2 ^ 53) * k ≤ roundDouble ((T:ℚ) / 60) * k := by
    apply mul_le_mul_of_nonneg_right _ hk0.le
    linarith
  have h5 : roundDouble ((T:ℚ) / 60) * k * (1 - 1 / 2 ^ 53)
      ≤ roundDouble (roundDouble ((T:ℚ) / 60) * k) := by linarith
  have h6 : (T:ℚ) / 60 * (1 - 1 / 2 ^ 53) * k * (1 - 1 / 2 ^ 53)
      ≤ roundDouble ((T:ℚ) / 60) * k * (1 - 1 / 2 ^ 53) :=
    mul_le_mul_of_nonneg_right h4 (by norm_num)
  calc (T * k : ℚ) / 60 * (1 - 1 / 2 ^ 53) ^ 2
      = (T:ℚ) / 60 * (1 - 1 / 2 ^ 53) * k * (1 - 1 / 2 ^ 53) := by ring
    _ ≤ roundDouble (roundDouble ((T:ℚ) / 60) * k) := h6.trans h5

theorem counterFrame_le_target (T : Nat) (hT : T < 2 ^ 52) : counterFrame T 60 ≤ T := by
  unfold counterFrame
  have h := jsMul_jsDiv_le T 60
  have hlt : jsMul (jsDiv T 60) (60 : Nat) < (((T : ℤ) + 1 : ℤ) : ℚ) := by
    have hT2 : (T : ℚ) ≤ 2 ^ 52 - 1 := by
      have : T + 1 ≤ 2 ^ 52 := hT
      have : ((T + 1 : ℕ) : ℚ) ≤ ((2 ^ 52 : ℕ) : ℚ) := by exact_mod_cast this
      push_cast at this
      linarith
    have h0 : (0:ℚ) ≤ T := by positivity
    have e : (T * (60:ℕ) : ℚ) / 60 * (1 + 1 / 2 ^ 53) ^ 2
        = T + T * (1 / 2 ^ 52 + 1 / 2 ^ 106) := by
      push_cast
      ring
    rw [e] at h
    have h7 : (T:ℚ) * (1 / 2 ^ 52 + 1 / 2 ^ 106) < 1 := by
      calc (T:ℚ) * (1 / 2 ^ 52 + 1 / 2 ^ 106)
          ≤ (2 ^ 52 - 1) * (1 / 2 ^ 52 + 1 / 2 ^ 106) :=
            mul_le_mul_of_nonneg_right hT2 (by norm_num)
        _ < 1 := by norm_num
    push_cast
    linarith
  have := Int.floor_lt.2 hlt
  omega

theorem counterFrame_near (T k : Nat) (hT : T < 2 ^ 46) (hk : k ≤ 60) :
    (counterFrame T k = (T * k / 60 : Nat) ∨ counterFrame T k = (T * k / 60 : Nat) - 1)
      ∧ (¬ 60 ∣ T * k → counterFrame T k = (T * k / 60 : Nat)) := by
  have hup := jsMul_jsDiv_le T k
  have hlo := le_jsMul_jsDiv T k
  have hT2 : (T : ℚ) < 2 ^ 46 := by exact_mod_cast hT
  have hk2 : (k : ℚ) ≤ 60 := by exact_mod_cast hk
  have hT0 : (0:ℚ) ≤ T := by positivity
  have hk0 : (0:ℚ) ≤ k := by positivity
  have hE0 : (0:ℚ) ≤ (T * k : ℚ) / 60 := by positivity
  have hE : (T * k : ℚ) / 60 < 2 ^ 46 := by
    have : (T * k : ℚ) ≤ T * 60 := mul_le_mul_of_nonneg_left hk2 hT0
    linarith
  have hdecomp : (T * k : ℚ) = 60 * ((T * k / 60 : ℕ) : ℚ) + ((T * k % 60 : ℕ) : ℚ) := by
    have := Nat.div_add_mod (T * k) 60
    exact_mod_cast this.symm
  have hmod : T * k % 60 < 60 := Nat.mod_lt _ (by norm_num)
  have hmod2 : ((T * k % 60 : ℕ) : ℚ) ≤ 59 := by
    have : T * k % 60 ≤ 59 := by omega
    exact_mod_cast this
  have hmod0 : (0:ℚ) ≤ ((T * k % 60 : ℕ) : ℚ) := by positivity
  set E : ℚ := (T * k : ℚ) / 60 with hEdef
  set N : ℕ := T * k / 60 with hN
  set y : ℚ := jsMul (jsDiv T 60) k with hy
  have hupper : y < E + 1 / 60 := by
    have : E * (1 + 1 / 2 ^ 53) ^ 2 = E + E * (1 / 2 ^ 52 + 1 / 2 ^ 106) := by ring
    rw [this] at hup
    have h8 : E * (1 / 2 ^ 52 + 1 / 2 ^ 106) < 1 / 60 := by
      calc E * (1 / 2 ^ 52 + 1 / 2 ^ 106)
          ≤ 2 ^ 46 * (1 / 2 ^ 52 + 1 / 2 ^ 106) :=
            mul_le_mul_of_nonneg_right hE.le (by norm_num)
        _ < 1 / 60 := by norm_num
    linarith
  have hlower : E - 1 / 60 < y := by
    have : E * (1 - 1 / 2 ^ 53) ^ 2 = E - E * (1 / 2 ^ 52 - 1 / 2 ^ 106) := by ring
    rw [this] at hlo
    have h8 : E * (1 / 2 ^ 52 - 1 / 2 ^ 106) < 1 / 60 := by
      calc E * (1 / 2 ^ 52 - 1 / 2 ^ 106)
          ≤ 2 ^ 46 * (1 / 2 ^ 52 - 1 / 2 ^ 106) :=
            mul_le_mul_of_nonneg_right hE.le (by norm_num)
        _ < 1 / 60 := by norm_num
    linarith
  have hEN : E = (N : ℚ) + ((T * k % 60 : ℕ) : ℚ) / 60 := by
    rw [hEdef, hdecomp]
    field_simp
    ring
  have hfloor_le : ⌊y⌋ ≤ (N : ℤ) := by
    have : y < (((N : ℤ) + 1 : ℤ) : ℚ) := by
      push_cast
      rw [hEN] at hupper
      linarith
    have := Int.floor_lt.2 this
    omega
  have hfloor_ge : (N : ℤ) - 1 ≤ ⌊y⌋ := by
    apply Int.le_floor.2
    push_cast
    rw [hEN] at hlower
    linarith
  have hcf : counterFrame T k = ⌊y⌋ := rfl
  rw [hcf]
  constructor
  · omega
  · intro hdvd
    have hr : 1 ≤ T * k % 60 := by
      rcases Nat.eq_zero_or_pos (T * k % 60) with h0 | h0
      · exact absurd (Nat.dvd_of_mod_eq_zero h0) hdvd
      · exact h0
    have hr2 : (1:ℚ) ≤ ((T * k % 60 : ℕ) : ℚ) := by exact_mod_cast hr
    have : (N : ℤ) ≤ ⌊y⌋ := by
      apply Int.le_floor.2
      push_cast
      rw [hEN] at hlower
      linarith
    omega


theorem roundDouble_eq_of_binade {q : ℚ} (e : ℤ) (hq : 0 < q) (h1 : (2:ℚ) ^ e ≤ q)
    (h2 : q < (2:ℚ) ^ (e + 1)) :
    roundDouble q = (roundHalfEven (q / 2 ^ (e - 52)) : ℚ) * 2 ^ (e - 52) := by
  have hlog : Int.log 2 q = e := by
    have a : e ≤ Int.log 2 q :=
      (Int.zpow_le_iff_le_log (b := 2) (by norm_num) hq).1 (by exact_mod_cast h1)
    have b : Int.log 2 q < e + 1 :=
      (Int.lt_zpow_iff_log_lt (b := 2) (by norm_num) hq).1 (by exact_mod_cast h2)
    omega
  unfold roundDouble ulp
  rw [abs_of_pos hq, hlog]

/-! ## Lemmas on the animated counter -/

/-- During the first 60 periods the timer runs and the displayed value is the
frame of the current step. -/
theorem counterRun_of_le (T n : Nat) (hn : n ≤ 60) :
    counterRun T n
      = { currentStep := n, animatedRisk := if n = 0 then 0 else counterFrame T n,
          timerActive := true } := by
  induction n with
  | zero => rfl
  | succ m ih =>
    have hm : m + 1 ≤ 60 := hn
    rw [counterRun, ih (by omega), counterTick]
    simp [hm]

/-- The tick after the last frame writes the target and clears the timer. -/
theorem counterRun_61 (T : Nat) :
    counterRun T 61 = { currentStep := 61, animatedRisk := T, timerActive := false } := by
  rw [counterRun, counterRun_of_le T 60 (le_refl _), counterTick]
  simp

/-- Once cleared, the timer writes nothing more. -/
theorem counterRun_of_ge (T n : Nat) (hn : 61 ≤ n) : counterRun T n = counterRun T 61 := by
  induction n with
  | zero => omega
  | succ m ih =>
    rcases Nat.eq_or_lt_of_le hn with h | h
    · rw [← h]
    · rw [counterRun, ih (by omega), counterRun_61, counterTick]
      simp

theorem counterFrame_zero (T : Nat) : counterFrame T 0 = 0 := by
  unfold counterFrame jsMul
  simp [roundDouble_zero]

/-- The displayed value after `n ≤ 60` periods is the frame of step `n`. -/
theorem animatedRisk_counterRun_of_le (T n : Nat) (hn : n ≤ 60) :
    (counterRun T n).animatedRisk = counterFrame T n := by
  rw [counterRun_of_le T n hn]
  by_cases h : n = 0
  · subst h
    simp [counterFrame_zero]
  · simp [h]

/-! ## Claims on the animated counter -/

/-- Claim C15 fails as stated: for the target 84 the frame of step 45 displays
62, because the double-precision quotient 84/60 lies below 1.4 and its product
with 45 lies below 63, while `floor(84 * 45 / 60)` is 63 in exact arithmetic. -/
theorem counter_frame_counterexample :
    (counterRun 84 45).animatedRisk = 62 ∧ ⌊((84 : ℚ) * 45) / 60⌋ = 63 := by
  constructor
  · rw [animatedRisk_counterRun_of_le 84 45 (by norm_num)]
    have h1 : jsDiv 84 60 = 6305039478318694 / 2 ^ 52 := by
      unfold jsDiv
      rw [roundDouble_eq_of_binade 0 (by norm_num) (by norm_num) (by norm_num)]
      norm_num [roundHalfEven]
    have h2 : jsMul (6305039478318694 / 2 ^ 52) 45 = 8866461766385663 / 2 ^ 47 := by
      unfold jsMul
      rw [roundDouble_eq_of_binade 5 (by norm_num) (by norm_num) (by norm_num)]
      norm_num [roundHalfEven]
    unfold counterFrame
    push_cast
    rw [h1, h2]
    norm_num
  · norm_num

/-- Claim C15, amended: the frame with index `k` (1 ≤ k ≤ 60) sets the displayed
value to the floor of the double-precision product of the double-precision
quotient `T / 60` and `k`; for a target below `2^46` this is `floor(T * k / 60)`
when `T * k` is not a multiple of 60 and `floor(T * k / 60)` or one less
otherwise.  For every target the timer keeps running through frame 60, the
next tick writes exactly `T` and stops the timer, and nothing is written
afterwards. -/
theorem counterRun_frames (T k : Nat) (hk1 : 1 ≤ k) (hk : k ≤ 60) :
    (counterRun T k).animatedRisk = ⌊jsMul (jsDiv T 60) k⌋
      ∧ (T < 2 ^ 46 →
          ((counterRun T k).animatedRisk = (T * k / 60 : Nat)
              ∨ (counterRun T k).animatedRisk = (T * k / 60 : Nat) - 1)
            ∧ (¬ 60 ∣ T * k → (counterRun T k).animatedRisk = (T * k / 60 : Nat)))
      ∧ (counterRun T k).timerActive = true
      ∧ (counterRun T 61).animatedRisk = T
      ∧ (counterRun T 61).timerActive = false
      ∧ ∀ n, 61 ≤ n → counterRun T n = counterRun T 61 := by
  have hk0 : k ≠ 0 := by omega
  refine ⟨?_, ?_, ?_, ?_, ?_, ?_⟩
  · rw [animatedRisk_counterRun_of_le T k hk]
    rfl
  · intro hT
    rw [animatedRisk_counterRun_of_le T k hk]
    exact counterFrame_near T k hT hk
  · rw [counterRun_of_le T k hk]
  · rw [counterRun_61]
  · rw [counterRun_61]
  · exact fun n hn => counterRun_of_ge T n hn

/-- Witness for the amended claim C15: the targets 0, 1 and 12345678 end on
exactly the target, and for the target 12345678 the frame 7 shows 1440329. -/
theorem counterRun_frames_witness :
    (counterRun 0 61).animatedRisk = 0
      ∧ (counterRun 1 61).animatedRisk = 1
      ∧ (counterRun 12345678 61).animatedRisk = 12345678
      ∧ (counterRun 12345678 7).animatedRisk = 1440329 :=
  ⟨(counterRun_frames 0 60 (by decide) (by decide)).2.2.2.1,
    (counterRun_frames 1 60 (by decide) (by decide)).2.2.2.1,
    (counterRun_frames 12345678 60 (by decide) (by decide)).2.2.2.1,
    (((counterRun_frames 12345678 7 (by decide) (by decide)).2.1 (by norm_num)).2
      (by decide)).trans (by norm_num)⟩

/-- Claim C16 fails as stated: for the target 8999333671831715, below `2^53`,
the frame of step 60 displays 8999333671831716, which exceeds the target, and
the next tick lowers the display to the target. -/
theorem counter_bound_counterexample :
    (counterRun 8999333671831715 60).animatedRisk = 8999333671831716
      ∧ (counterRun 8999333671831715 61).animatedRisk = 8999333671831715 := by
  constructor
  · rw [animatedRisk_counterRun_of_le _ 60 (le_refl _)]
    have h1 : jsDiv 8999333671831715 60 = 4799644624976915 / 2 ^ 5 := by
      unfold jsDiv
      rw [roundDouble_eq_of_binade 47 (by norm_num) (by norm_num) (by norm_num)]
      norm_num [roundHalfEven]
    have h2 : jsMul (4799644624976915 / 2 ^ 5) 60 = 8999333671831716 := by
      unfold jsMul
      rw [roundDouble_eq_of_binade 52 (by norm_num) (by norm_num) (by norm_num)]
      norm_num [roundHalfEven]
    unfold counterFrame
    push_cast
    rw [h1, h2]
    norm_num
  · rw [counterRun_61]
    rfl

/-- Claim C16, amended: for every target below `2^52`, the values displayed by
one animation, starting from 0 and running through all timer ticks, are
integers, never decrease from one tick to the next, and never exceed the
target. -/
theorem counterRun_monotone_bounded (T : Nat) (hT : T < 2 ^ 52) (n : Nat) :
    (counterRun T 0).animatedRisk = 0
      ∧ 0 ≤ (counterRun T n).animatedRisk
      ∧ (counterRun T n).animatedRisk ≤ T
      ∧ (counterRun T n).animatedRisk ≤ (counterRun T (n + 1)).animatedRisk := by
  have hval : ∀ m, (counterRun T m).animatedRisk
      = if m ≤ 60 then counterFrame T m else (T : Int) := by
    intro m
    by_cases hm : m ≤ 60
    · rw [animatedRisk_counterRun_of_le T m hm, if_pos hm]
    · rw [counterRun_of_ge T m (by omega), counterRun_61, if_neg hm]
  have h60 := counterFrame_le_target T hT
  refine ⟨rfl, ?_, ?_, ?_⟩
  · rw [hval]
    split
    · exact counterFrame_nonneg T n
    · exact Int.ofNat_nonneg T
  · rw [hval]
    split
    · rename_i hn
      exact (counterFrame_mono T hn).trans h60
    · exact le_refl _
  · rw [hval n, hval (n + 1)]
    by_cases hn : n + 1 ≤ 60
    · rw [if_pos (by omega), if_pos hn]
      exact counterFrame_mono T (Nat.le_succ n)
    · by_cases hn2 : n ≤ 60
      · rw [if_pos hn2, if_neg hn]
        exact (counterFrame_mono T hn2).trans h60
      · rw [if_neg hn2, if_neg hn]

/-- Witness for the amended claim C16: the target 12345678 at tick 60. -/
theorem counterRun_monotone_bounded_witness :
    (12345678 : Nat) < 2 ^ 52
      ∧ (counterRun 12345678 60).animatedRisk ≤ (12345678 : Nat)
      ∧ (counterRun 12345678 60).animatedRisk ≤ (counterRun 12345678 61).animatedRisk :=
  ⟨by norm_num, (counterRun_monotone_bounded 12345678 (by norm_num) 60).2.2.1,
    (counterRun_monotone_bounded 12345678 (by norm_num) 60).2.2.2⟩

/-! ## Claims on the badge and the two ladders -/

/-- Claim C11: for every integer score the security-score badge is `Good` from
80, `Fair` from 60 to 79 and `At Risk` below 60. -/
theorem securityScoreBadge_spec (score : Int) :
    (80 ≤ score → securityScoreBadge score = "Good")
      ∧ (60 ≤ score → score ≤ 79 → securityScoreBadge score = "Fair")
      ∧ (score < 60 → securityScoreBadge score = "At Risk") := by
  refine ⟨?_, ?_, ?_⟩
  · intro h
    simp [securityScoreBadge, h]
  · intro h1 h2
    have e : ¬ score ≥ 80 := by omega
    simp [securityScoreBadge, e, h1]
  · intro h
    have e1 : ¬ score ≥ 80 := by omega
    have e2 : ¬ score ≥ 60 := by omega
    simp [securityScoreBadge, e1, e2]

/-- Witness for claim C11: the scores 80, 79, 60 and 59. -/
theorem securityScoreBadge_spec_witness :
    securityScoreBadge 80 = "Good" ∧ securityScoreBadge 79 = "Fair"
      ∧ securityScoreBadge 60 = "Fair" ∧ securityScoreBadge 59 = "At Risk" :=
  ⟨(securityScoreBadge_spec 80).1 (by decide),
    (securityScoreBadge_spec 79).2.1 (by decide) (by decide),
    (securityScoreBadge_spec 60).2.1 (by decide) (by decide),
    (securityScoreBadge_spec 59).2.2 (by decide)⟩

/-- Claim C12: the status of `getRiskGrade` is `Fix Required` while the badge
is not `At Risk` exactly for the scores from 60 to 74; there the grade is C and
the badge is `Fair` (so at 70); at 85 the grade is B with status `Good` and the
badge is `Good`. -/
theorem grade_and_badge_ladders (score : Int) :
    (((getRiskGrade score).status = "Fix Required" ∧ securityScoreBadge score ≠ "At Risk")
        ↔ (60 ≤ score ∧ score < 75))
      ∧ (60 ≤ score → score < 75 →
          (getRiskGrade score).grade = "C" ∧ securityScoreBadge score = "Fair")
      ∧ ((getRiskGrade 70).grade = "C" ∧ (getRiskGrade 70).status = "Fix Required"
          ∧ securityScoreBadge 70 = "Fair")
      ∧ ((getRiskGrade 85).grade = "B" ∧ (getRiskGrade 85).status = "Good"
          ∧ securityScoreBadge 85 = "Good") := by
  refine ⟨?_, ?_, by decide, by decide⟩
  · by_cases h75 : score ≥ 75
    · have hs : (getRiskGrade score).status ≠ "Fix Required" := by
        by_cases h90 : score ≥ 90
        · simp [getRiskGrade, h90]
        · simp [getRiskGrade, h90, h75]
      constructor
      · intro h
        exact absurd h.1 hs
      · intro h
        omega
    by_cases h60 : score ≥ 60
    · have h90 : ¬ score ≥ 90 := by omega
      have h80 : ¬ score ≥ 80 := by omega
      have hs : (getRiskGrade score).status = "Fix Required" := by
        simp [getRiskGrade, h90, h75, h60]
      have hb : securityScoreBadge score = "Fair" := by
        simp [securityScoreBadge, h80, h60]
      constructor
      · intro _
        constructor <;> omega
      · intro _
        refine ⟨hs, ?_⟩
        rw [hb]
        decide
    · have h80 : ¬ score ≥ 80 := by omega
      have hb : securityScoreBadge score = "At Risk" := by
        simp [securityScoreBadge, h80, h60]
      constructor
      · intro h
        exact absurd hb h.2
      · intro h
        omega
  · intro h1 h2
    have h90 : ¬ score ≥ 90 := by omega
    have h75 : ¬ score ≥ 75 := by omega
    have h80 : ¬ score ≥ 80 := by omega
    simp [getRiskGrade, securityScoreBadge, h90, h75, h80, h1]

/-- Witness for claim C12: the score 70. -/
theorem grade_and_badge_ladders_witness :
    (getRiskGrade 70).status = "Fix Required" ∧ securityScoreBadge 70 ≠ "At Risk" :=
  (grade_and_badge_ladders 70).1.2 ⟨by decide, by decide⟩

/-! ## Claims on chartData -/

theorem length_filter_severity (vs : List Vulnerability) (label : String) :
    (((vs.filter (fun v => v.severity = label)).length : Nat) : Int)
      = (severityCount label vs : Int) := by
  unfold severityCount
  rw [List.countP_eq_length_filter]

theorem map_filter_positive (l : List ChartEntry) (h : ∀ e ∈ l, 0 ≤ e.value) :
    (l.filter (fun item => item.value > 0)).map (fun e => (e.name, e.value))
      = (l.map (fun e => (e.name, e.value))).filter (fun p => p.2 ≠ 0) := by
  induction l with
  | nil => rfl
  | cons e rest ih =>
    have h0 : 0 ≤ e.value := h e (List.mem_cons_self _ _)
    have ih2 := ih (fun x hx => h x (List.mem_cons_of_mem _ hx))
    by_cases hv : e.value = 0
    · simp [List.filter_cons, hv, ih2]
    · have hpos : e.value > 0 := by omega
      simp [List.filter_cons, hv, hpos, ih2]

/-- Claim C13: in severity mode `chartData` is the fixed sequence Critical,
High, Medium, Low, Info, each label with the number of vulnerabilities of
exactly that severity, with the labels of count 0 deleted; every emitted value
is at least 1 and the emitted labels keep the fixed order. -/
theorem chartData_severity (r : AuditResult) (chartView : String)
    (hview : chartView ≠ "financial") :
    (chartData (some r) chartView).map (fun e => (e.name, e.value))
        = (chartSeverities.map
            (fun label => (label, (severityCount label r.vulnerabilities : Int)))).filter
            (fun p => p.2 ≠ 0)
      ∧ (∀ e ∈ chartData (some r) chartView, 1 ≤ e.value)
      ∧ ((chartData (some r) chartView).map (fun e => e.name)).Sublist chartSeverities := by
  unfold chartData
  simp only [hview, if_false, length_filter_severity]
  refine ⟨?_, ?_, ?_⟩
  · rw [map_filter_positive]
    · rfl
    · intro e he
      simp only [List.mem_cons, List.mem_singleton, List.not_mem_nil, or_false] at he
      rcases he with h | h | h | h | h <;> rw [h] <;> exact Int.ofNat_nonneg _
  · intro e he
    have := (List.mem_filter.1 he).2
    simp only [gt_iff_lt, decide_eq_true_eq] at this
    omega
  · exact (List.filter_sublist _).map _

/-- Witness for claim C13: the severities High, High, Critical give exactly
two slices, Critical = 1 then High = 2. -/
theorem chartData_severity_witness :
    "severity" ≠ "financial"
      ∧ (chartData
          (some { security_score := 85,
                  vulnerabilities :=
                    [{ title := "a", severity := "High", category := none },
                     { title := "b", severity := "High", category := none },
                     { title := "c", severity := "Critical", category := none }],
                  detailedImpact :=
                    { totalINR := 500000,
                      breakdown := { fixCost := 100000, downtime := 200000,
                                     regulatoryFines := 150000, reputation := 50000 } } })
          "severity").map (fun e => (e.name, e.value))
        = [("Critical", 1), ("High", 2)] :=
  ⟨by decide, ((chartData_severity _ "severity" (by decide)).1).trans (by decide)⟩

/-- Claim C14: in financial mode `chartData` has exactly the four entries Fix
Costs, Downtime, Legal/Fines, Reputation, in this order, carrying the four
breakdown fields and their fixed colours, whatever the values are (also 0);
the chart values add up to the sum of the four fields, 500000 in the scenario
of the specification. -/
theorem chartData_financial (r : AuditResult) :
    chartData (some r) "financial"
        = [{ name := "Fix Costs", value := r.detailedImpact.breakdown.fixCost,
             fill := "#3b82f6" },
           { name := "Downtime", value := r.detailedImpact.breakdown.downtime,
             fill := "#ef4444" },
           { name := "Legal/Fines", value := r.detailedImpact.breakdown.regulatoryFines,
             fill := "#f59e0b" },
           { name := "Reputation", value := r.detailedImpact.breakdown.reputation,
             fill := "#8b5cf6" }]
      ∧ (chartData (some r) "financial").length = 4
      ∧ ((chartData (some r) "financial").map (fun e => e.value)).sum
          = r.detailedImpact.breakdown.fixCost + r.detailedImpact.breakdown.downtime
            + r.detailedImpact.breakdown.regulatoryFines + r.detailedImpact.breakdown.reputation
      ∧ ((chartData
            (some { security_score := 85, vulnerabilities := [],
                    detailedImpact :=
                      { totalINR := 500000,
                        breakdown := { fixCost := 100000, downtime := 200000,
                                       regulatoryFines := 150000, reputation := 50000 } } })
            "financial").map (fun e => e.value)).sum = 500000
      ∧ ((chartData
            (some { security_score := 0, vulnerabilities := [],
                    detailedImpact :=
                      { totalINR := 0,
                        breakdown := { fixCost := 0, downtime := 0,
                                       regulatoryFines := 0, reputation := 0 } } })
            "financial").map (fun e => e.name))
          = ["Fix Costs", "Downtime", "Legal/Fines", "Reputation"] := by
  refine ⟨rfl, rfl, ?_, by decide, by decide⟩
  simp only [chartData, if_true, List.map_cons, List.map_nil, List.sum_cons, List.sum_nil]
  omega

/-! ## Claims on the scan progress simulator -/

theorem stepTick_of_lt (p : Int) (h : p < 6) : stepTick p = p + 1 := by
  have e : ((scanSteps.length : Int) - 1) = 6 := by decide
  unfold stepTick
  rw [e, if_pos h]

theorem stepTick_of_ge (p : Int) (h : 6 ≤ p) : stepTick p = p := by
  have e : ((scanSteps.length : Int) - 1) = 6 := by decide
  unfold stepTick
  rw [e, if_neg (by omega)]

theorem iterate_stepTick (k : Nat) : stepTick^[k] 0 = min (k : Int) 6 := by
  induction k with
  | zero => simp
  | succ n ih =>
    rw [Function.iterate_succ_apply', ih]
    by_cases h : (n : Int) < 6
    · rw [min_eq_left (by omega), stepTick_of_lt _ h]
      push_cast
      rw [min_eq_left (by omega)]
    · rw [min_eq_right (by omega), stepTick_of_ge _ (le_refl _)]
      push_cast
      rw [min_eq_right (by omega)]

/-- Claim C17: there are 7 phase labels (last index 6); one tick of the step
timer maps the cursor `p` to `p + 1` when `p < 6` and to `p` when `p ≥ 6`;
starting from 0 the cursor after `k` ticks is `min k 6`, so it never exceeds
the last index and never returns to 0; a running step timer applies exactly
this update to `scanStep`. -/
theorem stepTick_spec :
    scanSteps.length = 7
      ∧ (∀ p : Int, p < 6 → stepTick p = p + 1)
      ∧ (∀ p : Int, 6 ≤ p → stepTick p = p)
      ∧ (∀ k : Nat, stepTick^[k] 0 = min (k : Int) 6)
      ∧ (∀ k : Nat, stepTick^[k] 0 ≤ 6)
      ∧ (∀ k : Nat, 1 ≤ k → stepTick^[k] 0 ≠ 0)
      ∧ (∀ (timer : Nat) (s : ScanState), timer ∈ s.intervals →
          (intervalFires timer s).scanStep = stepTick s.scanStep) := by
  refine ⟨by decide, stepTick_of_lt, stepTick_of_ge, iterate_stepTick, ?_, ?_, ?_⟩
  · intro k
    rw [iterate_stepTick]
    exact min_le_right _ _
  · intro k hk
    rw [iterate_stepTick]
    have : (1 : Int) ≤ min (k : Int) 6 := le_min (by omega) (by norm_num)
    omega
  · intro timer s h
    simp [intervalFires, h]

/-- Witness for claim C17: the cursor 5 advances to 6, the cursor 6 stays, and
after 9 ticks the cursor is 6. -/
theorem stepTick_spec_witness :
    stepTick 5 = 6 ∧ stepTick 6 = 6 ∧ stepTick^[9] 0 = 6 :=
  ⟨(stepTick_spec.2.1 5 (by decide)).trans (by decide), stepTick_spec.2.2.1 6 (by decide),
    (stepTick_spec.2.2.2.1 9).trans (by decide)⟩

/-! ## Claims on the completion of the audit request -/

theorem handleRepoAuditResolved_eq (response : AuditResult) (timer : Nat) :
    handleRepoAuditResolved response timer = handleCodeAuditResolved response timer := rfl

theorem handleRepoAuditRejected_eq (error : AxiosError) (timer : Nat) :
    handleRepoAuditRejected error timer = handleCodeAuditRejected error timer := rfl

theorem not_mem_filter_ne (l : List Nat) (timer : Nat) :
    timer ∉ l.filter (fun t => t ≠ timer) := by
  simp [List.mem_filter]

/-- State after the completion actions of a successful request. -/
theorem runEffects_resolved (s : ScanState) (response : AuditResult) (timer : Nat) :
    runEffects s (handleCodeAuditResolved response timer)
      = { s with
          loading := false, scanStep := 6,
          intervals := s.intervals.filter (fun t => t ≠ timer),
          timeouts := s.timeouts ++ [response] } := by
  have e : ((scanSteps.length : Int) - 1) = 6 := by decide
  simp [runEffects, handleCodeAuditResolved, applyEffect, e]

/-- State after the actions of a failed request. -/
theorem runEffects_rejected (s : ScanState) (error : AxiosError) (timer : Nat) :
    runEffects s (handleCodeAuditRejected error timer)
      = { s with
          loading := false, isScanning := false, scanStep := 0,
          intervals := s.intervals.filter (fun t => t ≠ timer),
          toasts := s.toasts ++ ["Audit failed: " ++
            (match error.detail with
             | some d => if d = "" then error.message else d
             | none => error.message)] } := by
  simp [runEffects, handleCodeAuditRejected, applyEffect]

/-- Claim C18 fails as stated: when the request fails with the cursor at 3,
`handleCodeAudit` cancels the step timer but leaves the cursor at 0, not at
the final index 6. -/
theorem failure_cursor_counterexample :
    (runEffects
        { loading := true, isScanning := true, scanStep := 3, auditResult := none,
          intervals := [1], timeouts := [], requests := [], toasts := [] }
        (handleCodeAuditRejected { detail := none, message := "Network Error" } 1)).scanStep
      = 0
    ∧ (runEffects
        { loading := true, isScanning := true, scanStep := 3, auditResult := none,
          intervals := [1], timeouts := [], requests := [], toasts := [] }
        (handleCodeAuditRejected { detail := none, message := "Network Error" } 1)).intervals
      = [] := by
  decide

/-- Claim C18, amended: on completion of the request both handlers cancel the
step timer, whatever the outcome; on success they force the step cursor to the
final index 6, whatever value it had reached; on failure they reset the cursor
to 0. -/
theorem completion_cancels_timer (s : ScanState) (response : AuditResult) (error : AxiosError)
    (timer : Nat) :
    ((runEffects s (handleCodeAuditResolved response timer)).scanStep = 6
        ∧ timer ∉ (runEffects s (handleCodeAuditResolved response timer)).intervals)
      ∧ ((runEffects s (handleRepoAuditResolved response timer)).scanStep = 6
        ∧ timer ∉ (runEffects s (handleRepoAuditResolved response timer)).intervals)
      ∧ ((runEffects s (handleCodeAuditRejected error timer)).scanStep = 0
        ∧ timer ∉ (runEffects s (handleCodeAuditRejected error timer)).intervals)
      ∧ ((runEffects s (handleRepoAuditRejected error timer)).scanStep = 0
        ∧ timer ∉ (runEffects s (handleRepoAuditRejected error timer)).intervals) := by
  rw [handleRepoAuditResolved_eq, handleRepoAuditRejected_eq, runEffects_resolved,
    runEffects_rejected]
  exact ⟨⟨rfl, not_mem_filter_ne _ _⟩, ⟨rfl, not_mem_filter_ne _ _⟩,
    ⟨rfl, not_mem_filter_ne _ _⟩, ⟨rfl, not_mem_filter_ne _ _⟩⟩

theorem iterate_intervalFires_of_cleared (timer : Nat) (s : ScanState)
    (h : timer ∉ s.intervals) (n : Nat) : (intervalFires timer)^[n] s = s := by
  have h1 : intervalFires timer s = s := by simp [intervalFires, h]
  exact Function.iterate_fixed h1 n

/-- Claim C19: on the success path of both handlers the first action cancels
the step timer, then the cursor is set to 6 and the grace callback is
scheduled with a delay of 800 ms; no completion action writes the result, so
`isScanning` and `auditResult` are as before and no tick of the cancelled timer
changes the state; the result is written by the grace callback, which also
leaves the scanning state and resets the cursor to 0, the timer being
cancelled by then. -/
theorem success_cancels_before_publishing (s : ScanState) (response : AuditResult)
    (timer : Nat) (effects : List Effect)
    (h : effects = handleCodeAuditResolved response timer
      ∨ effects = handleRepoAuditResolved response timer) :
    effects = [.clearIntervalStep timer, .setScanStep 6, .setTimeoutPublish response 800,
        .setLoading false]
      ∧ (∃ pre post, effects ++ publishCallback response
            = pre ++ Effect.setAuditResult response :: post
          ∧ Effect.clearIntervalStep timer ∈ pre
          ∧ ∀ r, Effect.setAuditResult r ∉ pre)
      ∧ (runEffects s effects).isScanning = s.isScanning
      ∧ (runEffects s effects).auditResult = s.auditResult
      ∧ (runEffects s effects).scanStep = 6
      ∧ timer ∉ (runEffects s effects).intervals
      ∧ response ∈ (runEffects s effects).timeouts
      ∧ (∀ n, (intervalFires timer)^[n] (runEffects s effects) = runEffects s effects)
      ∧ (timeoutFires response (runEffects s effects)).auditResult = some response
      ∧ (timeoutFires response (runEffects s effects)).isScanning = false
      ∧ (timeoutFires response (runEffects s effects)).scanStep = 0
      ∧ timer ∉ (timeoutFires response (runEffects s effects)).intervals := by
  have he : effects = handleCodeAuditResolved response timer := by
    rcases h with h | h
    · exact h
    · rw [h, handleRepoAuditResolved_eq]
  subst he
  have hmem : response ∈ s.timeouts ++ [response] := by simp
  have hfire : timeoutFires response (runEffects s (handleCodeAuditResolved response timer))
      = { s with
          loading := false, isScanning := false, scanStep := 0,
          auditResult := some response,
          intervals := s.intervals.filter (fun t => t ≠ timer),
          timeouts := (s.timeouts ++ [response]).erase response,
          toasts := s.toasts ++ ["Security audit completed"] } := by
    rw [runEffects_resolved]
    simp [timeoutFires, hmem, runEffects, publishCallback, applyEffect]
  have hlist : handleCodeAuditResolved response timer
      = [.clearIntervalStep timer, .setScanStep 6, .setTimeoutPublish response 800,
          .setLoading false] := by
    have e : ((scanSteps.length : Int) - 1) = 6 := by decide
    simp [handleCodeAuditResolved, e]
  refine ⟨hlist, ?_, ?_, ?_, ?_, ?_, ?_, ?_, ?_, ?_, ?_, ?_⟩
  · refine ⟨[.clearIntervalStep timer, .setScanStep 6, .setTimeoutPublish response 800,
      .setLoading false],
      [.setIsScanning false, .setScanStep 0, .toastSuccess "Security audit completed"],
      ?_, by simp, ?_⟩
    · rw [hlist]
      rfl
    · intro r
      simp
  · rw [runEffects_resolved]
  · rw [runEffects_resolved]
  · rw [runEffects_resolved]
  · rw [runEffects_resolved]
    exact not_mem_filter_ne _ _
  · rw [runEffects_resolved]
    exact hmem
  · intro n
    apply iterate_intervalFires_of_cleared
    rw [runEffects_resolved]
    exact not_mem_filter_ne _ _
  · rw [hfire]
  · rw [hfire]
  · rw [hfire]
  · rw [hfire]
    exact not_mem_filter_ne _ _

/-- Witness for claim C19: a scan of `handleRepoAudit` that completes with the
cursor at 2 and the step timer 7 running. -/
theorem success_cancels_before_publishing_witness :
    (runEffects
        { loading := true, isScanning := true, scanStep := 2, auditResult := none,
          intervals := [7], timeouts := [], requests := [], toasts := [] }
        (handleRepoAuditResolved
          { security_score := 85, vulnerabilities := [],
            detailedImpact :=
              { totalINR := 500000,
                breakdown := { fixCost := 100000, downtime := 200000,
                               regulatoryFines := 150000, reputation := 50000 } } } 7)).isScanning
      = true :=
  (success_cancels_before_publishing _ _ 7 _ (Or.inr rfl)).2.2.1

/-- Claim C20: when the request fails, both handlers leave the scanning state
at once (`isScanning` false, no grace callback scheduled), cancel the step
timer, reset the cursor to 0, leave `auditResult` unchanged and show the
message `Audit failed: ` followed by the detail provided by the service when
the error carries a non-empty one, and by the message of the error
otherwise. -/
theorem failure_leaves_scanning (s : ScanState) (error : AxiosError) (timer : Nat)
    (effects : List Effect)
    (h : effects = handleCodeAuditRejected error timer
      ∨ effects = handleRepoAuditRejected error timer) :
    (runEffects s effects).isScanning = false
      ∧ (runEffects s effects).scanStep = 0
      ∧ (runEffects s effects).auditResult = s.auditResult
      ∧ (runEffects s effects).timeouts = s.timeouts
      ∧ (∀ r ms, Effect.setTimeoutPublish r ms ∉ effects)
      ∧ timer ∉ (runEffects s effects).intervals
      ∧ (runEffects s effects).loading = false
      ∧ (∀ d, error.detail = some d → d ≠ "" →
          (runEffects s effects).toasts = s.toasts ++ ["Audit failed: " ++ d])
      ∧ ((error.detail = none ∨ error.detail = some "") →
          (runEffects s effects).toasts = s.toasts ++ ["Audit failed: " ++ error.message]) := by
  have he : effects = handleCodeAuditRejected error timer := by
    rcases h with h | h
    · exact h
    · rw [h, handleRepoAuditRejected_eq]
  subst he
  refine ⟨?_, ?_, ?_, ?_, ?_, ?_, ?_, ?_, ?_⟩
  · rw [runEffects_rejected]
  · rw [runEffects_rejected]
  · rw [runEffects_rejected]
  · rw [runEffects_rejected]
  · intro r ms
    simp [handleCodeAuditRejected]
  · rw [runEffects_rejected]
    exact not_mem_filter_ne _ _
  · rw [runEffects_rejected]
  · intro d hd hne
    rw [runEffects_rejected, hd]
    simp [hne]
  · intro hd
    rw [runEffects_rejected]
    rcases hd with hd | hd
    · rw [hd]
    · rw [hd]
      simp

/-- Witness for claim C20: a rejected request whose error carries the detail
`Rate limit exceeded`, and a timeout without a response. -/
theorem failure_leaves_scanning_witness :
    (runEffects
        { loading := true, isScanning := true, scanStep := 4, auditResult := none,
          intervals := [3], timeouts := [], requests := [], toasts := [] }
        (handleCodeAuditRejected
          { detail := some "Rate limit exceeded",
            message := "Request failed with status code 429" } 3)).toasts
      = ["Audit failed: Rate limit exceeded"]
    ∧ (runEffects
        { loading := true, isScanning := true, scanStep := 4, auditResult := none,
          intervals := [3], timeouts := [], requests := [], toasts := [] }
        (handleRepoAuditRejected
          { detail := none, message := "timeout of 120000ms exceeded" } 3)).toasts
      = ["Audit failed: timeout of 120000ms exceeded"] :=
  ⟨((failure_leaves_scanning _ _ 3 _ (Or.inl rfl)).2.2.2.2.2.2.2.1 "Rate limit exceeded" rfl
      (by decide)).trans (by decide),
    ((failure_leaves_scanning _ _ 3 _ (Or.inr rfl)).2.2.2.2.2.2.2.2 (Or.inl rfl)).trans
      (by decide)⟩

/-! ## Claims on input validation -/

/-- Claim C21: for a code snippet that is empty or holds only white space
(every character is one that `trim` removes), `handleCodeAudit` performs one
action, the error message, and returns: no request is sent, no step timer is
started, and `loading`, `isScanning`, `scanStep` and `auditResult` are not
written, so the state differs from the previous one only by the message. -/
theorem handleCodeAudit_rejects_blank (codeSnippet : String) (timer : Nat) (s : ScanState)
    (h : ∀ c ∈ codeSnippet.data, isTrimmed c = true) :
    handleCodeAuditStart codeSnippet timer = [.toastError "Please enter code to audit"]
      ∧ runEffects s (handleCodeAuditStart codeSnippet timer)
          = { s with toasts := s.toasts ++ ["Please enter code to audit"] } := by
  have e : trimIsEmpty codeSnippet = true := by
    unfold trimIsEmpty
    exact List.all_eq_true.2 h
  have e2 : handleCodeAuditStart codeSnippet timer
      = [.toastError "Please enter code to audit"] := by
    simp [handleCodeAuditStart, e]
  exact ⟨e2, by rw [e2]; rfl⟩

/-- Witness for claim C21: the empty snippet and a snippet of blanks, a line
feed and a tab are rejected with the message only. -/
theorem handleCodeAudit_rejects_blank_witness :
    (∀ c ∈ ("" : String).data, isTrimmed c = true)
      ∧ (∀ c ∈ ("  \n\t " : String).data, isTrimmed c = true)
      ∧ handleCodeAuditStart "" 1 = [.toastError "Please enter code to audit"]
      ∧ handleCodeAuditStart "  \n\t " 1 = [.toastError "Please enter code to audit"] :=
  ⟨by decide, by decide,
    (handleCodeAudit_rejects_blank "" 1
      { loading := false, isScanning := false, scanStep := 0, auditResult := none,
        intervals := [], timeouts := [], requests := [], toasts := [] } (by decide)).1,
    (handleCodeAudit_rejects_blank "  \n\t " 1
      { loading := false, isScanning := false, scanStep := 0, auditResult := none,
        intervals := [], timeouts := [], requests := [], toasts := [] } (by decide)).1⟩

/-- Claim C22 fails as stated: on the GitHub tab with an empty URL,
`handleRepoAudit` sets `isScanning` to true and starts a step timer before it
looks at the input. -/
theorem repo_validation_counterexample :
    Effect.setIsScanning true ∈ handleRepoAuditStart "github" "" none 1
      ∧ Effect.setIntervalStep 1 600 ∈ handleRepoAuditStart "github" "" none 1
      ∧ (runEffects
          { loading := false, isScanning := false, scanStep := 0, auditResult := none,
            intervals := [], timeouts := [], requests := [], toasts := [] }
          ((handleRepoAuditStart "github" "" none 1).take 4)).isScanning = true
      ∧ (runEffects
          { loading := false, isScanning := false, scanStep := 0, auditResult := none,
            intervals := [], timeouts := [], requests := [], toasts := [] }
          ((handleRepoAuditStart "github" "" none 1).take 4)).intervals = [1] := by
  decide

/-- Claim C22, amended: without a usable input (GitHub tab with an empty URL,
upload tab with no file, or any other tab) `handleRepoAudit` first enters the
scan state (`loading` and `isScanning` true, cursor 0, step timer started) and
then undoes it before it returns: it sends no request, shows the validation
message, and leaves `loading` and `isScanning` false, the cursor at 0 and the
timer it started cleared; `auditResult` is not written. -/
theorem handleRepoAudit_rejects_missing_input (activeTab githubUrl : String)
    (file : Option UploadedFile) (timer : Nat) (s : ScanState)
    (h : (activeTab = "github" ∧ githubUrl = "") ∨ (activeTab = "upload" ∧ file = none)
      ∨ (activeTab ≠ "github" ∧ activeTab ≠ "upload")) :
    handleRepoAuditStart activeTab githubUrl file timer
        = [.setLoading true, .setIsScanning true, .setScanStep 0, .setIntervalStep timer 600,
           .setIsScanning false, .setScanStep 0, .clearIntervalStep timer,
           .toastError "Please provide a GitHub URL or upload a file", .setLoading false,
           .setLoading false]
      ∧ runEffects s (handleRepoAuditStart activeTab githubUrl file timer)
          = { s with
              loading := false, isScanning := false, scanStep := 0,
              intervals := s.intervals.filter (fun t => t ≠ timer),
              toasts := s.toasts ++ ["Please provide a GitHub URL or upload a file"] }
      ∧ timer ∉ (runEffects s (handleRepoAuditStart activeTab githubUrl file timer)).intervals
      ∧ (timer ∉ s.intervals →
          (runEffects s (handleRepoAuditStart activeTab githubUrl file timer)).intervals
            = s.intervals) := by
  have e : handleRepoAuditStart activeTab githubUrl file timer
      = [.setLoading true, .setIsScanning true, .setScanStep 0, .setIntervalStep timer 600,
         .setIsScanning false, .setScanStep 0, .clearIntervalStep timer,
         .toastError "Please provide a GitHub URL or upload a file", .setLoading false,
         .setLoading false] := by
    unfold handleRepoAuditStart
    rcases h with ⟨h1, h2⟩ | ⟨h1, h2⟩ | ⟨h1, h2⟩
    · subst h2
      cases file <;> simp [h1]
    · subst h1
      subst h2
      simp
    · cases file <;> simp [h1, h2]
  have e2 : runEffects s (handleRepoAuditStart activeTab githubUrl file timer)
      = { s with
          loading := false, isScanning := false, scanStep := 0,
          intervals := s.intervals.filter (fun t => t ≠ timer),
          toasts := s.toasts ++ ["Please provide a GitHub URL or upload a file"] } := by
    rw [e]
    simp [runEffects, applyEffect, List.filter_append]
  refine ⟨e, e2, ?_, ?_⟩
  · rw [e2]
    exact not_mem_filter_ne _ _
  · intro hn
    rw [e2]
    show s.intervals.filter (fun t => t ≠ timer) = s.intervals
    rw [List.filter_eq_self]
    intro t ht
    have : t ≠ timer := fun e => hn (e ▸ ht)
    simpa using this

/-- Witness for claim C22: the GitHub tab with an empty URL, the upload tab
with no file, and the code tab; from the idle state the handler ends in the
idle state with the message shown. -/
theorem handleRepoAudit_rejects_missing_input_witness :
    runEffects
        { loading := false, isScanning := false, scanStep := 0, auditResult := none,
          intervals := [], timeouts := [], requests := [], toasts := [] }
        (handleRepoAuditStart "github" "" none 1)
      = { loading := false, isScanning := false, scanStep := 0, auditResult := none,
          intervals := [], timeouts := [], requests := [],
          toasts := ["Please provide a GitHub URL or upload a file"] }
    ∧ 1 ∉ (runEffects
        { loading := true, isScanning := true, scanStep := 2, auditResult := none,
          intervals := [1], timeouts := [], requests := [], toasts := [] }
        (handleRepoAuditStart "upload" "https://github.com/a/b" none 1)).intervals
    ∧ 1 ∉ (runEffects
        { loading := false, isScanning := false, scanStep := 0, auditResult := none,
          intervals := [], timeouts := [], requests := [], toasts := [] }
        (handleRepoAuditStart "code" "https://github.com/a/b" (some { name := "a.zip" })
          1)).intervals :=
  ⟨(handleRepoAudit_rejects_missing_input "github" "" none 1 _ (Or.inl ⟨rfl, rfl⟩)).2.1.trans
      (by decide),
    (handleRepoAudit_rejects_missing_input "upload" "https://github.com/a/b" none 1 _
      (Or.inr (Or.inl ⟨rfl, rfl⟩))).2.2.1,
    (handleRepoAudit_rejects_missing_input "code" "https://github.com/a/b"
      (some { name := "a.zip" }) 1 _ (Or.inr (Or.inr ⟨by decide, by decide⟩))).2.2.1⟩

/-! ## Claims on the totality of the derivations -/

/-- Claim C23 fails on a list the audit service can return: for one finding
of category `toString` the lookup `groups[category]` finds the inherited
function, so `groupVulnerabilities` raises a `TypeError`, while the other three
derivations return; on the empty list the four derivations return the empty
grouping, the empty mapping, `Info` and the empty series. -/
theorem groupVulnerabilities_not_total :
    groupVulnerabilities [{ title := "t", severity := "High", category := some "toString" }]
        = .error (.typeError "groups[category].push is not a function")
      ∧ getSeverityDistribution
          [{ title := "t", severity := "High", category := some "toString" }]
        = [("High", .number 1)]
      ∧ getGroupSeverity [{ title := "t", severity := "High", category := some "toString" }]
        = "High"
      ∧ groupVulnerabilities [] = .ok []
      ∧ getSeverityDistribution [] = []
      ∧ getGroupSeverity [] = "Info"
      ∧ (∀ (score : Int) (impact : DetailedImpact),
          chartData
            (some { security_score := score, vulnerabilities := [], detailedImpact := impact })
            "severity" = []) :=
  ⟨rfl, by decide, by decide, rfl, rfl, by decide, fun _ _ => by simp [chartData]⟩

/-! ## Claims on the team panel -/

/-- Claim C26: for every value of the active plan, after `handleTeamClick` the
team panel is shown exactly when the plan is the string `enterprise`; for the
plan `enterprise` only the flag of the team panel is set, and for every other
plan only the flag of the upgrade prompt is set, the prompt is shown and the
team panel is not. -/
theorem handleTeamClick_spec (selectedPlan : String) (s : PlanState) :
    (teamPanelShown selectedPlan (handleTeamClick selectedPlan s) = true
        ↔ selectedPlan = "enterprise")
      ∧ (selectedPlan = "enterprise" →
          handleTeamClick selectedPlan s = { s with showTeamPanel := true })
      ∧ (selectedPlan ≠ "enterprise" →
          handleTeamClick selectedPlan s = { s with showUpgradeModal := true }
            ∧ upgradeModalShown (handleTeamClick selectedPlan s) = true
            ∧ teamPanelShown selectedPlan (handleTeamClick selectedPlan s) = false) := by
  by_cases h : selectedPlan = "enterprise"
  · simp [handleTeamClick, teamPanelShown, h]
  · simp [handleTeamClick, teamPanelShown, upgradeModalShown, h]

/-! ## Claims on the order independence of getGroupSeverity -/

/-- A positive rank belongs to one label only. -/
theorem specRank_injective_of_pos (a b : String) (h : specRank a = specRank b)
    (hp : 0 < specRank a) : a = b := by
  unfold specRank at h hp
  split_ifs at h hp <;> simp_all

/-- The result of `getGroupSeverity` is `Info` when no member has a positive
rank, and otherwise the label of a member of maximal rank. -/
theorem getGroupSeverity_cases (g : List Vulnerability) :
    ((∀ u ∈ g, specRank u.severity = 0) ∧ getGroupSeverity g = "Info")
      ∨ ∃ v ∈ g, 0 < specRank v.severity
          ∧ (∀ u ∈ g, specRank u.severity ≤ specRank v.severity)
          ∧ getGroupSeverity g = v.severity := by
  by_cases hex : ∃ u ∈ g, 0 < specRank u.severity
  · right
    obtain ⟨pre, v, post, hsplit, hpre, hpost, hv, hres⟩ := (foldl_severityStep g "Info" 0).2 hex
    refine ⟨v, by simp [hsplit], hv, ?_, ?_⟩
    · intro u hu
      rw [hsplit] at hu
      rcases List.mem_append.1 hu with e | e
      · exact Nat.le_of_lt (hpre u e)
      · rcases List.mem_cons.1 e with e | e
        · rw [e]
        · exact hpost u e
    · unfold getGroupSeverity
      rw [hres]
  · left
    have hall : ∀ u ∈ g, specRank u.severity = 0 := by
      intro u hu
      by_contra hc
      exact hex ⟨u, hu, Nat.pos_of_ne_zero hc⟩
    refine ⟨hall, ?_⟩
    unfold getGroupSeverity
    rw [(foldl_severityStep g "Info" 0).1 (fun u hu => Nat.le_of_eq (hall u hu))]

/-- Claim C29: `getGroupSeverity` does not depend on the order of the group;
a group and any permutation of it have the same result. -/
theorem getGroupSeverity_perm (g g' : List Vulnerability) (h : g.Perm g') :
    getGroupSeverity g' = getGroupSeverity g := by
  rcases getGroupSeverity_cases g with ⟨h0, e⟩ | ⟨v, hv, hpos, hmax, e⟩
  · rcases getGroupSeverity_cases g' with ⟨_, e'⟩ | ⟨v', hv', hpos', _, _⟩
    · rw [e, e']
    · have := h0 v' (h.mem_iff.2 hv')
      omega
  · rcases getGroupSeverity_cases g' with ⟨h0', _⟩ | ⟨v', hv', _, hmax', e'⟩
    · have := h0' v (h.mem_iff.1 hv)
      omega
    · rw [e, e']
      have h1 := hmax' v (h.mem_iff.1 hv)
      have h2 := hmax v' (h.mem_iff.2 hv')
      exact (specRank_injective_of_pos v.severity v'.severity (by omega) hpos).symm

/-- Witness for claim C29: a group of severities Low, Critical, High and its
rotation both give Critical. -/
theorem getGroupSeverity_perm_witness :
    getGroupSeverity
        [{ title := "c", severity := "High", category := none },
         { title := "a", severity := "Low", category := none },
         { title := "b", severity := "Critical", category := none }]
      = getGroupSeverity
        [{ title := "a", severity := "Low", category := none },
         { title := "b", severity := "Critical", category := none },
         { title := "c", severity := "High", category := none }]
    ∧ getGroupSeverity
        [{ title := "a", severity := "Low", category := none },
         { title := "b", severity := "Critical", category := none },
         { title := "c", severity := "High", category := none }] = "Critical" :=
  ⟨getGroupSeverity_perm
      [{ title := "a", severity := "Low", category := none },
       { title := "b", severity := "Critical", category := none },
       { title := "c", severity := "High", category := none }]
      [{ title := "c", severity := "High", category := none },
       { title := "a", severity := "Low", category := none },
       { title := "b", severity := "Critical", category := none }] (by decide),
    by decide⟩

/-! ## Claims on repeated toggles -/

/-- Two toggles of a category that is not an inherited name leave the
category alone when it was open, and nothing otherwise. -/
theorem double_toggle_eq (c : String) (s : Obj Bool) (hc : c ∉ objectPrototypeKeys) :
    toggleGroup c (toggleGroup c s) = if isOpen s c = true then [(c, true)] else [] := by
  rw [toggleGroup_of_plain c _ hc, toggleGroup_of_plain c s hc]
  by_cases h : isOpen s c = true
  · simp [h, isOpen_nil]
  · simp [h, isOpen_singleton]

/-- Outside the categories that the grouped view passes to `toggleGroup`, and
on states that no toggle produces: in the state where `constructor` is open,
two toggles of `constructor` give the empty state, in which it is not open; and
from the state holding a false entry for `constructor`, three toggles give the
empty state while one toggle gives the state where `constructor` is open. -/
theorem toggle_twice_on_inherited_name :
    isOpen [("constructor", true)] "constructor" = true
      ∧ toggleGroup "constructor" (toggleGroup "constructor" [("constructor", true)]) = []
      ∧ isOpen (toggleGroup "constructor" (toggleGroup "constructor" [("constructor", true)]))
          "constructor" = false
      ∧ toggleGroup "constructor"
          (toggleGroup "constructor" (toggleGroup "constructor" [("constructor", false)])) = []
      ∧ toggleGroup "constructor" [("constructor", false)] = [("constructor", true)] := by
  decide

/-- Claim C30: for every state `s` and every category `c` passed to
`toggleGroup`, after two toggles of `c` a category is open exactly when it is
`c` and `c` was open in `s`; so the two toggles restore which categories are
open exactly when no other category was open in `s`; and three toggles of `c`
give the same state as one.  The categories passed to `toggleGroup` are the
keys of a grouping returned by `groupVulnerabilities`, none of which is the
name of a member inherited from `Object.prototype`
(`groupVulnerabilities_keys_plain`); the statement is proved for every category
that is not such a name. -/
theorem toggleGroup_twice (s : Obj Bool) (c : String) (hc : c ∉ objectPrototypeKeys) :
    (∀ k, isOpen (toggleGroup c (toggleGroup c s)) k = true ↔ (k = c ∧ isOpen s c = true))
      ∧ ((∀ k, isOpen (toggleGroup c (toggleGroup c s)) k = isOpen s k)
          ↔ ∀ k, k ≠ c → isOpen s k = false)
      ∧ toggleGroup c (toggleGroup c (toggleGroup c s)) = toggleGroup c s := by
  have key : ∀ k, isOpen (toggleGroup c (toggleGroup c s)) k = true
      ↔ (k = c ∧ isOpen s c = true) := by
    intro k
    rw [double_toggle_eq c s hc]
    by_cases h : isOpen s c = true
    · simp only [h, if_true, isOpen_singleton, decide_eq_true_eq, and_true]
      exact eq_comm
    · simp [h, isOpen_nil]
  refine ⟨key, ?_, ?_⟩
  · constructor
    · intro hall k hk
      have h1 := key k
      rw [hall k] at h1
      cases hs : isOpen s k
      · rfl
      · exact absurd (h1.1 hs).1 hk
    · intro hno k
      by_cases hk : k = c
      · subst hk
        have h1 := key k
        cases hs : isOpen s k
        · cases ht : isOpen (toggleGroup k (toggleGroup k s)) k
          · rfl
          · have := (h1.1 ht).2
            rw [hs] at this
            exact absurd this (by decide)
        · exact h1.2 ⟨rfl, hs⟩
      · rw [hno k hk]
        cases ht : isOpen (toggleGroup c (toggleGroup c s)) k
        · rfl
        · exact absurd ((key k).1 ht).1 hk
  · rw [double_toggle_eq c _ hc, toggleGroup_of_plain c s hc]
    by_cases h : isOpen s c = true
    · simp [h, isOpen_nil]
    · simp [h, isOpen_singleton]

/-- Witness for claim C30: `Injection` is a key of the grouping of a list with
one finding of that category; with `Injection` and `Secrets` in the state, two
toggles of `Injection` leave `Injection` alone when it was open and nothing
when it was closed, and three toggles equal one. -/
theorem toggleGroup_twice_witness :
    groupVulnerabilities [{ title := "SQL", severity := "High", category := some "Injection" }]
        = .ok [("Injection",
            [{ title := "SQL", severity := "High", category := some "Injection" }])]
      ∧ toggleGroup "Injection"
          (toggleGroup "Injection" [("Injection", true), ("Secrets", true)])
        = [("Injection", true)]
      ∧ toggleGroup "Injection" (toggleGroup "Injection" [("Secrets", true)]) = []
      ∧ toggleGroup "Injection"
          (toggleGroup "Injection" (toggleGroup "Injection" [("Secrets", true)]))
        = toggleGroup "Injection" [("Secrets", true)] :=
  ⟨rfl, by decide, by decide,
    (toggleGroup_twice [("Secrets", true)] "Injection"
      (groupVulnerabilities_keys_plain
        [{ title := "SQL", severity := "High", category := some "Injection" }]
        [("Injection", [{ title := "SQL", severity := "High", category := some "Injection" }])]
        rfl "Injection" (by decide))).2.2⟩

/-! ## Claims on the agreement of chart and distribution -/

/-- The distribution at a label that is not an inherited name, for any list:
the label is absent when no vulnerability carries it and mapped to its number
of occurrences otherwise, whatever the other labels of the list are. -/
theorem getOwn_getSeverityDistribution (vs : List Vulnerability) (s : String)
    (hs : s ∉ objectPrototypeKeys) :
    getOwn (getSeverityDistribution vs) s
      = if severityCount s vs = 0 then none else some (JSValue.number (severityCount s vs)) := by
  induction vs using List.reverseRecOn with
  | nil => simp [getSeverityDistribution, getOwn, severityCount]
  | append_singleton vs v ih =>
    have hstep : getSeverityDistribution (vs ++ [v])
        = distStep (getSeverityDistribution vs) v := by
      unfold getSeverityDistribution
      rw [List.foldl_append]
      rfl
    rw [hstep, severityCount_append_singleton]
    by_cases hv : v.severity = s
    · have hplain : v.severity ∉ objectPrototypeKeys := hv ▸ hs
      rw [distStep_of_plain _ v hplain, hv, getOwn_setOwn_self]
      simp only [if_true]
      unfold nextCount
      rw [ih]
      by_cases h0 : severityCount s vs = 0
      · simp [h0, hs]
      · simp [h0]
    · have hne : s ≠ v.severity := fun e => hv e.symm
      have hkeep : getOwn (distStep (getSeverityDistribution vs) v) s
          = getOwn (getSeverityDistribution vs) s := by
        unfold distStep assignPrimitive
        split
        · rfl
        · exact getOwn_setOwn_ne _ _ _ _ hne
      rw [hkeep, ih]
      simp [hv]

theorem chartSeverities_plain (label : String) (h : label ∈ chartSeverities) :
    label ∉ objectPrototypeKeys := by
  simp only [chartSeverities, List.mem_cons, List.mem_singleton, List.not_mem_nil,
    or_false] at h
  rcases h with h | h | h | h | h <;> subst h <;> decide

/-- The slices of the severity chart: a slice of label `label` and value `n`
exists exactly when `label` is one of the five labels and `n` is its non-zero
number of occurrences. -/
theorem chartData_severity_entry (r : AuditResult) (chartView : String)
    (hview : chartView ≠ "financial") (label : String) (n : Int) :
    (∃ e ∈ chartData (some r) chartView, e.name = label ∧ e.value = n)
      ↔ (label ∈ chartSeverities ∧ n = (severityCount label r.vulnerabilities : Int)
          ∧ n ≠ 0) := by
  unfold chartData
  simp only [hview, if_false, length_filter_severity]
  constructor
  · rintro ⟨e, he, hn, hval⟩
    obtain ⟨hmem, hpos⟩ := List.mem_filter.1 he
    simp only [gt_iff_lt, decide_eq_true_eq] at hpos
    simp only [List.mem_cons, List.mem_singleton, List.not_mem_nil, or_false] at hmem
    rcases hmem with h | h | h | h | h
    all_goals
      subst h
      simp only at hn hval hpos
      subst hn
      subst hval
      exact ⟨by decide, rfl, by omega⟩
  · rintro ⟨hl, hn, hne⟩
    have hpos : (0 : Int) < n := by omega
    subst hn
    simp only [chartSeverities, List.mem_cons, List.mem_singleton, List.not_mem_nil,
      or_false] at hl
    rcases hl with h | h | h | h | h
    · subst h
      exact ⟨{ name := "Critical", value := _, fill := "#ef4444" },
        by simp [List.mem_filter, hpos], rfl, rfl⟩
    · subst h
      exact ⟨{ name := "High", value := _, fill := "#f97316" },
        by simp [List.mem_filter, hpos], rfl, rfl⟩
    · subst h
      exact ⟨{ name := "Medium", value := _, fill := "#eab308" },
        by simp [List.mem_filter, hpos], rfl, rfl⟩
    · subst h
      exact ⟨{ name := "Low", value := _, fill := "#3b82f6" },
        by simp [List.mem_filter, hpos], rfl, rfl⟩
    · subst h
      exact ⟨{ name := "Info", value := _, fill := "#6b7280" },
        by simp [List.mem_filter, hpos], rfl, rfl⟩

theorem sum_filter_positive (l : List ChartEntry) (h : ∀ e ∈ l, 0 ≤ e.value) :
    ((l.filter (fun item => item.value > 0)).map (fun e => e.value)).sum
      = (l.map (fun e => e.value)).sum := by
  induction l with
  | nil => rfl
  | cons e rest ih =>
    have h0 : 0 ≤ e.value := h e (List.mem_cons_self _ _)
    have ih2 := ih (fun x hx => h x (List.mem_cons_of_mem _ hx))
    by_cases hv : e.value = 0
    · simp [List.filter_cons, hv, ih2]
    · have hpos : e.value > 0 := by omega
      simp [List.filter_cons, hpos, ih2]

/-- The five counts add up to the number of vulnerabilities whose severity is
one of the five labels. -/
theorem sum_severityCount (vs : List Vulnerability) :
    severityCount "Critical" vs + severityCount "High" vs + severityCount "Medium" vs
        + severityCount "Low" vs + severityCount "Info" vs
      = vs.countP (fun v => v.severity ∈ chartSeverities) := by
  unfold severityCount
  induction vs with
  | nil => rfl
  | cons v rest ih =>
    simp only [List.countP_cons]
    rw [← ih]
    by_cases h1 : v.severity = "Critical"
    · simp [h1, chartSeverities]; omega
    by_cases h2 : v.severity = "High"
    · simp [h2, chartSeverities]; omega
    by_cases h3 : v.severity = "Medium"
    · simp [h3, chartSeverities]; omega
    by_cases h4 : v.severity = "Low"
    · simp [h4, chartSeverities]; omega
    by_cases h5 : v.severity = "Info"
    · simp [h5, chartSeverities]; omega
    simp [h1, h2, h3, h4, h5, chartSeverities]

/-- The values of the severity chart add up to the number of vulnerabilities
whose severity is one of the five labels. -/
theorem sum_chartData_severity (r : AuditResult) (chartView : String)
    (hview : chartView ≠ "financial") :
    ((chartData (some r) chartView).map (fun e => e.value)).sum
      = ((r.vulnerabilities.countP (fun v => v.severity ∈ chartSeverities) : Nat) : Int) := by
  rw [← sum_severityCount]
  unfold chartData
  simp only [hview, if_false, length_filter_severity]
  rw [sum_filter_positive]
  · simp only [List.map_cons, List.map_nil, List.sum_cons, List.sum_nil]
    push_cast
    ring
  · intro e he
    simp only [List.mem_cons, List.mem_singleton, List.not_mem_nil, or_false] at he
    rcases he with h | h | h | h | h <;> rw [h] <;> exact Int.ofNat_nonneg _

/-- Claim C28: in severity mode the chart agrees with the severity
distribution on the five labels: for each of them the chart has a slice with
value `n` exactly when the distribution maps the label to `n`; the values of
the chart add up to the number of vulnerabilities whose severity is one of the
five labels, and that sum equals the length of the list exactly when every
severity of the list is one of the five labels. -/
theorem chart_agrees_with_distribution (r : AuditResult) (chartView : String)
    (hview : chartView ≠ "financial") :
    (∀ label ∈ chartSeverities, ∀ n : Nat,
        (∃ e ∈ chartData (some r) chartView, e.name = label ∧ e.value = (n : Int))
          ↔ getOwn (getSeverityDistribution r.vulnerabilities) label = some (.number n))
      ∧ ((chartData (some r) chartView).map (fun e => e.value)).sum
          = ((r.vulnerabilities.countP (fun v => v.severity ∈ chartSeverities) : Nat) : Int)
      ∧ (((chartData (some r) chartView).map (fun e => e.value)).sum
            = (r.vulnerabilities.length : Int)
          ↔ ∀ v ∈ r.vulnerabilities, v.severity ∈ chartSeverities) := by
  refine ⟨?_, sum_chartData_severity r chartView hview, ?_⟩
  · intro label hl n
    rw [chartData_severity_entry r chartView hview,
      getOwn_getSeverityDistribution _ _ (chartSeverities_plain label hl)]
    by_cases h0 : severityCount label r.vulnerabilities = 0
    · simp only [h0, if_true]
      constructor
      · rintro ⟨_, h1, h2⟩
        simp only [h1, Nat.cast_zero, ne_eq, not_true_eq_false] at h2
      · intro h
        cases h
    · simp only [h0, if_false, Option.some.injEq, JSValue.number.injEq]
      constructor
      · rintro ⟨_, h1, _⟩
        exact (Nat.cast_injective h1).symm
      · intro h
        subst h
        exact ⟨hl, rfl, by exact_mod_cast h0⟩
  · rw [sum_chartData_severity r chartView hview, Nat.cast_inj, List.countP_eq_length]
    simp

/-- Witness for claim C28: for the severities High, High, Urgent the chart has
the one slice High = 2, the distribution maps High to 2, and the chart sum 2 is
below the list length 3. -/
theorem chart_agrees_with_distribution_witness :
    "severity" ≠ "financial"
      ∧ ((∃ e ∈ chartData
            (some { security_score := 70,
                    vulnerabilities :=
                      [{ title := "a", severity := "High", category := none },
                       { title := "b", severity := "High", category := none },
                       { title := "c", severity := "Urgent", category := none }],
                    detailedImpact :=
                      { totalINR := 0,
                        breakdown :=
                          { fixCost := 0, downtime := 0, regulatoryFines := 0,
                            reputation := 0 } } })
            "severity", e.name = "High" ∧ e.value = ((2 : Nat) : Int))
          ↔ getOwn (getSeverityDistribution
              [{ title := "a", severity := "High", category := none },
               { title := "b", severity := "High", category := none },
               { title := "c", severity := "Urgent", category := none }]) "High"
            = some (.number 2))
      ∧ getOwn (getSeverityDistribution
          [{ title := "a", severity := "High", category := none },
           { title := "b", severity := "High", category := none },
           { title := "c", severity := "Urgent", category := none }]) "High"
        = some (.number 2) :=
  ⟨by decide,
    (chart_agrees_with_distribution
      { security_score := 70,
        vulnerabilities :=
          [{ title := "a", severity := "High", category := none },
           { title := "b", severity := "High", category := none },
           { title := "c", severity := "Urgent", category := none }],
        detailedImpact :=
          { totalINR := 0,
            breakdown := { fixCost := 0, downtime := 0, regulatoryFines := 0,
                           reputation := 0 } } }
      "severity" (by decide)).1 "High" (by decide) 2,
    by decide⟩

/-! ## Claims on the severity-count display -/

theorem mem_entries {α : Type} (o : Obj α) (p : String × α) : p ∈ entries o ↔ p ∈ o := by
  unfold entries
  rw [List.mem_append, List.mem_insertionSort, List.mem_filter, List.mem_filter]
  cases isArrayIndex p.1 <;> simp

theorem entries_perm {α : Type} (o : Obj α) : (entries o).Perm o := by
  unfold entries
  have h1 := (List.perm_insertionSort (indexLE (α := α))
    (o.filter (fun p => isArrayIndex p.1))).append_right
      (o.filter (fun p => !isArrayIndex p.1))
  exact h1.trans (List.filter_append_perm (fun p => isArrayIndex p.1) o)

/-- A label that is not an inherited name is looked up as its rank. -/
theorem lookupRank_of_plain (s : String) (hs : s ∉ objectPrototypeKeys) :
    lookupRank s = .nat (specRank s) := by
  rcases lookupRank_cases s with h | ⟨h, _⟩
  · exact h
  · exfalso
    unfold lookupRank at h
    split at h
    · cases h
    · simp [hs] at h

theorem extendRun_append {α : Type} (compare : α → α → Int) (descending : Bool) :
    ∀ (rest : List α) (previous : α),
      (extendRun compare descending previous rest).1
          ++ (extendRun compare descending previous rest).2 = rest := by
  intro rest
  induction rest with
  | nil => intro _; rfl
  | cons current rest ih =>
    intro previous
    simp only [extendRun]
    by_cases hc : (if descending then decide (0 ≤ compare current previous)
        else decide (compare current previous < 0)) = true
    · rw [if_pos hc]
      rfl
    · rw [if_neg hc]
      simp only [List.cons_append, ih current]

/-- The elements taken by `extendRun` continue the run: each adjacent pair is
related when the relation follows from the test that keeps an element in the
run. -/
theorem extendRun_pairwise {α : Type} (compare : α → α → Int) (descending : Bool)
    (S : α → Prop) (R : α → α → Prop) (htrans : ∀ a b c, R a b → R b c → R a c)
    (hstep : ∀ a b, S a → S b → (if descending then decide (0 ≤ compare b a)
        else decide (compare b a < 0)) ≠ true → R a b) :
    ∀ (rest : List α) (previous : α), S previous → (∀ x ∈ rest, S x) →
      (previous :: (extendRun compare descending previous rest).1).Pairwise R := by
  intro rest
  induction rest with
  | nil =>
    intro previous _ _
    simp [extendRun]
  | cons current rest ih =>
    intro previous hp hrest
    simp only [extendRun]
    by_cases hc : (if descending then decide (0 ≤ compare current previous)
        else decide (compare current previous < 0)) = true
    · rw [if_pos hc]
      simp
    · rw [if_neg hc]
      have hcur : S current := hrest current (List.mem_cons_self _ _)
      have h1 := ih current hcur (fun x hx => hrest x (List.mem_cons_of_mem _ hx))
      have h2 : R previous current := hstep previous current hp hcur hc
      rw [List.pairwise_cons]
      refine ⟨?_, h1⟩
      intro x hx
      rcases List.mem_cons.1 hx with e | e
      · rw [e]
        exact h2
      · exact htrans _ _ _ h2 ((List.pairwise_cons.1 h1).1 x e)

/-- Position found by the binary search in a list sorted by non-increasing
key, for a comparator that is the difference of the keys: the elements before
the position have a key not below the pivot's, the elements from the position
on have a smaller key. -/
theorem insertionPoint_spec {α : Type} (compare : α → α → Int) (k : α → Nat) (pivot : α)
    (sorted : List α) (hsorted : sorted.Pairwise (fun a b => k b ≤ k a))
    (hcmp : ∀ x ∈ sorted, compare pivot x = (k x : Int) - (k pivot : Int)) :
    ∀ (fuel left right : Nat), left ≤ right → right ≤ sorted.length → right - left ≤ fuel →
      (∀ x ∈ sorted.take left, k pivot ≤ k x) → (∀ x ∈ sorted.drop right, k x < k pivot) →
      (∀ x ∈ sorted.take (insertionPoint compare pivot sorted fuel left right),
          k pivot ≤ k x)
        ∧ (∀ x ∈ sorted.drop (insertionPoint compare pivot sorted fuel left right),
          k x < k pivot) := by
  intro fuel
  induction fuel with
  | zero =>
    intro left right hle _ hfuel hl hr
    have e : left = right := by omega
    simp only [insertionPoint]
    exact ⟨hl, e ▸ hr⟩
  | succ fuel ih =>
    intro left right hle hlen hfuel hl hr
    unfold insertionPoint
    by_cases hlt : left < right
    · simp only [hlt, if_true]
      have hmid : left + (right - left) / 2 < sorted.length := by omega
      rw [List.getElem?_eq_getElem hmid]
      simp only
      have hx : sorted[left + (right - left) / 2] ∈ sorted := List.getElem_mem _
      have hdrop : sorted.drop (left + (right - left) / 2)
          = sorted[left + (right - left) / 2]
            :: sorted.drop (left + (right - left) / 2 + 1) :=
        List.drop_eq_getElem_cons hmid
      by_cases hneg : compare pivot sorted[left + (right - left) / 2] < 0
      · simp only [hneg, if_true]
        apply ih left _ (by omega) (by omega) (by omega) hl
        intro y hy
        have hkx : k sorted[left + (right - left) / 2] < k pivot := by
          rw [hcmp _ hx] at hneg
          omega
        rw [hdrop] at hy
        rcases List.mem_cons.1 hy with e | e
        · rw [e]
          exact hkx
        · have hp : (sorted.drop (left + (right - left) / 2)).Pairwise
              (fun a b => k b ≤ k a) := hsorted.sublist (List.drop_sublist _ _)
          rw [hdrop, List.pairwise_cons] at hp
          have := hp.1 y e
          omega
      · simp only [hneg, if_false]
        apply ih _ right (by omega) hlen (by omega) _ hr
        intro y hy
        have hkx : k pivot ≤ k sorted[left + (right - left) / 2] := by
          rw [hcmp _ hx] at hneg
          omega
        rw [List.take_succ, List.getElem?_eq_getElem hmid] at hy
        simp only [Option.toList_some, List.mem_append, List.mem_singleton] at hy
        rcases hy with e | e
        · have hp := hsorted
          rw [← List.take_append_drop (left + (right - left) / 2) sorted,
            List.pairwise_append] at hp
          have hin : sorted[left + (right - left) / 2]
              ∈ sorted.drop (left + (right - left) / 2) := by
            rw [hdrop]
            exact List.mem_cons_self _ _
          have := hp.2.2 y e sorted[left + (right - left) / 2] hin
          omega
        · rw [e]
          exact hkx
    · have e : left = right := by omega
      simp only [hlt, if_false]
      exact ⟨hl, e ▸ hr⟩

/-- One insertion keeps a list sorted by non-increasing key and adds the
pivot to it. -/
theorem binaryInsert_sorted {α : Type} (compare : α → α → Int) (k : α → Nat) (pivot : α)
    (sorted : List α) (hsorted : sorted.Pairwise (fun a b => k b ≤ k a))
    (hcmp : ∀ x ∈ sorted, compare pivot x = (k x : Int) - (k pivot : Int)) :
    (binaryInsert compare sorted pivot).Pairwise (fun a b => k b ≤ k a)
      ∧ (binaryInsert compare sorted pivot).Perm (pivot :: sorted) := by
  obtain ⟨h1, h2⟩ := insertionPoint_spec compare k pivot sorted hsorted hcmp sorted.length 0
    sorted.length (Nat.zero_le _) (Nat.le_refl _) (by omega) (by simp) (by simp)
  unfold binaryInsert
  constructor
  · rw [List.pairwise_append]
    refine ⟨hsorted.sublist (List.take_sublist _ _), ?_, ?_⟩
    · rw [List.pairwise_cons]
      exact ⟨fun y hy => Nat.le_of_lt (h2 y hy), hsorted.sublist (List.drop_sublist _ _)⟩
    · intro a ha b hb
      rcases List.mem_cons.1 hb with e | e
      · rw [e]
        exact h1 a ha
      · have := h1 a ha
        have := h2 b e
        omega
  · refine List.perm_middle.trans ?_
    rw [List.take_append_drop]

/-- The initial run of a list whose comparator is the difference of the keys
is sorted by non-increasing key, and run and rest together are the list. -/
theorem countAndMakeRun_spec {α : Type} (compare : α → α → Int) (k : α → Nat)
    (S : α → Prop)
    (hcmp : ∀ a b, S a → S b → compare a b = (k b : Int) - (k a : Int))
    (l : List α) (hS : ∀ x ∈ l, S x) :
    ((countAndMakeRun compare l).1 ++ (countAndMakeRun compare l).2).Perm l
      ∧ (countAndMakeRun compare l).1.Pairwise (fun a b => k b ≤ k a) := by
  match l, hS with
  | [], _ => exact ⟨List.Perm.refl _, List.Pairwise.nil⟩
  | [a], _ => exact ⟨List.Perm.refl _, by simp [countAndMakeRun]⟩
  | low :: high :: rest, hS =>
    have hlow : S low := hS low (by simp)
    have hhigh : S high := hS high (by simp)
    have hrest : ∀ x ∈ rest, S x := fun x hx => hS x (by simp [hx])
    have happ := extendRun_append compare (decide (compare high low < 0)) rest high
    simp only [countAndMakeRun]
    by_cases hd : compare high low < 0
    · simp only [hd, decide_True, if_true]
      have hrun := extendRun_pairwise compare true S (fun a b => k a < k b)
        (fun a b c h1 h2 => Nat.lt_trans h1 h2)
        (fun a b ha hb hc => by
          simp at hc
          rw [hcmp b a hb ha] at hc
          omega) rest high hhigh hrest
      simp only [hd, decide_True] at happ
      constructor
      · refine (List.Perm.append_right _ (List.reverse_perm _)).trans ?_
        simp only [List.cons_append, happ]
        exact List.Perm.refl _
      · rw [List.pairwise_reverse]
        have hlh : k low < k high := by
          rw [hcmp high low hhigh hlow] at hd
          omega
        have hall : (low :: high :: (extendRun compare true high rest).1).Pairwise
            (fun a b => k a < k b) := by
          rw [List.pairwise_cons]
          refine ⟨?_, hrun⟩
          intro x hx
          rcases List.mem_cons.1 hx with e | e
          · rw [e]
            exact hlh
          · exact Nat.lt_trans hlh ((List.pairwise_cons.1 hrun).1 x e)
        exact hall.imp (fun h => Nat.le_of_lt h)
    · simp only [hd, decide_False, Bool.false_eq_true, if_false]
      have hrun := extendRun_pairwise compare false S (fun a b => k b ≤ k a)
        (fun a b c h1 h2 => Nat.le_trans h2 h1)
        (fun a b ha hb hc => by
          simp at hc
          rw [hcmp b a hb ha] at hc
          omega) rest high hhigh hrest
      simp only [hd, decide_False] at happ
      constructor
      · simp only [List.cons_append, happ]
        exact List.Perm.refl _
      · have hlh : k high ≤ k low := by
          rw [hcmp high low hhigh hlow] at hd
          omega
        rw [List.pairwise_cons]
        refine ⟨?_, hrun⟩
        intro x hx
        rcases List.mem_cons.1 hx with e | e
        · rw [e]
          exact hlh
        · exact Nat.le_trans ((List.pairwise_cons.1 hrun).1 x e) hlh

/-- The insertions of `BinaryInsertionSort` keep the list sorted and add the
remaining elements to it. -/
theorem foldl_binaryInsert_sorted {α : Type} (compare : α → α → Int) (k : α → Nat)
    (S : α → Prop)
    (hcmp : ∀ a b, S a → S b → compare a b = (k b : Int) - (k a : Int)) :
    ∀ (remaining sorted : List α), (∀ x ∈ sorted, S x) → (∀ x ∈ remaining, S x) →
      sorted.Pairwise (fun a b => k b ≤ k a) →
      (remaining.foldl (binaryInsert compare) sorted).Pairwise (fun a b => k b ≤ k a)
        ∧ (remaining.foldl (binaryInsert compare) sorted).Perm (sorted ++ remaining) := by
  intro remaining
  induction remaining with
  | nil =>
    intro sorted _ _ hs
    simp only [List.foldl_nil, List.append_nil]
    exact ⟨hs, List.Perm.refl _⟩
  | cons pivot rest ih =>
    intro sorted hsS hrS hs
    have hpivot : S pivot := hrS pivot (List.mem_cons_self _ _)
    obtain ⟨h1, h2⟩ := binaryInsert_sorted compare k pivot sorted hs
      (fun x hx => hcmp pivot x hpivot (hsS x hx))
    have hS2 : ∀ x ∈ binaryInsert compare sorted pivot, S x := by
      intro x hx
      rcases List.mem_cons.1 (h2.mem_iff.1 hx) with e | e
      · rw [e]
        exact hpivot
      · exact hsS x e
    obtain ⟨h3, h4⟩ := ih (binaryInsert compare sorted pivot) hS2
      (fun x hx => hrS x (List.mem_cons_of_mem _ hx)) h1
    simp only [List.foldl_cons]
    refine ⟨h3, h4.trans ?_⟩
    refine (List.Perm.append_right rest h2).trans ?_
    simp only [List.cons_append]
    exact List.perm_middle.symm

/-- On fewer than 64 elements whose comparator is the difference of the keys,
`sort` returns a permutation sorted by non-increasing key. -/
theorem sortBy_sorted {α : Type} (compare : α → α → Int) (k : α → Nat) (S : α → Prop)
    (hcmp : ∀ a b, S a → S b → compare a b = (k b : Int) - (k a : Int))
    (l : List α) (hS : ∀ x ∈ l, S x) (hlen : l.length < 64) :
    ∃ rows, sortBy compare l = some rows ∧ rows.Perm l
      ∧ rows.Pairwise (fun a b => k b ≤ k a) := by
  obtain ⟨hperm, hrun⟩ := countAndMakeRun_spec compare k S hcmp l hS
  have hS1 : ∀ x ∈ (countAndMakeRun compare l).1, S x :=
    fun x hx => hS x (hperm.mem_iff.1 (List.mem_append_left _ hx))
  have hS2 : ∀ x ∈ (countAndMakeRun compare l).2, S x :=
    fun x hx => hS x (hperm.mem_iff.1 (List.mem_append_right _ hx))
  obtain ⟨h1, h2⟩ := foldl_binaryInsert_sorted compare k S hcmp _ _ hS1 hS2 hrun
  refine ⟨_, ?_, h2.trans hperm, h1⟩
  unfold sortBy
  rw [if_pos hlen]

/-- The severity-count display of a list without inherited names among its
severity labels, with fewer than 64 distinct labels: the rows are a permutation
of the entries of the distribution in non-increasing rank, where the rank is
Critical=5, High=4, Medium=3, Low=2, Info=1 and 0 for every other label. -/
theorem severityDisplay_sorted (vs : List Vulnerability)
    (hplain : ∀ v ∈ vs, v.severity ∉ objectPrototypeKeys)
    (hshort : (entries (getSeverityDistribution vs)).length < 64) :
    ∃ rows, severityDisplay vs = some rows
      ∧ rows.Perm (entries (getSeverityDistribution vs))
      ∧ rows.Pairwise (fun a b => specRank b.1 ≤ specRank a.1) := by
  have hkeys : ∀ p ∈ entries (getSeverityDistribution vs), p.1 ∉ objectPrototypeKeys := by
    intro p hp
    have hmem : p.1 ∈ ownKeys (getSeverityDistribution vs) :=
      List.mem_map_of_mem Prod.fst ((mem_entries _ p).1 hp)
    rw [(getSeverityDistribution_of_plain vs hplain).2.1, mem_firstOccurrences] at hmem
    obtain ⟨v, hv, e⟩ := List.mem_map.1 hmem
    exact e ▸ hplain v hv
  exact sortBy_sorted rankComparator (fun p => specRank p.1)
    (fun p => p.1 ∉ objectPrototypeKeys)
    (fun a b ha hb => by
      unfold rankComparator
      rw [lookupRank_of_plain _ ha, lookupRank_of_plain _ hb])
    _ hkeys hshort

/-- An evaluated display: the severities Low, High, Low, Critical are shown as
Critical 1, High 1, Low 2. -/
theorem severityDisplay_example :
    severityDisplay
        [{ title := "a", severity := "Low", category := none },
         { title := "b", severity := "High", category := none },
         { title := "c", severity := "Low", category := none },
         { title := "d", severity := "Critical", category := none }]
      = some [("Critical", .number 1), ("High", .number 1), ("Low", .number 2)] := by
  decide

/-- Claim C27, evaluated at a failing input: for the severities Low,
constructor, Critical the display keeps the rows in the order Low, constructor,
Critical, so the row of rank 0 precedes the row of rank 5.  Every comparison
with the row `constructor` is `NaN`, read as 0, although Low and Critical
compare as out of order; the array is taken as one finished run.  (For the
severities Low, Critical, constructor, High the same comparisons happen to
leave the rows in rank order: Critical, High, Low, constructor.) -/
theorem severityDisplay_unsorted_on_constructor :
    (severityDisplay
        [{ title := "a", severity := "Low", category := none },
         { title := "b", severity := "constructor", category := none },
         { title := "c", severity := "Critical", category := none }]).map
        (fun rows => rows.map Prod.fst)
      = some ["Low", "constructor", "Critical"]
    ∧ specRank "constructor" = 0
    ∧ specRank "Critical" = 5
    ∧ rankComparator ("Low", .number 1) ("constructor", .number 1) = 0
    ∧ rankComparator ("constructor", .number 1) ("Critical", .number 1) = 0
    ∧ rankComparator ("Low", .number 1) ("Critical", .number 1) = 3
    ∧ (severityDisplay
        [{ title := "a", severity := "Low", category := none },
         { title := "b", severity := "Critical", category := none },
         { title := "c", severity := "constructor", category := none },
         { title := "d", severity := "High", category := none }]).map
        (fun rows => rows.map Prod.fst)
      = some ["Critical", "High", "Low", "constructor"] := by
  decide

/-! ## Claims on the cancellation of the counter timer -/

/-- Under that condition the cleanup function stops every running timer. -/
theorem countUpCleanup_eq (s : CountUpState) (h : ∀ c ∈ s.timers, s.cleanup = some c.id) :
    countUpCleanup s = { s with timers := [], cleanup := none } := by
  unfold countUpCleanup
  cases hc : s.cleanup with
  | none =>
    simp only
    cases ht : s.timers with
    | nil =>
      cases s
      simp only at hc ht
      subst hc
      subst ht
      rfl
    | cons c rest =>
      have := h c (by simp [ht])
      rw [hc] at this
      cases this
  | some timer =>
    simp only
    have : s.timers.filter (fun c => c.id ≠ timer) = [] := by
      rw [List.filter_eq_nil_iff]
      intro c hmem
      have := h c hmem
      rw [hc] at this
      simp only [Option.some.injEq] at this
      simp [this]
    rw [this]

theorem countUpTick_of_no_timers (timer : Nat) (s : CountUpState) (h : s.timers = []) :
    countUpTick timer s = s := by
  unfold countUpTick
  rw [h]
  rfl

theorem countUpInv_tick (timer : Nat) (s : CountUpState) (h : CountUpInv s) :
    CountUpInv (countUpTick timer s) := by
  unfold countUpTick
  cases hf : s.timers.find? (fun c => c.id = timer) with
  | none => exact h
  | some c =>
    simp only
    split
    · intro d hd
      simp only [List.mem_map] at hd
      obtain ⟨d0, hd0, e⟩ := hd
      have h0 := h d0 hd0
      by_cases hid : d0.id = timer
      · simp only [hid, if_true] at e
        subst e
        exact ⟨hid ▸ h0.1, h0.2⟩
      · simp only [hid, if_false] at e
        subst e
        exact h0
    · intro d hd
      exact h d (List.mem_filter.1 hd).1

/-- State after a change of the result: the earlier timer is cleared, and a
present result starts the one timer of the new animation. -/
theorem countUpStep_changed (s : CountUpState) (h : CountUpInv s)
    (auditResult : Option AuditResult) (timer : Nat) :
    countUpStep s (.auditResultChanged auditResult timer)
      = match auditResult with
        | some r =>
          { auditResult := some r, animatedRisk := s.animatedRisk,
            timers := [{ id := timer, targetValue := r.detailedImpact.totalINR,
                         currentStep := 0 }],
            cleanup := some timer }
        | none => { auditResult := none, animatedRisk := 0, timers := [], cleanup := none } := by
  show countUpEffect timer (countUpCleanup { s with auditResult := auditResult }) = _
  rw [countUpCleanup_eq { s with auditResult := auditResult } (fun c hc => (h c hc).1)]
  cases auditResult <;> rfl

/-- State after the dashboard unmounts: no counter timer is running. -/
theorem countUpStep_unmounted (s : CountUpState) (h : CountUpInv s) :
    countUpStep s .unmounted = { s with timers := [], cleanup := none } :=
  countUpCleanup_eq s (fun c hc => (h c hc).1)

theorem countUpInv_step (s : CountUpState) (e : CountUpEvent) (h : CountUpInv s) :
    CountUpInv (countUpStep s e) := by
  cases e with
  | timerFires timer => exact countUpInv_tick timer s h
  | auditResultChanged auditResult timer =>
    rw [countUpStep_changed s h]
    cases auditResult with
    | none =>
      intro c hc
      cases hc
    | some r =>
      intro c hc
      simp only [List.mem_singleton] at hc
      subst hc
      exact ⟨rfl, r, rfl, rfl⟩
  | unmounted =>
    rw [countUpStep_unmounted s h]
    intro c hc
    cases hc

theorem countUpInv_session (events : List CountUpEvent) :
    CountUpInv (events.foldl countUpStep countUpMounted) := by
  induction events using List.reverseRecOn with
  | nil =>
    intro c hc
    cases hc
  | append_singleton es e ih =>
    rw [List.foldl_append]
    exact countUpInv_step _ e ih

/-- A firing of a running counter timer writes a frame of its own target or
the target itself. -/
theorem countUpTick_writes (timer : Nat) (s : CountUpState) :
    countUpTick timer s = s
      ∨ ∃ c ∈ s.timers, c.id = timer
          ∧ ((∃ k, 1 ≤ k ∧ k ≤ 60
                ∧ (countUpTick timer s).animatedRisk = counterFrame c.targetValue k)
              ∨ (countUpTick timer s).animatedRisk = c.targetValue) := by
  unfold countUpTick
  cases hf : s.timers.find? (fun c => c.id = timer) with
  | none => exact Or.inl rfl
  | some c =>
    right
    have hmem : c ∈ s.timers := List.mem_of_find?_eq_some hf
    have hid : c.id = timer := by
      have := List.find?_some hf
      simpa using this
    refine ⟨c, hmem, hid, ?_⟩
    simp only
    by_cases hle : c.currentStep + 1 ≤ 60
    · left
      exact ⟨c.currentStep + 1, by omega, hle, by simp [hle]⟩
    · right
      simp [hle]

/-- Claim C24: at every moment of a dashboard session, a running counter
timer was started for the current `auditResult`.  When the result changes to a
new result, the timer of the earlier result is cleared and the one running
timer is that of the new result; when the result is cleared or the dashboard
unmounts, no counter timer runs any more, so a firing of the earlier timer
writes nothing.  Hence every firing of a counter timer either does nothing or
writes a frame, or the total, of the current result. -/
theorem counter_timer_cancelled (events : List CountUpEvent) :
    (∀ c ∈ (events.foldl countUpStep countUpMounted).timers,
        ∃ r, (events.foldl countUpStep countUpMounted).auditResult = some r
          ∧ c.targetValue = r.detailedImpact.totalINR)
      ∧ (∀ (r : AuditResult) (timer : Nat),
          (countUpStep (events.foldl countUpStep countUpMounted)
              (.auditResultChanged (some r) timer)).timers
            = [{ id := timer, targetValue := r.detailedImpact.totalINR, currentStep := 0 }])
      ∧ (∀ (timer fired : Nat),
          (countUpStep (events.foldl countUpStep countUpMounted)
              (.auditResultChanged none timer)).timers = []
            ∧ countUpTick fired
                (countUpStep (events.foldl countUpStep countUpMounted)
                  (.auditResultChanged none timer))
              = countUpStep (events.foldl countUpStep countUpMounted)
                  (.auditResultChanged none timer))
      ∧ (∀ (fired : Nat),
          (countUpStep (events.foldl countUpStep countUpMounted) .unmounted).timers = []
            ∧ countUpTick fired
                (countUpStep (events.foldl countUpStep countUpMounted) .unmounted)
              = countUpStep (events.foldl countUpStep countUpMounted) .unmounted)
      ∧ (∀ (fired : Nat),
          countUpTick fired (events.foldl countUpStep countUpMounted)
              = events.foldl countUpStep countUpMounted
            ∨ ∃ r, (events.foldl countUpStep countUpMounted).auditResult = some r
                ∧ ((∃ k, 1 ≤ k ∧ k ≤ 60
                      ∧ (countUpTick fired (events.foldl countUpStep countUpMounted)).animatedRisk
                        = counterFrame r.detailedImpact.totalINR k)
                  ∨ (countUpTick fired (events.foldl countUpStep countUpMounted)).animatedRisk
                      = r.detailedImpact.totalINR)) := by
  have hinv := countUpInv_session events
  refine ⟨fun c hc => (hinv c hc).2, ?_, ?_, ?_, ?_⟩
  · intro r timer
    rw [countUpStep_changed _ hinv]
  · intro timer fired
    rw [countUpStep_changed _ hinv]
    exact ⟨rfl, rfl⟩
  · intro fired
    rw [countUpStep_unmounted _ hinv]
    exact ⟨rfl, rfl⟩
  · intro fired
    rcases countUpTick_writes fired (events.foldl countUpStep countUpMounted) with h | h
    · exact Or.inl h
    · obtain ⟨c, hc, _, hw⟩ := h
      obtain ⟨_, r, hr, ht⟩ := hinv c hc
      right
      refine ⟨r, hr, ?_⟩
      rw [← ht]
      exact_mod_cast hw

/-- An evaluated session: a result of total 600 starts timer 1, which fires
twice; the result changes to one of total 1200 and starts timer 2; a late
firing of timer 1 changes nothing, and the next firing of timer 2 writes the
first frame of the new total. -/
theorem countUp_session_example (r₁ r₂ : AuditResult)
    (h₁ : r₁.detailedImpact.totalINR = 600) (h₂ : r₂.detailedImpact.totalINR = 1200) :
    [CountUpEvent.auditResultChanged (some r₁) 1, .timerFires 1, .timerFires 1,
        .auditResultChanged (some r₂) 2, .timerFires 1].foldl countUpStep countUpMounted
      = { auditResult := some r₂, animatedRisk := counterFrame 600 2,
          timers := [{ id := 2, targetValue := 1200, currentStep := 0 }], cleanup := some 2 }
    ∧ ([CountUpEvent.auditResultChanged (some r₁) 1, .timerFires 1, .timerFires 1,
        .auditResultChanged (some r₂) 2, .timerFires 1, .timerFires 2].foldl countUpStep
          countUpMounted).animatedRisk = counterFrame 1200 1 := by
  simp [countUpStep, countUpTick, countUpEffect, countUpCleanup, countUpMounted, h₁, h₂]

/-! ## Claims on the cancellation of the scan timers -/

theorem runEffects_codeStart (s : ScanState) (codeSnippet : String) (timer : Nat)
    (h : trimIsEmpty codeSnippet = false) :
    runEffects s (handleCodeAuditStart codeSnippet timer)
      = { s with
          loading := true, isScanning := true, scanStep := 0,
          intervals := s.intervals ++ [timer],
          requests := s.requests ++ [.audit codeSnippet "auto-detect"] } := by
  simp [handleCodeAuditStart, h, runEffects, applyEffect]

theorem runEffects_codeStart_blank (s : ScanState) (codeSnippet : String) (timer : Nat)
    (h : trimIsEmpty codeSnippet = true) :
    runEffects s (handleCodeAuditStart codeSnippet timer)
      = { s with toasts := s.toasts ++ ["Please enter code to audit"] } := by
  simp [handleCodeAuditStart, h, runEffects, applyEffect]

theorem runEffects_repoStart_of_input (s : ScanState) (activeTab githubUrl : String)
    (file : Option UploadedFile) (timer : Nat)
    (h : hasRepoInput activeTab githubUrl file = true) :
    (runEffects s (handleRepoAuditStart activeTab githubUrl file timer)).isScanning = true
      ∧ (runEffects s (handleRepoAuditStart activeTab githubUrl file timer)).intervals
          = s.intervals ++ [timer]
      ∧ (runEffects s (handleRepoAuditStart activeTab githubUrl file timer)).timeouts
          = s.timeouts := by
  unfold hasRepoInput at h
  unfold handleRepoAuditStart
  by_cases h1 : activeTab = "github" ∧ githubUrl ≠ ""
  · simp [h1, runEffects, applyEffect]
  · have h2 : activeTab = "upload" ∧ file.isSome = true := by
      simp only [Bool.or_eq_true, Bool.and_eq_true, decide_eq_true_eq] at h
      rcases h with h | h
      · exact absurd h h1
      · exact h
    obtain ⟨h3, h4⟩ := h2
    cases file with
    | none => simp at h4
    | some f => simp [h1, h3, runEffects, applyEffect]

theorem runEffects_repoStart_of_no_input (s : ScanState) (activeTab githubUrl : String)
    (file : Option UploadedFile) (timer : Nat)
    (h : hasRepoInput activeTab githubUrl file = false) :
    (runEffects s (handleRepoAuditStart activeTab githubUrl file timer)).isScanning = false
      ∧ (runEffects s (handleRepoAuditStart activeTab githubUrl file timer)).intervals
          = (s.intervals ++ [timer]).filter (fun t => t ≠ timer)
      ∧ (runEffects s (handleRepoAuditStart activeTab githubUrl file timer)).timeouts
          = s.timeouts := by
  unfold hasRepoInput at h
  unfold handleRepoAuditStart
  simp only [Bool.or_eq_false_iff, Bool.and_eq_false_imp, decide_eq_true_eq] at h
  obtain ⟨h1, h2⟩ := h
  have h3 : ¬ (activeTab = "github" ∧ githubUrl ≠ "") := by
    rintro ⟨e1, e2⟩
    have := h1 e1
    simp at this
    exact e2 this
  cases file with
  | none => simp [h3, runEffects, applyEffect]
  | some f =>
    have h4 : activeTab ≠ "upload" := by
      intro e
      have := h2 e
      simp at this
    simp [h3, h4, runEffects, applyEffect]

theorem intervalFires_fields (timer : Nat) (s : ScanState) :
    (intervalFires timer s).isScanning = s.isScanning
      ∧ (intervalFires timer s).intervals = s.intervals
      ∧ (intervalFires timer s).timeouts = s.timeouts := by
  unfold intervalFires
  split <;> exact ⟨rfl, rfl, rfl⟩

theorem isScanning_of_canAnalyze (s : ScanState) (h : canAnalyze s = true) :
    s.isScanning = false := by
  unfold canAnalyze at h
  cases hs : s.isScanning
  · rfl
  · simp [hs] at h

/-- Where an audit button can be used, nothing is pending. -/
theorem idle_of_canAnalyze (d : ScanRun) (h : ScanInv d) (hc : canAnalyze d.scan = true) :
    d.scan.intervals = [] ∧ d.scan.timeouts = [] ∧ d.inFlight = [] := by
  have hs := isScanning_of_canAnalyze d.scan hc
  rcases h with ⟨_, hi, ht, hf⟩ | ⟨h1, _⟩ | ⟨h1, _⟩
  · exact ⟨hi, ht, hf⟩
  · rw [hs] at h1
    cases h1
  · rw [hs] at h1
    cases h1

theorem scanInv_analyzeCode (d : ScanRun) (h : ScanInv d) (codeSnippet : String)
    (timer : Nat) : ScanInv (scanEvent d (.analyzeCode codeSnippet timer)) := by
  show ScanInv (if canAnalyze d.scan then _ else d)
  by_cases hc : canAnalyze d.scan = true
  · obtain ⟨hi, ht, hf⟩ := idle_of_canAnalyze d h hc
    have hs := isScanning_of_canAnalyze d.scan hc
    simp only [hc, if_true]
    by_cases hb : trimIsEmpty codeSnippet = true
    · rw [runEffects_codeStart_blank _ _ _ hb]
      simp only [hb, if_true]
      exact Or.inl ⟨hs, hi, ht, hf⟩
    · have hb2 : trimIsEmpty codeSnippet = false := by
        cases h0 : trimIsEmpty codeSnippet
        · rfl
        · exact absurd h0 hb
      rw [runEffects_codeStart _ _ _ hb2]
      refine Or.inr (Or.inl ⟨rfl, { timer := timer, repo := false }, ?_, ?_, ht⟩)
      · simp [hb2, hf]
      · simp [hi]
  · simp only [hc]
    exact h

theorem scanInv_analyzeRepo (d : ScanRun) (h : ScanInv d) (activeTab githubUrl : String)
    (file : Option UploadedFile) (timer : Nat) :
    ScanInv (scanEvent d (.analyzeRepo activeTab githubUrl file timer)) := by
  show ScanInv (if canAnalyze d.scan then _ else d)
  by_cases hc : canAnalyze d.scan = true
  · obtain ⟨hi, ht, hf⟩ := idle_of_canAnalyze d h hc
    simp only [hc, if_true]
    cases hin : hasRepoInput activeTab githubUrl file
    · obtain ⟨e1, e2, e3⟩ := runEffects_repoStart_of_no_input d.scan activeTab githubUrl file
        timer hin
      refine Or.inl ⟨e1, ?_, ?_, ?_⟩
      · show (runEffects d.scan _).intervals = []
        rw [e2, hi]
        simp
      · show (runEffects d.scan _).timeouts = []
        rw [e3, ht]
      · simpa using hf
    · obtain ⟨e1, e2, e3⟩ := runEffects_repoStart_of_input d.scan activeTab githubUrl file
        timer hin
      refine Or.inr (Or.inl ⟨e1, { timer := timer, repo := true }, ?_, ?_, ?_⟩)
      · simp [hf]
      · show (runEffects d.scan _).intervals = [timer]
        rw [e2, hi]
        rfl
      · show (runEffects d.scan _).timeouts = []
        rw [e3, ht]
  · simp only [hc]
    exact h

/-- A response is handled only in the requesting phase, by the run that holds
the one step timer. -/
theorem requesting_of_find (d : ScanRun) (h : ScanInv d) (timer : Nat) (p : PendingRequest)
    (hf : d.inFlight.find? (fun q => q.timer = timer) = some p) :
    d.scan.isScanning = true ∧ d.inFlight = [p] ∧ p.timer = timer
      ∧ d.scan.intervals = [timer] ∧ d.scan.timeouts = [] := by
  have hmem : p ∈ d.inFlight := List.mem_of_find?_eq_some hf
  have hid : p.timer = timer := by
    have := List.find?_some hf
    simpa using this
  rcases h with ⟨_, _, _, h0⟩ | ⟨hs, p0, h0, hi, ht⟩ | ⟨_, _, h0, _, _⟩
  · rw [h0] at hmem
    cases hmem
  · rw [h0, List.mem_singleton] at hmem
    subst hmem
    exact ⟨hs, h0, hid, hid ▸ hi, ht⟩
  · rw [h0] at hmem
    cases hmem

theorem scanInv_resolved (d : ScanRun) (h : ScanInv d) (response : AuditResult)
    (timer : Nat) : ScanInv (scanEvent d (.resolved response timer)) := by
  show ScanInv (match d.inFlight.find? (fun p => p.timer = timer) with
    | some p => _
    | none => d)
  cases hf : d.inFlight.find? (fun p => p.timer = timer) with
  | none => exact h
  | some p =>
    obtain ⟨hs, h0, hid, hi, ht⟩ := requesting_of_find d h timer p hf
    simp only
    have e : (if p.repo = true then handleRepoAuditResolved response timer
        else handleCodeAuditResolved response timer)
          = handleCodeAuditResolved response timer := by
      rw [handleRepoAuditResolved_eq]
      simp
    rw [e, runEffects_resolved]
    refine Or.inr (Or.inr ⟨hs, response, ?_, ?_, ?_⟩)
    · simp [h0, hid]
    · simp [hi]
    · simp [ht]

theorem scanInv_rejected (d : ScanRun) (h : ScanInv d) (error : AxiosError)
    (timer : Nat) : ScanInv (scanEvent d (.rejected error timer)) := by
  show ScanInv (match d.inFlight.find? (fun p => p.timer = timer) with
    | some p => _
    | none => d)
  cases hf : d.inFlight.find? (fun p => p.timer = timer) with
  | none => exact h
  | some p =>
    obtain ⟨_, h0, hid, hi, ht⟩ := requesting_of_find d h timer p hf
    simp only
    have e : (if p.repo = true then handleRepoAuditRejected error timer
        else handleCodeAuditRejected error timer)
          = handleCodeAuditRejected error timer := by
      rw [handleRepoAuditRejected_eq]
      simp
    rw [e, runEffects_rejected]
    refine Or.inl ⟨rfl, ?_, ht, ?_⟩
    · simp [hi]
    · simp [h0, hid]

theorem scanInv_graceFires (d : ScanRun) (h : ScanInv d) (response : AuditResult) :
    ScanInv (scanEvent d (.graceFires response)) := by
  show ScanInv { d with scan := timeoutFires response d.scan }
  unfold timeoutFires
  by_cases hm : response ∈ d.scan.timeouts
  · simp only [hm, if_true]
    rcases h with ⟨_, _, ht, _⟩ | ⟨_, _, _, _, ht⟩ | ⟨_, r, hf, hi, ht⟩
    · rw [ht] at hm
      cases hm
    · rw [ht] at hm
      cases hm
    · rw [ht, List.mem_singleton] at hm
      subst hm
      refine Or.inl ⟨?_, ?_, ?_, hf⟩
      · simp [runEffects, publishCallback, applyEffect]
      · simp [runEffects, publishCallback, applyEffect, hi]
      · simp [runEffects, publishCallback, applyEffect, ht]
  · simp only [hm, if_false]
    exact h

theorem scanInv_event (d : ScanRun) (e : ScanEvent) (h : ScanInv d) :
    ScanInv (scanEvent d e) := by
  cases e with
  | analyzeCode codeSnippet timer => exact scanInv_analyzeCode d h codeSnippet timer
  | analyzeRepo activeTab githubUrl file timer =>
    exact scanInv_analyzeRepo d h activeTab githubUrl file timer
  | stepTimerFires timer =>
    obtain ⟨e1, e2, e3⟩ := intervalFires_fields timer d.scan
    show ScanInv { d with scan := intervalFires timer d.scan }
    unfold ScanInv
    simp only [e1, e2, e3]
    exact h
  | resolved response timer => exact scanInv_resolved d h response timer
  | rejected error timer => exact scanInv_rejected d h error timer
  | graceFires response => exact scanInv_graceFires d h response

/-- Every state of a dashboard session is in one of the three phases. -/
theorem scanInv_session (events : List ScanEvent) : ScanInv (scanSession events) := by
  unfold scanSession
  induction events using List.reverseRecOn with
  | nil => exact Or.inl ⟨rfl, rfl, rfl, rfl⟩
  | append_singleton es e ih =>
    rw [List.foldl_append]
    exact scanInv_event _ e ih

/-- Claim C25, evaluated at a failing input: the dashboard is unmounted while
the scan started by `handleCodeAudit` on the snippet `x = 1` is in flight.
Unmounting leaves the scan state and its timers as they are, for every
dashboard; here step timer 1 keeps running and its callback is still called.
When the response arrives the handler clears the timer and schedules the
publishing callback, which is still pending after the unmount and runs: it
shows the completion message, and its writes of `auditResult`, `isScanning`
and `scanStep` are discarded.  The counter timer of a running count-up
animation, in contrast, is cleared by the unmount. -/
theorem unmount_leaves_scan_timers :
    (∀ d : Dashboard, (dashboardUnmounted d).scan = d.scan)
      ∧ (dashboardUnmounted
          { mounted := true, scan := (scanSession [.analyzeCode "x = 1" 1]).scan,
            countUp := countUpMounted }).scan.intervals = [1]
      ∧ stepCallbackRuns 1
          (dashboardUnmounted
            { mounted := true, scan := (scanSession [.analyzeCode "x = 1" 1]).scan,
              countUp := countUpMounted }) = true
      ∧ (runEffectsOn
          (dashboardUnmounted
            { mounted := true, scan := (scanSession [.analyzeCode "x = 1" 1]).scan,
              countUp := countUpMounted })
          (handleCodeAuditResolved
            { security_score := 90, vulnerabilities := [],
              detailedImpact :=
                { totalINR := 0,
                  breakdown := { fixCost := 0, downtime := 0, regulatoryFines := 0,
                                 reputation := 0 } } } 1)).scan.timeouts
        = [{ security_score := 90, vulnerabilities := [],
             detailedImpact :=
               { totalINR := 0,
                 breakdown := { fixCost := 0, downtime := 0, regulatoryFines := 0,
                                reputation := 0 } } }]
      ∧ (graceFiresOn
          { security_score := 90, vulnerabilities := [],
            detailedImpact :=
              { totalINR := 0,
                breakdown := { fixCost := 0, downtime := 0, regulatoryFines := 0,
                               reputation := 0 } } }
          (runEffectsOn
            (dashboardUnmounted
              { mounted := true, scan := (scanSession [.analyzeCode "x = 1" 1]).scan,
                countUp := countUpMounted })
            (handleCodeAuditResolved
              { security_score := 90, vulnerabilities := [],
                detailedImpact :=
                  { totalINR := 0,
                    breakdown := { fixCost := 0, downtime := 0, regulatoryFines := 0,
                                   reputation := 0 } } } 1))).scan
        = { loading := true, isScanning := true, scanStep := 0, auditResult := none,
            intervals := [], timeouts := [],
            requests := [.audit "x = 1" "auto-detect"],
            toasts := ["Security audit completed"] }
      ∧ (dashboardUnmounted
          { mounted := true, scan := scanMounted.scan,
            countUp :=
              { auditResult := none, animatedRisk := 0,
                timers := [{ id := 7, targetValue := 600, currentStep := 3 }],
                cleanup := some 7 } }).countUp.timers = [] := by
  refine ⟨fun _ => rfl, ?_, ?_, ?_, ?_, ?_⟩ <;> decide

/-- On a mounted dashboard a scan can be started only from the input form,
which is rendered while no scan screen and no result is shown and whose
buttons are disabled while loading, and in every such state of a dashboard
session no step timer is running, no publishing callback is pending and no
request is in flight, each step timer having been cleared by its own handler
run.  So after a scan has been started with the step timer `timer`, the firing
of any other step timer and of any publishing callback changes nothing. -/
theorem new_scan_has_no_stale_callback (events : List ScanEvent) (start : ScanEvent)
    (timer : Nat)
    (hstart : (∃ codeSnippet, start = .analyzeCode codeSnippet timer)
      ∨ ∃ activeTab githubUrl file, start = .analyzeRepo activeTab githubUrl file timer)
    (h : canAnalyze (scanSession events).scan = true) :
    (scanSession events).scan.intervals = []
      ∧ (scanSession events).scan.timeouts = []
      ∧ (scanSession events).inFlight = []
      ∧ (∀ t, t ≠ timer →
          intervalFires t (scanEvent (scanSession events) start).scan
            = (scanEvent (scanSession events) start).scan)
      ∧ (∀ response,
          timeoutFires response (scanEvent (scanSession events) start).scan
            = (scanEvent (scanSession events) start).scan) := by
  obtain ⟨hi, ht, hf⟩ := idle_of_canAnalyze _ (scanInv_session events) h
  have hsub : (∀ t ∈ (scanEvent (scanSession events) start).scan.intervals, t = timer)
      ∧ (scanEvent (scanSession events) start).scan.timeouts = [] := by
    rcases hstart with ⟨codeSnippet, e⟩ | ⟨activeTab, githubUrl, file, e⟩
    · subst e
      show (∀ t ∈ (if canAnalyze (scanSession events).scan then _
          else scanSession events).scan.intervals, t = timer)
        ∧ (if canAnalyze (scanSession events).scan then _
          else scanSession events).scan.timeouts = []
      simp only [h, if_true]
      cases hb : trimIsEmpty codeSnippet
      · rw [runEffects_codeStart _ _ _ hb]
        simp [hi, ht]
      · rw [runEffects_codeStart_blank _ _ _ hb]
        simp [hi, ht]
    · subst e
      show (∀ t ∈ (if canAnalyze (scanSession events).scan then _
          else scanSession events).scan.intervals, t = timer)
        ∧ (if canAnalyze (scanSession events).scan then _
          else scanSession events).scan.timeouts = []
      simp only [h, if_true]
      cases hin : hasRepoInput activeTab githubUrl file
      · obtain ⟨_, e2, e3⟩ := runEffects_repoStart_of_no_input (scanSession events).scan
          activeTab githubUrl file timer hin
        refine ⟨?_, ?_⟩
        · show ∀ t ∈ (runEffects (scanSession events).scan _).intervals, t = timer
          rw [e2, hi]
          simp
        · show (runEffects (scanSession events).scan _).timeouts = []
          rw [e3, ht]
      · obtain ⟨_, e2, e3⟩ := runEffects_repoStart_of_input (scanSession events).scan
          activeTab githubUrl file timer hin
        refine ⟨?_, ?_⟩
        · show ∀ t ∈ (runEffects (scanSession events).scan _).intervals, t = timer
          rw [e2, hi]
          simp
        · show (runEffects (scanSession events).scan _).timeouts = []
          rw [e3, ht]
  refine ⟨hi, ht, hf, ?_, ?_⟩
  · intro t hne
    unfold intervalFires
    have : t ∉ (scanEvent (scanSession events) start).scan.intervals :=
      fun hm => hne (hsub.1 t hm)
    simp [this]
  · intro response
    unfold timeoutFires
    rw [hsub.2]
    simp

/-- An evaluated session: after a scan that failed (timer 1), an audit button
can be used again; nothing is pending, and after the start of a second scan
with timer 2 a firing of timer 1 changes nothing. -/
theorem new_scan_has_no_stale_callback_example :
    canAnalyze
        (scanSession
          [.analyzeCode "x = 1" 1, .stepTimerFires 1,
           .rejected { detail := none, message := "Network Error" } 1]).scan = true
      ∧ (scanSession
          [.analyzeCode "x = 1" 1, .stepTimerFires 1,
           .rejected { detail := none, message := "Network Error" } 1]).scan.intervals = []
      ∧ intervalFires 1
          (scanEvent
            (scanSession
              [.analyzeCode "x = 1" 1, .stepTimerFires 1,
               .rejected { detail := none, message := "Network Error" } 1])
            (.analyzeCode "y = 2" 2)).scan
        = (scanEvent
            (scanSession
              [.analyzeCode "x = 1" 1, .stepTimerFires 1,
               .rejected { detail := none, message := "Network Error" } 1])
            (.analyzeCode "y = 2" 2)).scan :=
  ⟨by decide,
    (new_scan_has_no_stale_callback
      [.analyzeCode "x = 1" 1, .stepTimerFires 1,
       .rejected { detail := none, message := "Network Error" } 1]
      (.analyzeCode "y = 2" 2) 2 (Or.inl ⟨"y = 2", rfl⟩) (by decide)).1,
    (new_scan_has_no_stale_callback
      [.analyzeCode "x = 1" 1, .stepTimerFires 1,
       .rejected { detail := none, message := "Network Error" } 1]
      (.analyzeCode "y = 2" 2) 2 (Or.inl ⟨"y = 2", rfl⟩) (by decide)).2.2.2.1 1 (by decide)⟩

end VulnExplain
